import Mathlib

/-!
# Index tables of mxflib (`mxflib/index.h`)

A shallow embedding of the index-table classes of `mxflib/index.h` and of the
properties their description states about them.

Conventions of the embedding

* `int` values are integers; the result of an `int` computation is passed through
  `toInt32` (two's-complement wrap-around), so that no statement silently relies on
  unbounded arithmetic.  `UInt32` sums are reduced modulo `2^32`, an `int` stored in
  a `UInt8` field is reduced modulo `2^8`, and a location computed by a look-up is
  passed through `toPosition` (signed 64-bit).
* a C array together with its element count is a list; `DefineDeltaArray` receives
  the count and the array separately, as in the source, and reads the first
  `DeltaCount` elements of the array.
* heap management (`new[]`, `delete[]`, reference counts) is not modelled.
-/

namespace mxflib

/-! ## Machine integers -/

/-- Value of an `int` (signed 32-bit) computation whose mathematical result is `x`. -/
def toInt32 (x : Int) : Int := (x + 2147483648) % 4294967296 - 2147483648

/-- Conversion of an `int` to `UInt8` (the implicit narrowing of `Slice = NSL`). -/
def toUInt8 (x : Int) : Nat := (x % 256).toNat

/-- Value of a `Position` or `Int64` (signed 64-bit) computation whose mathematical
result is `x`. -/
def toPosition (x : Int) : Int :=
  (x + 9223372036854775808) % 18446744073709551616 - 9223372036854775808

/-- Conversion to `UInt64`. -/
def toUInt64 (x : Int) : Nat := (x % 18446744073709551616).toNat

/-- Modelled from the spec: `PutU32`, the big-endian writer that `index.h` calls but
that is defined in the endian helpers of the library (not part of the sources at
hand).  The spec fixes `element_delta` as "unsigned 32-bit, big-endian on the wire":
the four bytes of `x`, most significant first. -/
def PutU32 (x : Nat) : List Nat :=
  [x / 16777216 % 256, x / 65536 % 256, x / 256 % 256, x % 256]

/-- Big-endian value of a byte string. -/
def getBE (bytes : List Nat) : Nat := bytes.foldl (fun acc b => acc * 256 + b) 0

/-- Modelled from the spec: `GetU32`, the big-endian reader matching `PutU32`. -/
def GetU32 (bytes : List Nat) : Nat := getBE (bytes.take 4)

/-! ## Data model -/

/-- A pair of 32-bit integers (`Rational` of the library). -/
structure Rational where
  Numerator : Int
  Denominator : Int
deriving DecidableEq

/-- The `struct DeltaEntry` of `index.h`: `Int8 PosTableIndex`, `UInt8 Slice`,
`UInt8 ElementDelta[4]`. -/
structure DeltaEntry where
  PosTableIndex : Int
  Slice : Nat
  ElementDelta : List Nat
deriving DecidableEq

/-- The fields of a `DeltaEntry` lie in the range of their C types
(`Int8`, `UInt8`, four `UInt8`). -/
def DeltaEntry.InRange (d : DeltaEntry) : Prop :=
  -128 ≤ d.PosTableIndex ∧ d.PosTableIndex ≤ 127 ∧ d.Slice ≤ 255 ∧
    d.ElementDelta.length = 4 ∧ ∀ b ∈ d.ElementDelta, b ≤ 255

instance (d : DeltaEntry) : Decidable d.InRange := by
  unfold DeltaEntry.InRange; infer_instance

/-- The result of an index table look-up (`class IndexPos`): `ThisPos` is a `UInt64`,
`Location` a `Position` and `KeyLocation` an `Int64` (both signed 64-bit), the two
offsets are `Int8` and `Flags` is a `UInt8`. -/
structure IndexPos where
  ThisPos : Nat
  Location : Int
  PosOffset : Rational
  Exact : Bool
  OtherPos : Bool
  Offset : Bool
  KeyFrameOffset : Int
  TemporalOffset : Int
  KeyLocation : Int
  Flags : Nat
deriving DecidableEq

/-- The state of a `class ReorderIndex`: the packed entries, the two counters, the
first position and the entry size. -/
structure ReorderIndex where
  IndexEntries : List Nat
  CompleteEntryCount : Int
  EntryCount : Int
  FirstPosition : Int
  IndexEntrySize : Nat
deriving DecidableEq

/-- The data members of `class IndexSegment` (the back pointer to the owning table
is left out): start position, delta array and the packed index entries. -/
structure IndexSegment where
  StartPosition : Int
  DeltaCount : Int
  DeltaArray : List DeltaEntry
  EntryCount : Int
  IndexEntryArray : List Nat
deriving DecidableEq

/-- The data members of `class IndexTable`.  `SegmentMap` (a `std::map` keyed by
start position) is the list of its segments, each carrying its key in
`StartPosition`; `Reorder` is `none` for a null pointer. -/
structure IndexTable where
  IndexDuration : Int
  IndexSID : Nat
  BodySID : Nat
  EditRate : Rational
  EditUnitByteCount : Nat
  BaseDeltaCount : Int
  BaseDeltaArray : List DeltaEntry
  SegmentMap : List IndexSegment
  NSL : Int
  NPE : Int
  IndexEntrySize : Int
  Reorder : Option ReorderIndex
deriving DecidableEq

/-! ## `IndexTable`: construction and `DefineDeltaArray` -/

/-- The constructor `IndexTable::IndexTable()` (named `new`, as a definition
`IndexTable.IndexTable` would hide the type inside its own namespace).  The members
it does not touch are given their empty value: no delta entries (`BaseDeltaCount` is
0), no segments, a null `Reorder`, and 0 for the denominator of the edit rate. -/
def IndexTable.new : IndexTable :=
  { IndexDuration := 0
    IndexSID := 0
    BodySID := 0
    EditRate := { Numerator := 0, Denominator := 0 }
    EditUnitByteCount := 0
    BaseDeltaCount := 0
    BaseDeltaArray := []
    SegmentMap := []
    NSL := 0
    NPE := 0
    IndexEntrySize := 11
    Reorder := none }

/-- The loop of `DefineDeltaArray(int, DeltaEntry*)`: one pass over the copied
entries, raising `NPE` and `NSL` (returned in this order: `(NSL, NPE)`). -/
def DefineDeltaArray.loop : List DeltaEntry → Int → Int → Int × Int
  | [], NSL, NPE => (NSL, NPE)
  | d :: rest, NSL, NPE =>
    let NPE1 := if d.PosTableIndex > NPE then d.PosTableIndex else NPE
    let NSL1 := if (d.Slice : Int) > NSL then (d.Slice : Int) else NSL
    DefineDeltaArray.loop rest NSL1 NPE1

/-- The overload `IndexTable::DefineDeltaArray(int DeltaCount, DeltaEntry *DeltaArray)`.
The old array is deleted first.  With a zero count the function returns right after
storing the count, leaving a table without delta entries and without touching `NSL`,
`NPE` or `IndexEntrySize`; otherwise the first `DeltaCount` entries are copied
(`memcpy`), and `NSL`, `NPE` and `IndexEntrySize` are computed from the copy.  The
count is a natural number: a negative count is no array length. -/
def IndexTable.DefineDeltaArray (t : IndexTable) (DeltaCount : Nat)
    (DeltaArray : List DeltaEntry) : IndexTable :=
  if DeltaCount = 0 then
    { t with BaseDeltaCount := 0, BaseDeltaArray := [] }
  else
    let copy := DeltaArray.take DeltaCount
    let r := DefineDeltaArray.loop copy 0 0
    { t with
      BaseDeltaCount := DeltaCount
      BaseDeltaArray := copy
      NSL := r.1
      NPE := r.2
      IndexEntrySize := toInt32 (11 + 4 * r.1 + 8 * r.2) }

/-- The loop of `DefineDeltaArray(int, UInt32*)`, from index `i` on: `sizes` are the
element sizes not yet visited, `Delta` the running delta of the current slice and
`NSL` the current slice number.  Returns the entries written and the final `NSL`. -/
def DefineDeltaArrayFromSizes.loop (DeltaCount : Int) :
    Int → List Nat → Nat → Int → List DeltaEntry × Int
  | _, [], _, NSL => ([], NSL)
  | i, size :: rest, Delta, NSL =>
    let entry : DeltaEntry :=
      { PosTableIndex := 0, Slice := toUInt8 NSL, ElementDelta := PutU32 Delta }
    let Delta1 := (Delta + size) % 4294967296
    if i ≠ DeltaCount - 1 ∧ size = 0 then
      let r := DefineDeltaArrayFromSizes.loop DeltaCount (i + 1) rest 0 (toInt32 (NSL + 1))
      (entry :: r.1, r.2)
    else
      let r := DefineDeltaArrayFromSizes.loop DeltaCount (i + 1) rest Delta1 NSL
      (entry :: r.1, r.2)

/-- The overload `IndexTable::DefineDeltaArray(int DeltaCount, UInt32 *ElementSizes)`
(overloads cannot share a name here).  The old array is deleted first.  With a zero
count the function returns right after storing the count, as in the other overload;
otherwise one entry is written per element size, and `IndexEntrySize` is computed
from the final `NSL` and `NPE = 0`. -/
def IndexTable.DefineDeltaArrayFromSizes (t : IndexTable) (DeltaCount : Nat)
    (ElementSizes : List Nat) : IndexTable :=
  if DeltaCount = 0 then
    { t with BaseDeltaCount := 0, BaseDeltaArray := [] }
  else
    let r := DefineDeltaArrayFromSizes.loop DeltaCount 0 (ElementSizes.take DeltaCount) 0 0
    { t with
      BaseDeltaCount := DeltaCount
      BaseDeltaArray := r.1
      NSL := r.2
      NPE := 0
      IndexEntrySize := toInt32 (11 + 4 * r.2 + 8 * 0) }

/-! ## Quantities the description speaks about -/

/-- The largest `Slice` of a delta array (0 for the empty array). -/
def maxSlice (a : List DeltaEntry) : Int :=
  (a.map fun d => (d.Slice : Int)).foldr max 0

/-- The largest `PosTableIndex` of a delta array, negative indices counting as 0
(0 for the empty array). -/
def maxPosTableIndex (a : List DeltaEntry) : Int :=
  (a.map fun d => max d.PosTableIndex 0).foldr max 0

/-- The element sizes that follow the last zero-sized one (all of them when none is
zero). -/
def afterLastZero (sizes : List Nat) : List Nat :=
  (sizes.reverse.takeWhile fun s => s ≠ 0).reverse

/-- The running accumulator the description assigns to entry `i`: the sum, as an
unsigned 32-bit value, of `sizes[k]` over the `k < i` after the last zero-sized
element before `i`. -/
def runningDelta (sizes : List Nat) (i : Nat) : Nat :=
  (afterLastZero (sizes.take i)).sum % 4294967296

/-- Number of zero-sized elements among `sizes[0..i-1]`. -/
def zerosBefore (sizes : List Nat) (i : Nat) : Nat := (sizes.take i).count 0

/-- Number of zero-sized elements in non-last positions. -/
def zerosNotLast (sizes : List Nat) : Nat := sizes.dropLast.count 0

/-! ## `IndexTable::Lookup`

`index.h` only declares `GetSegment` and `Lookup`; their bodies are not part of the
sources at hand.  They are modelled from the description of the look-up algorithm,
with the types `index.h` gives the fields of the result (a location is a signed 64-bit
`Position`, `ThisPos` an unsigned 64-bit value) and with the meaning it documents for
them: `Location` is "the location of the start of ThisPos edit unit in the essence
container", and when `Exact` is false and `OtherPos` true it is that of "a different
edit unit", "a hint of where to start looking". -/

/-- Modelled from the spec: a signed 8-bit field read from its byte (the `i8` fields
of an index entry). -/
def GetI8 (b : Nat) : Int := if b < 128 then (b : Int) else (b : Int) - 256

/-- Modelled from the spec: a signed 32-bit big-endian field (the halves of a pos-table
`Rational`). -/
def GetI32 (bytes : List Nat) : Int :=
  if GetU32 bytes < 2147483648 then (GetU32 bytes : Int) else (GetU32 bytes : Int) - 4294967296

/-- Modelled from the spec: the bytes of entry `i` of a segment, "packed bytes of length
`entry_count * entry_size`" indexed by entry number. -/
def IndexSegment.entry (S : IndexSegment) (entrySize : Nat) (i : Nat) : List Nat :=
  (S.IndexEntryArray.drop (i * entrySize)).take entrySize

/-- Modelled from the spec: entry layout, `int8 temporal_offset` at offset 0. -/
def entryTemporalOffset (E : List Nat) : Int := GetI8 (E.getD 0 0)

/-- Modelled from the spec: entry layout, `int8 key_frame_offset` at offset 1. -/
def entryKeyFrameOffset (E : List Nat) : Int := GetI8 (E.getD 1 0)

/-- Modelled from the spec: entry layout, `uint8 flags` at offset 2. -/
def entryFlags (E : List Nat) : Nat := E.getD 2 0

/-- Modelled from the spec: entry layout, `uint64 stream_offset` (big-endian) at
offset 3. -/
def entryStreamOffset (E : List Nat) : Nat := getBE ((E.drop 3).take 8)

/-- Modelled from the spec: entry layout, `uint32 slice_offset[k]` at offset
`11 + 4*k`. -/
def entrySliceOffset (E : List Nat) (k : Nat) : Nat := GetU32 (E.drop (11 + 4 * k))

/-- Modelled from the spec: entry layout, `rational pos_entry[k]` at offset
`11 + 4*NSL + 8*k`. -/
def entryPosTable (E : List Nat) (NSL : Nat) (k : Nat) : Rational :=
  { Numerator := GetI32 (E.drop (11 + 4 * NSL + 8 * k))
    Denominator := GetI32 (E.drop (11 + 4 * NSL + 8 * k + 4)) }

/-- Modelled from the spec: the segment of greatest start position among those
satisfying `p` (the segment map is ordered by start position). -/
def greatestSegment (p : IndexSegment → Bool) : List IndexSegment → Option IndexSegment
  | [] => none
  | S :: rest =>
    match greatestSegment p rest with
    | none => if p S then some S else none
    | some B => if p S && decide (B.StartPosition < S.StartPosition) then some S else some B

/-- Modelled from the spec: `IndexTable::GetSegment`, "the segment with greatest
`start_position ≤ edit_unit` such that `edit_unit < start_position + entry_count`,
else none". -/
def IndexTable.GetSegment (t : IndexTable) (EditUnit : Int) : Option IndexSegment :=
  greatestSegment
    (fun S => decide (S.StartPosition ≤ EditUnit ∧ EditUnit < S.StartPosition + S.EntryCount))
    t.SegmentMap

/-- Modelled from the spec: step 2 of the look-up, "the greatest segment with
`S.start + S.entry_count ≤ edit_unit`". -/
def IndexTable.precedingSegment (t : IndexTable) (EditUnit : Int) : Option IndexSegment :=
  greatestSegment (fun S => decide (S.StartPosition + S.EntryCount ≤ EditUnit)) t.SegmentMap

/-- Modelled from the spec: the base delta entry of a sub-item; a sub-item without a
delta entry "defaults to element_delta = 0". -/
def IndexTable.subItemDelta (t : IndexTable) (SubItem : Nat) : DeltaEntry :=
  (t.BaseDeltaArray[SubItem]?).getD
    { PosTableIndex := 0, Slice := 0, ElementDelta := [0, 0, 0, 0] }

/-- Modelled from the spec: the element delta of a sub-item, `delta.element_delta` of
its base delta entry.  Sub-item 0 is the start of the edit unit, which is what
`index.h` documents `Location` to be ("the location of the start of ThisPos edit
unit") and what the description states of every look-up of sub-item 0
(`lookup(e, 0).location = e · edit_unit_byte_count`): nothing is added for it.  The
formula of the description, which adds the element delta of delta entry 0
("commonly 0"), gives the same whenever that element delta is 0, as in every array
written by `DefineDeltaArray(int, UInt32*)`. -/
def IndexTable.subItemElementDelta (t : IndexTable) (SubItem : Nat) : Int :=
  if SubItem = 0 then 0 else (GetU32 (t.subItemDelta SubItem).ElementDelta : Int)

/-- Modelled from the spec: step 4 of the look-up, the distance from the stream offset
of entry `E` (the start of the edit unit) to a sub-item:
`slice_offset[delta.slice - 1]` if `delta.slice > 0`, plus `delta.element_delta`; as
in `subItemElementDelta`, sub-item 0 is the start of the edit unit. -/
def IndexTable.subItemOffset (t : IndexTable) (E : List Nat) (SubItem : Nat) : Int :=
  if SubItem = 0 then 0
  else
    (if 0 < (t.subItemDelta SubItem).Slice
      then (entrySliceOffset E ((t.subItemDelta SubItem).Slice - 1) : Int) else 0)
    + t.subItemElementDelta SubItem

/-- Modelled from the spec: `IndexTable::Lookup(EditUnit, SubItem, Reorder)`, of which
`index.h` has the declaration only.  Steps 1 to 7 of the look-up algorithm: the CBR
fast path; for VBR the hint from the last entry of the greatest preceding segment
when no segment holds the edit unit ("not indexed" when there is none); otherwise the
entry of the edit unit, replaced by the entry at the temporal offset when reordering
and that entry lies in the segment.  A hint is the start of the edit unit `ThisPos`,
the stream offset of its entry, as `index.h` documents `Location` (`Exact` is false:
no sub-item is located, and the "slice/element delta for sub_item" of the description
is not added).  Locations are computed in `Position`, the type of `Location`;
`ThisPos` is a `UInt64`.  Fields the algorithm does not assign are 0 (`KeyLocation`
is `~0`, that is -1, when not available). -/
def IndexTable.Lookup (t : IndexTable) (EditUnit : Int) (SubItem : Nat) (Reorder : Bool) :
    IndexPos :=
  if 0 < t.EditUnitByteCount then
    let Location : Int :=
      toPosition (EditUnit * t.EditUnitByteCount + t.subItemElementDelta SubItem)
    { ThisPos := toUInt64 EditUnit, Location := Location
      PosOffset := { Numerator := 0, Denominator := 0 }
      Exact := true, OtherPos := false, Offset := false, KeyFrameOffset := 0
      TemporalOffset := 0, KeyLocation := Location, Flags := 0 }
  else
    match t.GetSegment EditUnit with
    | none =>
      match t.precedingSegment EditUnit with
      | none =>
        { ThisPos := toUInt64 EditUnit, Location := 0
          PosOffset := { Numerator := 0, Denominator := 0 }
          Exact := false, OtherPos := false, Offset := false, KeyFrameOffset := 0
          TemporalOffset := 0, KeyLocation := -1, Flags := 0 }
      | some S =>
        let E := S.entry t.IndexEntrySize.toNat (S.EntryCount - 1).toNat
        { ThisPos := toUInt64 (S.StartPosition + S.EntryCount - 1)
          Location := toPosition (entryStreamOffset E)
          PosOffset := { Numerator := 0, Denominator := 0 }
          Exact := false, OtherPos := true, Offset := false, KeyFrameOffset := 0
          TemporalOffset := 0, KeyLocation := -1, Flags := 0 }
    | some S =>
      let Ei := S.entry t.IndexEntrySize.toNat (EditUnit - S.StartPosition).toNat
      let target := EditUnit + entryTemporalOffset Ei
      let E :=
        if Reorder = true ∧ entryTemporalOffset Ei ≠ 0 ∧ S.StartPosition ≤ target ∧
            target < S.StartPosition + S.EntryCount
        then S.entry t.IndexEntrySize.toNat (target - S.StartPosition).toNat
        else Ei
      let delta := t.subItemDelta SubItem
      let hasPos : Bool := decide (0 < delta.PosTableIndex ∧ delta.PosTableIndex ≤ t.NPE)
      let keyUnit := EditUnit + entryKeyFrameOffset E
      { ThisPos := toUInt64 EditUnit
        Location := toPosition ((entryStreamOffset E : Int) + t.subItemOffset E SubItem)
        PosOffset :=
          if hasPos then entryPosTable E t.NSL.toNat (delta.PosTableIndex - 1).toNat
          else { Numerator := 0, Denominator := 0 }
        Exact := true, OtherPos := false, Offset := hasPos
        KeyFrameOffset := entryKeyFrameOffset E
        TemporalOffset := entryTemporalOffset Ei
        KeyLocation :=
          match t.GetSegment keyUnit with
          | some K =>
            toPosition (entryStreamOffset
              (K.entry t.IndexEntrySize.toNat (keyUnit - K.StartPosition).toNat))
          | none => -1
        Flags := entryFlags E }

/-- The inline `IndexTable::GetReorder`: the reorder index, if one has been enabled. -/
def IndexTable.GetReorder (t : IndexTable) : Option ReorderIndex := t.Reorder

/-- Modelled from the spec: the constant `IndexTable::IndexLowest`, declared in
`index.h` and defined outside the sources at hand; "the lowest valid index position",
the sentinel "lowest", here the lowest 64-bit signed position. -/
def IndexTable.IndexLowest : Int := -9223372036854775808

/-! ## `IndexManager`

The maps of the class (`std::map`) are partial functions on their keys; only
look-ups by key, `insert` and assignment through `operator[]` are used. -/

/-- Assignment `m[k] = v` of a `std::map`: the value of `k` is replaced. -/
def mapAssign {α : Type} (m : Int → Option α) (k : Int) (v : α) : Int → Option α :=
  fun j => if j = k then some v else m j

/-- The member `std::map::insert` with the pair `(k, v)`: no effect when `k` already
has a value. -/
def mapInsert {α : Type} (m : Int → Option α) (k : Int) (v : α) : Int → Option α :=
  fun j => if j = k then (match m k with | some old => some old | none => some v) else m j

/-- Removal of the key `k` from a `std::map`. -/
def mapErase {α : Type} (m : Int → Option α) (k : Int) : Int → Option α :=
  fun j => if j = k then none else m j

/-- The `struct IndexData` of `IndexManager`: the status bits (bit 0 stream offset set,
bit 1 temporal offset set, bit 2 temporal diff set), flags, key frame offset, temporal
offset, temporal diff and one stream offset per stream. -/
structure IndexData where
  Status : Nat
  Flags : Int
  KeyOffset : Int
  TemporalOffset : Int
  TemporalDiff : Int
  StreamOffset : List Nat
deriving DecidableEq

/-- The data members of `class IndexManager`.  The two arrays are lists, the length
of `PosTableList` being the allocated size of the array; `ProvisionalEntry` is `none`
for a null pointer; the maps hold the records themselves. -/
structure IndexManager where
  UsesReordering : Bool
  FormatFixed : Bool
  DataIsCBR : Bool
  StreamCount : Int
  StreamListSize : Int
  PosTableList : List Int
  ElementSizeList : List Nat
  MasterStream : Int
  ManagedDataEntrySize : Int
  ManagedData : Int → Option IndexData
  ProvisionalEntry : Option IndexData
  ProvisionalEditUnit : Int
  UnsatisfiedTemporalOffsets : Int → Option Int
  UnsatisfiedTemporalDiffs : Int → Option Int
  BodySID : Nat
  IndexSID : Nat
  EditRate : Rational
  EntryLog : Int → Option Int
  NextLogID : Int
  LogWrapped : Bool
  LogNextEntry : Int
  AcceptNextEntry : Bool
  LastNewEditUnit : Int
  ValueRelativeIndexing : Bool
  SubRangeOffset : Int
  IndexDuration : Int

/-- The inline `IndexManager::SetBodySID`. -/
def IndexManager.SetBodySID (m : IndexManager) (SID : Nat) : IndexManager :=
  { m with BodySID := SID }

/-- The inline `IndexManager::SetIndexSID`. -/
def IndexManager.SetIndexSID (m : IndexManager) (SID : Nat) : IndexManager :=
  { m with IndexSID := SID }

/-- The inline `IndexManager::SetEditRate(Rational)`. -/
def IndexManager.SetEditRate (m : IndexManager) (Rate : Rational) : IndexManager :=
  { m with EditRate := Rate }

/-- The inline `IndexManager::SetEditRate(Int32, Int32)` (overloads cannot share a
name here): numerator and denominator are assigned one after the other. -/
def IndexManager.SetEditRateFromInts (m : IndexManager) (Rate_n Rate_d : Int) : IndexManager :=
  { m with EditRate := { Numerator := Rate_n, Denominator := Rate_d } }

/-- The inline `IndexManager::GetBodySID`. -/
def IndexManager.GetBodySID (m : IndexManager) : Nat := m.BodySID

/-- The inline `IndexManager::GetIndexSID`. -/
def IndexManager.GetIndexSID (m : IndexManager) : Nat := m.IndexSID

/-- The inline `IndexManager::GetEditRate`. -/
def IndexManager.GetEditRate (m : IndexManager) : Rational := m.EditRate

/-- The inline `IndexManager::SetPosTableIndex`: `if(StreamID < StreamCount)
PosTableList[StreamID] = PosTableIndex;`.  The result is `none` when the assignment
falls outside the array (a negative index, or one past its allocated size), where the
behaviour of the program is undefined. -/
def IndexManager.SetPosTableIndex (m : IndexManager) (StreamID : Int) (PosTableIndex : Int) :
    Option IndexManager :=
  if StreamID < m.StreamCount then
    if 0 ≤ StreamID ∧ StreamID < m.PosTableList.length then
      some { m with PosTableList := m.PosTableList.set StreamID.toNat PosTableIndex }
    else none
  else some m

/-- The inline `IndexManager::SetMasterStream`. -/
def IndexManager.SetMasterStream (m : IndexManager) (StreamID : Int) : IndexManager :=
  { m with MasterStream := StreamID }

/-- The inline `IndexManager::AcceptProvisional`: returns the edit unit accepted (or
`IndexLowest`) and the new state.  The provisional entry goes to `ManagedData` through
`std::map::insert`. -/
def IndexManager.AcceptProvisional (m : IndexManager) : Int × IndexManager :=
  match m.ProvisionalEntry with
  | none => (IndexTable.IndexLowest, m)
  | some entry =>
    (m.ProvisionalEditUnit,
     { m with
       ManagedData := mapInsert m.ManagedData m.ProvisionalEditUnit entry
       LastNewEditUnit := m.ProvisionalEditUnit
       ProvisionalEntry := none })

/-- The inline `IndexManager::GetLastNewEditUnit`. -/
def IndexManager.GetLastNewEditUnit (m : IndexManager) : Int := m.LastNewEditUnit

/-- The inline `IndexManager::AcceptNext`. -/
def IndexManager.AcceptNext (m : IndexManager) : IndexManager :=
  { m with AcceptNextEntry := true }

/-- The inline `IndexManager::ReadLog`: the value read and the state, which the body
leaves as it is. -/
def IndexManager.ReadLog (m : IndexManager) (LogID : Int) : Int × IndexManager :=
  match m.EntryLog LogID with
  | none => (IndexTable.IndexLowest, m)
  | some EditUnit => (EditUnit, m)

/-- The inline `IndexManager::ForceVBR`. -/
def IndexManager.ForceVBR (m : IndexManager) : IndexManager :=
  { m with DataIsCBR := false }

/-- The inline `IndexManager::IsCBR`. -/
def IndexManager.IsCBR (m : IndexManager) : Bool := m.DataIsCBR

/-- The inline `IndexManager::SetValueRelativeIndexing`. -/
def IndexManager.SetValueRelativeIndexing (m : IndexManager) (Val : Bool) : IndexManager :=
  { m with ValueRelativeIndexing := Val }

/-- The inline `IndexManager::GetValueRelativeIndexing`. -/
def IndexManager.GetValueRelativeIndexing (m : IndexManager) : Bool := m.ValueRelativeIndexing

/-- The inline `IndexManager::SetSubRangeOffset`. -/
def IndexManager.SetSubRangeOffset (m : IndexManager) (Offset : Int) : IndexManager :=
  { m with SubRangeOffset := Offset }

/-- The inline `IndexManager::SetIndexDuration`. -/
def IndexManager.SetIndexDuration (m : IndexManager) (newVal : Int) : IndexManager :=
  { m with IndexDuration := newVal }

/-- The inline, protected `IndexManager::Log`: with a reserved slot (`LogNextEntry >= 0`)
the edit unit is stored under it and the reservation is cleared. -/
def IndexManager.Log (m : IndexManager) (EditUnit : Int) : IndexManager :=
  if 0 ≤ m.LogNextEntry then
    { m with EntryLog := mapAssign m.EntryLog m.LogNextEntry EditUnit, LogNextEntry := -1 }
  else m

/-- The operations of `IndexManager` whose bodies are in the header and that change
the state or may do so. -/
inductive IndexManager.Op where
  | ForceVBR
  | AcceptNext
  | AcceptProvisional
  | Log (EditUnit : Int)
  | ReadLog (LogID : Int)
  | SetPosTableIndex (StreamID : Int) (PosTableIndex : Int)
  | SetMasterStream (StreamID : Int)
  | SetBodySID (SID : Nat)
  | SetIndexSID (SID : Nat)
  | SetEditRate (Rate : Rational)
  | SetEditRateFromInts (Rate_n Rate_d : Int)
  | SetValueRelativeIndexing (Val : Bool)
  | SetSubRangeOffset (Offset : Int)
  | SetIndexDuration (newVal : Int)

/-- The state after one operation (`none` when `SetPosTableIndex` writes outside its
array). -/
def IndexManager.step (m : IndexManager) : IndexManager.Op → Option IndexManager
  | .ForceVBR => some m.ForceVBR
  | .AcceptNext => some m.AcceptNext
  | .AcceptProvisional => some m.AcceptProvisional.2
  | .Log EditUnit => some (m.Log EditUnit)
  | .ReadLog LogID => some (m.ReadLog LogID).2
  | .SetPosTableIndex StreamID PosTableIndex => m.SetPosTableIndex StreamID PosTableIndex
  | .SetMasterStream StreamID => some (m.SetMasterStream StreamID)
  | .SetBodySID SID => some (m.SetBodySID SID)
  | .SetIndexSID SID => some (m.SetIndexSID SID)
  | .SetEditRate Rate => some (m.SetEditRate Rate)
  | .SetEditRateFromInts Rate_n Rate_d => some (m.SetEditRateFromInts Rate_n Rate_d)
  | .SetValueRelativeIndexing Val => some (m.SetValueRelativeIndexing Val)
  | .SetSubRangeOffset Offset => some (m.SetSubRangeOffset Offset)
  | .SetIndexDuration newVal => some (m.SetIndexDuration newVal)

/-- The state after a sequence of operations. -/
def IndexManager.run (m : IndexManager) : List IndexManager.Op → Option IndexManager
  | [] => some m
  | op :: rest =>
    match m.step op with
    | none => none
    | some m1 => m1.run rest

/-- An operation that stays inside the arrays of `m`: a `SetPosTableIndex` names a
valid stream, `0 ≤ StreamID < StreamCount`, within the allocated array. -/
def IndexManager.Op.Valid (m : IndexManager) : IndexManager.Op → Prop
  | .SetPosTableIndex StreamID _ =>
    0 ≤ StreamID ∧ StreamID < m.StreamCount ∧ StreamID < m.PosTableList.length
  | _ => True

/-- The operation is a call of `SetValueRelativeIndexing`. -/
def IndexManager.Op.IsSetValueRelativeIndexing : IndexManager.Op → Prop
  | .SetValueRelativeIndexing _ => True
  | _ => False

/-! ### Operations of `IndexManager` declared in the header only

`index.h` declares the constructor, `GetArrayEntry`, `AddEditUnit`, `SetOffset`,
`SetTemporalOffset` and `Flush` without their bodies, which are not part of the sources
at hand.
They are modelled from the description of the manager, formulas taken as written,
over the integers. -/

/-- Modelled from the spec: the constructor `IndexManager(PosTableIndex, ElementSize)`,
declared only.  "One main stream (ID 0)", `master_stream` "default 0", "`data_is_cbr =
true` initially", records "created lazily" (none yet), nothing pending, nothing
staged, no log slot reserved, and `IndexLowest` as the last new edit unit ("or
IndexLowest if none added").  The members the description leaves open are 0 or
false, and the arrays hold the main stream only. -/
def IndexManager.new (PosTableIndex : Int) (ElementSize : Nat) : IndexManager :=
  { UsesReordering := false
    FormatFixed := false
    DataIsCBR := true
    StreamCount := 1
    StreamListSize := 1
    PosTableList := [PosTableIndex]
    ElementSizeList := [ElementSize]
    MasterStream := 0
    ManagedDataEntrySize := 0
    ManagedData := fun _ => none
    ProvisionalEntry := none
    ProvisionalEditUnit := 0
    UnsatisfiedTemporalOffsets := fun _ => none
    UnsatisfiedTemporalDiffs := fun _ => none
    BodySID := 0
    IndexSID := 0
    EditRate := { Numerator := 0, Denominator := 0 }
    EntryLog := fun _ => none
    NextLogID := 0
    LogWrapped := false
    LogNextEntry := -1
    AcceptNextEntry := false
    LastNewEditUnit := IndexTable.IndexLowest
    ValueRelativeIndexing := false
    SubRangeOffset := 0
    IndexDuration := 0 }

/-- Modelled from the spec: the record made for an edit unit that has none, "on
creation of a record at EU `e`, drain any pending `unsatisfied_temporal_offsets[e]` /
`unsatisfied_temporal_diffs[e]` into it": no status bit set but those of the values
drained (bit 1 for a temporal offset, bit 2 for a temporal diff). -/
def IndexManager.newRecord (m : IndexManager) (EditUnit : Int) : IndexData :=
  let blank : IndexData :=
    { Status := 0, Flags := 0, KeyOffset := 0, TemporalOffset := 0, TemporalDiff := 0
      StreamOffset := List.replicate m.StreamCount.toNat 0 }
  let withOffset : IndexData :=
    match m.UnsatisfiedTemporalOffsets EditUnit with
    | some Offset => { blank with TemporalOffset := Offset, Status := blank.Status ||| 2 }
    | none => blank
  match m.UnsatisfiedTemporalDiffs EditUnit with
  | some Diff => { withOffset with TemporalDiff := Diff, Status := withOffset.Status ||| 4 }
  | none => withOffset

/-- Modelled from the spec: `IndexManager::GetArrayEntry`, declared only: "access an
entry in the managed data array - creating ... as required"; records "are created
lazily on first reference to an EU", and the pending values drained into a new record
leave the pending maps. -/
def IndexManager.GetArrayEntry (m : IndexManager) (EditUnit : Int) : IndexData × IndexManager :=
  match m.ManagedData EditUnit with
  | some entry => (entry, m)
  | none =>
    (m.newRecord EditUnit,
     { m with
       ManagedData := mapAssign m.ManagedData EditUnit (m.newRecord EditUnit)
       UnsatisfiedTemporalOffsets := mapErase m.UnsatisfiedTemporalOffsets EditUnit
       UnsatisfiedTemporalDiffs := mapErase m.UnsatisfiedTemporalDiffs EditUnit })

/-- Modelled from the spec: the fields `AddEditUnit` records in the entry of an edit
unit: "if `stream_id == master_stream`, updates flags and key_offset; otherwise leaves
them untouched.  Does not set stream_offset (status bit 0 stays unset)". -/
def IndexManager.recordEditUnit (m : IndexManager) (SubStream KeyOffset Flags : Int)
    (entry : IndexData) : IndexData :=
  if SubStream = m.MasterStream then { entry with Flags := Flags, KeyOffset := KeyOffset }
  else entry

/-- Modelled from the spec: the fields `SetOffset` records in the entry of an edit
unit: as `AddEditUnit` "plus writes the stream's slot in the offset array and sets
status bit 0". -/
def IndexManager.recordOffset (m : IndexManager) (SubStream : Int) (Offset : Nat)
    (KeyOffset Flags : Int) (entry : IndexData) : IndexData :=
  { m.recordEditUnit SubStream KeyOffset Flags entry with
    StreamOffset :=
      if 0 ≤ SubStream then
        (m.recordEditUnit SubStream KeyOffset Flags entry).StreamOffset.set SubStream.toNat Offset
      else (m.recordEditUnit SubStream KeyOffset Flags entry).StreamOffset
    Status := (m.recordEditUnit SubStream KeyOffset Flags entry).Status ||| 1 }

/-- Modelled from the spec: `IndexManager::AddEditUnit`, declared only:
"unconditionally records fields for EU `eu`", in the record of the edit unit, made as
required. -/
def IndexManager.AddEditUnit (m : IndexManager) (SubStream : Int) (EditUnit : Int)
    (KeyOffset : Int) (Flags : Int) : IndexManager :=
  { (m.GetArrayEntry EditUnit).2 with
    ManagedData := mapAssign (m.GetArrayEntry EditUnit).2.ManagedData EditUnit
      (m.recordEditUnit SubStream KeyOffset Flags (m.GetArrayEntry EditUnit).1) }

/-- Modelled from the spec: `IndexManager::SetOffset`, declared only: records the
fields and the offset in the record of the edit unit, made as required; the CBR flag
"becomes false permanently when any explicit offset disagrees with
`eu * Σ element_sizes`". -/
def IndexManager.SetOffset (m : IndexManager) (SubStream : Int) (EditUnit : Int) (Offset : Nat)
    (KeyOffset : Int) (Flags : Int) : IndexManager :=
  { (m.GetArrayEntry EditUnit).2 with
    ManagedData := mapAssign (m.GetArrayEntry EditUnit).2.ManagedData EditUnit
      (m.recordOffset SubStream Offset KeyOffset Flags (m.GetArrayEntry EditUnit).1)
    DataIsCBR :=
      if (Offset : Int) = EditUnit * (m.ElementSizeList.sum : Int) then m.DataIsCBR else false }

/-- Modelled from the spec: the first half of `SetTemporalOffset`, "writes
`temporal_offset = δ` at EU `eu`", the value being kept in
`unsatisfied_temporal_offsets` while the record does not exist. -/
def IndexManager.writeTemporalOffset (m : IndexManager) (EditUnit : Int) (Offset : Int) :
    IndexManager :=
  match m.ManagedData EditUnit with
  | some entry =>
    { m with
      ManagedData := mapAssign m.ManagedData EditUnit
        { entry with TemporalOffset := Offset, Status := entry.Status ||| 2 } }
  | none =>
    { m with UnsatisfiedTemporalOffsets := mapAssign m.UnsatisfiedTemporalOffsets EditUnit Offset }

/-- Modelled from the spec: the second half of `SetTemporalOffset`, "writes
`temporal_diff = −δ` at EU `eu + δ` if that record exists, else records the pending
diff in `unsatisfied_temporal_diffs[eu+δ] = −δ`". -/
def IndexManager.writeTemporalDiff (m : IndexManager) (EditUnit : Int) (Diff : Int) :
    IndexManager :=
  match m.ManagedData EditUnit with
  | some entry =>
    { m with
      ManagedData := mapAssign m.ManagedData EditUnit
        { entry with TemporalDiff := Diff, Status := entry.Status ||| 4 } }
  | none =>
    { m with UnsatisfiedTemporalDiffs := mapAssign m.UnsatisfiedTemporalDiffs EditUnit Diff }

/-- Modelled from the spec: `IndexManager::SetTemporalOffset(EditUnit, Offset)`,
declared only: the temporal offset at `EditUnit`, then the temporal diff `-Offset` at
`EditUnit + Offset`, each written to the record or kept pending. -/
def IndexManager.SetTemporalOffset (m : IndexManager) (EditUnit : Int) (Offset : Int) :
    IndexManager :=
  (m.writeTemporalOffset EditUnit Offset).writeTemporalDiff (EditUnit + Offset) (-Offset)

/-- Bit 1 of the status of a record: its temporal offset is set. -/
def IndexData.HasTemporalOffset (r : IndexData) : Prop := r.Status.testBit 1 = true

/-- Bit 2 of the status of a record: its temporal diff is set. -/
def IndexData.HasTemporalDiff (r : IndexData) : Prop := r.Status.testBit 2 = true

instance (r : IndexData) : Decidable r.HasTemporalOffset := by
  unfold IndexData.HasTemporalOffset; infer_instance

instance (r : IndexData) : Decidable r.HasTemporalDiff := by
  unfold IndexData.HasTemporalDiff; infer_instance

/-- Modelled from the spec: `IndexManager::Flush(FirstEditUnit, LastEditUnit)`,
declared only: "deletes records in `[first, last]`". -/
def IndexManager.Flush (m : IndexManager) (FirstEditUnit LastEditUnit : Int) : IndexManager :=
  { m with
    ManagedData := fun e =>
      if FirstEditUnit ≤ e ∧ e ≤ LastEditUnit then none else m.ManagedData e }

/-- The states of an `IndexManager` reached from the constructor by calls of
`AddEditUnit`, `SetOffset`, `SetTemporalOffset` and of the operations whose bodies are
in the header (`IndexManager.Op`) other than `AcceptProvisional`, together with the
list of the `SetTemporalOffset(e, d)` calls made.  No two of these calls point at the
same edit unit `e + d`, unless they are the same call repeated.  Records are made by
`AddEditUnit` and `SetOffset` only: no staged entry is promoted and no record is
deleted by `Flush`. -/
inductive TemporalReachable : IndexManager → List (Int × Int) → Prop
  | construct (PosTableIndex : Int) (ElementSize : Nat) :
      TemporalReachable (IndexManager.new PosTableIndex ElementSize) []
  | addEditUnit (m : IndexManager) (calls : List (Int × Int))
      (SubStream EditUnit KeyOffset Flags : Int) :
      TemporalReachable m calls →
      TemporalReachable (m.AddEditUnit SubStream EditUnit KeyOffset Flags) calls
  | setOffset (m : IndexManager) (calls : List (Int × Int))
      (SubStream EditUnit : Int) (Offset : Nat) (KeyOffset Flags : Int) :
      TemporalReachable m calls →
      TemporalReachable (m.SetOffset SubStream EditUnit Offset KeyOffset Flags) calls
  | setTemporalOffset (m : IndexManager) (calls : List (Int × Int)) (e d : Int) :
      TemporalReachable m calls →
      (∀ c ∈ calls, c.1 + c.2 = e + d → c = (e, d)) →
      TemporalReachable (m.SetTemporalOffset e d) ((e, d) :: calls)
  | other (m : IndexManager) (calls : List (Int × Int)) (op : IndexManager.Op)
      (m1 : IndexManager) :
      TemporalReachable m calls → op ≠ IndexManager.Op.AcceptProvisional →
      m.step op = some m1 → TemporalReachable m1 calls

/-- The relation kept between an `IndexManager` and the `SetTemporalOffset` calls made
so far: a temporal offset found in a record comes from a call; the target of a call
holds the opposite temporal diff, in its record or, while there is none, pending; a
pending temporal offset comes from a call. -/
def TemporalInv (m : IndexManager) (calls : List (Int × Int)) : Prop :=
  (∀ e r, m.ManagedData e = some r → r.HasTemporalOffset → (e, r.TemporalOffset) ∈ calls) ∧
  (∀ c ∈ calls, ∀ r, m.ManagedData (c.1 + c.2) = some r →
    r.TemporalDiff = -c.2 ∧ r.HasTemporalDiff) ∧
  (∀ c ∈ calls, m.ManagedData (c.1 + c.2) = none →
    m.UnsatisfiedTemporalDiffs (c.1 + c.2) = some (-c.2)) ∧
  (∀ e d, m.UnsatisfiedTemporalOffsets e = some d → (e, d) ∈ calls)

/-- The states of an `IndexTable` reached from the constructor by calls of
`DefineDeltaArray`: either overload, with any count (0 included), the count being
the length of the array passed.  Delta entries passed in have fields in the range of
their types; element sizes lists have at most 255 zero-sized elements in non-last
positions, so that every slice number fits the 8-bit `Slice` field. -/
inductive Reachable : IndexTable → Prop
  | construct : Reachable IndexTable.new
  | fromEntries (t : IndexTable) (entries : List DeltaEntry) :
      Reachable t → (∀ d ∈ entries, d.InRange) →
      Reachable (t.DefineDeltaArray entries.length entries)
  | fromSizes (t : IndexTable) (sizes : List Nat) :
      Reachable t → zerosNotLast sizes ≤ 255 →
      Reachable (t.DefineDeltaArrayFromSizes sizes.length sizes)

/-! ## `ReorderIndex` construction and `IndexTable::EnableReorder` -/

/-- Conversion of an `int` to `UInt32` (the assignment `IndexEntrySize =
UseIndexEntrySize` of the `ReorderIndex` constructor). -/
def toUInt32 (x : Int) : Nat := (x % 4294967296).toNat

/-- The constructor `ReorderIndex::ReorderIndex(int UseIndexEntrySize)`: no entries,
both counters 0, the entry size converted to `UInt32`.  `mxflib_assert` is a macro of
a header outside the sources at hand; it is taken as an assertion, and the
construction yields nothing (`none`) when the asserted `UseIndexEntrySize` is zero.
`FirstPosition`, which the constructor does not touch, is given the value 0. -/
def ReorderIndex.new (UseIndexEntrySize : Int) : Option ReorderIndex :=
  if UseIndexEntrySize ≠ 0 then
    some { IndexEntries := []
           CompleteEntryCount := 0
           EntryCount := 0
           FirstPosition := 0
           IndexEntrySize := toUInt32 UseIndexEntrySize }
  else none

/-- The inline `IndexTable::EnableReorder`: `if(!Reorder) Reorder = new
ReorderIndex(IndexEntrySize); return Reorder;`.  The result is the reorder index
returned together with the table, `none` when the assertion of the constructor
fails. -/
def IndexTable.EnableReorder (t : IndexTable) : Option (ReorderIndex × IndexTable) :=
  match t.Reorder with
  | some r => some (r, t)
  | none =>
    match ReorderIndex.new t.IndexEntrySize with
    | some r => some (r, { t with Reorder := some r })
    | none => none

/-- The states of an `IndexTable` reached from the constructor by calls of
`DefineDeltaArray` (either overload, any count, the count being the length of the
array passed) in which the `int` computation of the entry size does not overflow:
delta entries have fields in the range of their types, and the element sizes are few
enough for `11 + 4*NSL` to be an `int`. -/
inductive ReachableInRange : IndexTable → Prop
  | construct : ReachableInRange IndexTable.new
  | fromEntries (t : IndexTable) (entries : List DeltaEntry) :
      ReachableInRange t → (∀ d ∈ entries, d.InRange) →
      ReachableInRange (t.DefineDeltaArray entries.length entries)
  | fromSizes (t : IndexTable) (sizes : List Nat) :
      ReachableInRange t → 11 + 4 * zerosNotLast sizes ≤ 2147483647 →
      ReachableInRange (t.DefineDeltaArrayFromSizes sizes.length sizes)

/-! ## Endian swapping (`system.h`)

Values of the unsigned types are natural numbers; `&`, `|`, `>>` and `<<` are the
bitwise operations on them, the result of a left shift and of a narrowing conversion
being reduced modulo `2^w`.  The flag `littleEndian`, set once at start-up from
`IsLittleEndian()`, is an argument of the functions that read it. -/

/-- Conversion to `UInt16`. -/
def toUInt16 (x : Int) : Nat := (x % 65536).toNat

/-- Conversion of a `UInt16` to `Int16`. -/
def toInt16 (x : Nat) : Int :=
  if x % 65536 < 32768 then (x % 65536 : Nat) else ((x % 65536 : Nat) : Int) - 65536

/-- Conversion of a `UInt32` to `Int32`. -/
def toInt32OfNat (x : Nat) : Int :=
  if x % 4294967296 < 2147483648 then (x % 4294967296 : Nat)
  else ((x % 4294967296 : Nat) : Int) - 4294967296

/-- Conversion of a `UInt64` to `Int64`. -/
def toInt64 (x : Nat) : Int :=
  if x % 18446744073709551616 < 9223372036854775808 then (x % 18446744073709551616 : Nat)
  else ((x % 18446744073709551616 : Nat) : Int) - 18446744073709551616

/-- The function `IsLittleEndian()`: `p` is the sequence of the four bytes of the
`unsigned int` `0x12345678` as they lie in memory on the host. -/
def IsLittleEndian (p : List Nat) : Bool :=
  if p.getD 0 0 = 0x12 ∧ p.getD 1 0 = 0x34 ∧ p.getD 2 0 = 0x56 ∧ p.getD 3 0 = 0x78 then false
  else if p.getD 0 0 = 0x78 ∧ p.getD 1 0 = 0x56 ∧ p.getD 2 0 = 0x34 ∧ p.getD 3 0 = 0x12 then true
  else false

/-- The function `Swap(UInt16)` outside Visual C++ (overloads cannot share a name
here). -/
def SwapUInt16 (littleEndian : Bool) (Val : Nat) : Nat :=
  if !littleEndian then Val
  else (((Val &&& 0xff00) >>> 8) ||| ((Val &&& 0x00ff) <<< 8)) % 65536

/-- The function `Swap(Int16)` outside Visual C++. -/
def SwapInt16 (littleEndian : Bool) (Val : Int) : Int :=
  toInt16 (SwapUInt16 littleEndian (toUInt16 Val))

/-- The function `Swap(UInt32)` outside Visual C++. -/
def SwapUInt32 (littleEndian : Bool) (Val : Nat) : Nat :=
  if !littleEndian then Val
  else ((Val &&& 0xff000000) >>> 24)
    ||| ((Val &&& 0x00ff0000) >>> 8)
    ||| (((Val &&& 0x0000ff00) <<< 8) % 4294967296)
    ||| (((Val &&& 0x000000ff) <<< 24) % 4294967296)

/-- The function `Swap(Int32)` outside Visual C++. -/
def SwapInt32 (littleEndian : Bool) (Val : Int) : Int :=
  toInt32OfNat (SwapUInt32 littleEndian (toUInt32 Val))

/-- The function `Swap(UInt64)` outside Visual C++: the two 32-bit halves are swapped
and exchanged. -/
def SwapUInt64 (littleEndian : Bool) (Val : Nat) : Nat :=
  if !littleEndian then Val
  else
    let MSW := ((Val &&& 0xffffffff00000000) >>> 32) % 4294967296
    let LSW := (Val &&& 0x00000000ffffffff) % 4294967296
    let MSW1 := SwapUInt32 littleEndian MSW
    let LSW1 := SwapUInt32 littleEndian LSW
    ((LSW1 <<< 32) % 18446744073709551616) ||| MSW1

/-- The function `Swap(Int64)` outside Visual C++. -/
def SwapInt64 (littleEndian : Bool) (Val : Int) : Int :=
  toInt64 (SwapUInt64 littleEndian (toUInt64 Val))

/-- The function `Swap(UInt16)` of the Visual C++ branch, which does not read the
flag. -/
def SwapUInt16MSVC (Val : Nat) : Nat :=
  (((Val &&& 0xff00) >>> 8) ||| ((Val &&& 0x00ff) <<< 8)) % 65536

/-- The function `Swap(Int16)` of the Visual C++ branch. -/
def SwapInt16MSVC (Val : Int) : Int := toInt16 (SwapUInt16MSVC (toUInt16 Val))

/-- The function `Swap(UInt32)` of the Visual C++ branch. -/
def SwapUInt32MSVC (Val : Nat) : Nat :=
  ((Val &&& 0xff000000) >>> 24)
    ||| ((Val &&& 0x00ff0000) >>> 8)
    ||| (((Val &&& 0x0000ff00) <<< 8) % 4294967296)
    ||| (((Val &&& 0x000000ff) <<< 24) % 4294967296)

/-- The function `Swap(Int32)` of the Visual C++ branch. -/
def SwapInt32MSVC (Val : Int) : Int := toInt32OfNat (SwapUInt32MSVC (toUInt32 Val))

/-- The function `Swap(UInt64)` of the Visual C++ branch. -/
def SwapUInt64MSVC (Val : Nat) : Nat :=
  let MSW := ((Val &&& 0xffffffff00000000) >>> 32) % 4294967296
  let LSW := (Val &&& 0x00000000ffffffff) % 4294967296
  let MSW1 := SwapUInt32MSVC MSW
  let LSW1 := SwapUInt32MSVC LSW
  ((LSW1 <<< 32) % 18446744073709551616) ||| MSW1

/-- The function `Swap(Int64)` of the Visual C++ branch. -/
def SwapInt64MSVC (Val : Int) : Int := toInt64 (SwapUInt64MSVC (toUInt64 Val))

/-- Byte `k` of a value, byte 0 being the least significant. -/
def byteOf (x : Nat) (k : Nat) : Nat := x / 256 ^ k % 256

/-! ## Machine integer facts -/

theorem toInt32_of_range (x : Int) (h1 : -2147483648 ≤ x) (h2 : x < 2147483648) :
    toInt32 x = x := by
  unfold toInt32; omega

theorem toUInt8_toInt32_add (x c : Int) : toUInt8 (toInt32 x + c) = toUInt8 (x + c) := by
  unfold toUInt8 toInt32; omega

theorem toUInt8_natCast (n : Nat) : toUInt8 (n : Int) = n % 256 := by
  unfold toUInt8; omega

theorem toUInt8_le (x : Int) : toUInt8 x ≤ 255 := by
  unfold toUInt8; omega

theorem toUInt8_of_range (x : Int) (h0 : 0 ≤ x) (h1 : x ≤ 255) : (toUInt8 x : Int) = x := by
  unfold toUInt8; omega

theorem GetU32_PutU32 (x : Nat) (h : x < 4294967296) : GetU32 (PutU32 x) = x := by
  simp only [GetU32, PutU32, getBE, List.take, List.foldl]
  omega

/-! ## Facts about the quantities of the description -/

theorem maxSlice_cons (d : DeltaEntry) (a : List DeltaEntry) :
    maxSlice (d :: a) = max (d.Slice : Int) (maxSlice a) := by
  simp [maxSlice]

theorem maxPosTableIndex_cons (d : DeltaEntry) (a : List DeltaEntry) :
    maxPosTableIndex (d :: a) = max (max d.PosTableIndex 0) (maxPosTableIndex a) := by
  simp [maxPosTableIndex]

theorem maxSlice_nonneg (a : List DeltaEntry) : 0 ≤ maxSlice a := by
  induction a with
  | nil => simp [maxSlice]
  | cons d a ih => rw [maxSlice_cons]; omega

theorem maxPosTableIndex_nonneg (a : List DeltaEntry) : 0 ≤ maxPosTableIndex a := by
  induction a with
  | nil => simp [maxPosTableIndex]
  | cons d a ih => rw [maxPosTableIndex_cons]; omega

theorem maxSlice_le (a : List DeltaEntry) (h : ∀ d ∈ a, d.Slice ≤ 255) : maxSlice a ≤ 255 := by
  induction a with
  | nil => simp [maxSlice]
  | cons d a ih =>
    rw [maxSlice_cons]
    have h1 := h d (by simp)
    have h2 := ih (fun e he => h e (by simp [he]))
    omega

theorem maxPosTableIndex_le (a : List DeltaEntry) (h : ∀ d ∈ a, d.PosTableIndex ≤ 127) :
    maxPosTableIndex a ≤ 127 := by
  induction a with
  | nil => simp [maxPosTableIndex]
  | cons d a ih =>
    rw [maxPosTableIndex_cons]
    have h1 := h d (by simp)
    have h2 := ih (fun e he => h e (by simp [he]))
    omega

theorem zerosNotLast_cons_cons (s s1 : Nat) (r : List Nat) :
    zerosNotLast (s :: s1 :: r) = (if s = 0 then 1 else 0) + zerosNotLast (s1 :: r) := by
  unfold zerosNotLast
  by_cases h : s = 0
  · simp [List.dropLast, List.count_cons, h]; omega
  · simp [List.dropLast, List.count_cons, h]

theorem zerosNotLast_lt_length (l : List Nat) (h : l ≠ []) : zerosNotLast l < l.length := by
  unfold zerosNotLast
  have h1 := List.count_le_length 0 l.dropLast
  have h2 : 0 < l.length := List.length_pos.mpr h
  simp at h1
  omega

theorem afterLastZero_append_singleton (pre : List Nat) (s : Nat) :
    afterLastZero (pre ++ [s]) = if s = 0 then [] else afterLastZero pre ++ [s] := by
  unfold afterLastZero
  by_cases h : s = 0 <;> simp [List.takeWhile_cons, h]

/-! ## The loop of `DefineDeltaArray(int, DeltaEntry*)` -/

theorem DefineDeltaArray.loop_eq : ∀ (a : List DeltaEntry) (NSL NPE : Int),
    0 ≤ NSL → 0 ≤ NPE →
    DefineDeltaArray.loop a NSL NPE = (max NSL (maxSlice a), max NPE (maxPosTableIndex a)) := by
  intro a
  induction a with
  | nil =>
    intro NSL NPE h1 h2
    simp [DefineDeltaArray.loop, maxSlice, maxPosTableIndex, h1, h2]
  | cons d a ih =>
    intro NSL NPE h1 h2
    rw [DefineDeltaArray.loop, maxSlice_cons, maxPosTableIndex_cons]
    have hs := maxSlice_nonneg a
    have hp := maxPosTableIndex_nonneg a
    rw [ih _ _ (by split_ifs <;> omega) (by split_ifs <;> omega)]
    refine Prod.ext ?_ ?_
    · show max (if (d.Slice : Int) > NSL then (d.Slice : Int) else NSL) (maxSlice a) = _
      split_ifs <;> omega
    · show max (if d.PosTableIndex > NPE then d.PosTableIndex else NPE) (maxPosTableIndex a) = _
      split_ifs <;> omega

/-! ## The loop of `DefineDeltaArray(int, UInt32*)` -/

/-- Final slice number of the loop, as long as it stays an `int`. -/
theorem DefineDeltaArrayFromSizes.loop_snd (DC : Int) :
    ∀ (l : List Nat) (i : Int) (Delta : Nat) (NSL : Int),
    i + l.length = DC → 0 ≤ NSL → NSL + zerosNotLast l < 2147483648 →
    (DefineDeltaArrayFromSizes.loop DC i l Delta NSL).2 = NSL + zerosNotLast l := by
  intro l
  induction l with
  | nil => intro i Delta NSL _ _ _; simp [DefineDeltaArrayFromSizes.loop, zerosNotLast]
  | cons s rest ih =>
    intro i Delta NSL hi h0 hb
    cases rest with
    | nil =>
      have hlast : i = DC - 1 := by simp at hi; omega
      simp [DefineDeltaArrayFromSizes.loop, zerosNotLast, hlast]
    | cons s1 r =>
      have hne : i ≠ DC - 1 := by simp at hi; omega
      have hi1 : i + 1 + ((s1 :: r).length : Int) = DC := by simp at hi ⊢; omega
      rw [zerosNotLast_cons_cons] at hb ⊢
      by_cases hs : s = 0
      · simp only [hs, if_true] at hb ⊢
        have hw : toInt32 (NSL + 1) = NSL + 1 := toInt32_of_range _ (by omega) (by omega)
        rw [DefineDeltaArrayFromSizes.loop]
        simp only [hne, ne_eq, not_false_eq_true, and_self, if_true]
        rw [hw, ih (i + 1) 0 (NSL + 1) hi1 (by omega) (by omega)]
        push_cast; omega
      · simp only [hs, if_false] at hb ⊢
        rw [DefineDeltaArrayFromSizes.loop]
        simp only [hs, and_false, if_false]
        rw [ih (i + 1) _ NSL hi1 h0 (by omega)]
        push_cast; omega

/-- Entry `j` written by the loop, `pre` being the element sizes already visited. -/
theorem DefineDeltaArrayFromSizes.loop_getElem (DC : Int) :
    ∀ (rest pre : List Nat) (i : Int) (Delta : Nat) (NSL : Int) (j : Nat),
    i + rest.length = DC → Delta = (afterLastZero pre).sum % 4294967296 → j < rest.length →
    (DefineDeltaArrayFromSizes.loop DC i rest Delta NSL).1[j]? =
      some { PosTableIndex := 0
             Slice := toUInt8 (NSL + ((rest.take j).count 0 : Nat))
             ElementDelta := PutU32 ((afterLastZero (pre ++ rest.take j)).sum % 4294967296) } := by
  intro rest
  induction rest with
  | nil => intro pre i Delta NSL j _ _ hj; simp at hj
  | cons s r ih =>
    intro pre i Delta NSL j hi hD hj
    cases j with
    | zero =>
      rw [DefineDeltaArrayFromSizes.loop]
      split_ifs <;> simp [hD]
    | succ j1 =>
      cases r with
      | nil => simp at hj
      | cons s1 r1 =>
        have hne : i ≠ DC - 1 := by simp at hi; omega
        have hi1 : i + 1 + ((s1 :: r1).length : Int) = DC := by simp at hi ⊢; omega
        have hj1 : j1 < (s1 :: r1).length := by simp at hj ⊢; omega
        have happ : pre ++ List.take (j1 + 1) (s :: s1 :: r1)
            = (pre ++ [s]) ++ List.take j1 (s1 :: r1) := by simp
        rw [happ]
        by_cases hs : s = 0
        · rw [DefineDeltaArrayFromSizes.loop]
          simp only [hne, hs, ne_eq, not_false_eq_true, and_self, if_true,
            List.getElem?_cons_succ]
          rw [ih (pre ++ [0]) (i + 1) 0 _ j1 hi1
            (by simp [afterLastZero_append_singleton]) hj1, toUInt8_toInt32_add]
          simp only [List.take_succ_cons, List.count_cons, beq_self_eq_true, if_true]
          congr 3; push_cast; omega
        · rw [DefineDeltaArrayFromSizes.loop]
          simp only [hs, and_false, if_false, List.getElem?_cons_succ]
          rw [ih (pre ++ [s]) (i + 1) _ NSL j1 hi1
            (by simp [afterLastZero_append_singleton, hs, hD, Nat.add_mod]) hj1]
          simp [List.take_succ_cons, List.count_cons, hs]

/-- Every entry written by the loop has `PosTableIndex` 0 and a `Slice` that fits
its 8-bit field. -/
theorem DefineDeltaArrayFromSizes.loop_mem (DC : Int) :
    ∀ (l : List Nat) (i : Int) (Delta : Nat) (NSL : Int),
    ∀ d ∈ (DefineDeltaArrayFromSizes.loop DC i l Delta NSL).1,
      d.PosTableIndex = 0 ∧ d.Slice ≤ 255 := by
  intro l
  induction l with
  | nil => intro i Delta NSL d hd; simp [DefineDeltaArrayFromSizes.loop] at hd
  | cons s r ih =>
    intro i Delta NSL d hd
    rw [DefineDeltaArrayFromSizes.loop] at hd
    split_ifs at hd
    · rcases List.mem_cons.mp hd with h | h
      · subst h; exact ⟨rfl, toUInt8_le _⟩
      · exact ih _ _ _ d h
    · rcases List.mem_cons.mp hd with h | h
      · subst h; exact ⟨rfl, toUInt8_le _⟩
      · exact ih _ _ _ d h

theorem maxPosTableIndex_eq_zero (a : List DeltaEntry) (h : ∀ d ∈ a, d.PosTableIndex = 0) :
    maxPosTableIndex a = 0 := by
  induction a with
  | nil => simp [maxPosTableIndex]
  | cons d a ih =>
    rw [maxPosTableIndex_cons, ih (fun e he => h e (by simp [he])), h d (by simp)]
    simp

/-- The largest slice number written by the loop is the final slice number, as long
as it fits the 8-bit `Slice` field. -/
theorem DefineDeltaArrayFromSizes.loop_maxSlice (DC : Int) :
    ∀ (l : List Nat) (i : Int) (Delta : Nat) (NSL : Int),
    l ≠ [] → i + l.length = DC → 0 ≤ NSL → NSL + zerosNotLast l ≤ 255 →
    maxSlice (DefineDeltaArrayFromSizes.loop DC i l Delta NSL).1 = NSL + zerosNotLast l := by
  intro l
  induction l with
  | nil => intro i Delta NSL h; exact absurd rfl h
  | cons s rest ih =>
    intro i Delta NSL _ hi h0 hb
    have hN : (toUInt8 NSL : Int) = NSL := toUInt8_of_range NSL h0 (by omega)
    cases rest with
    | nil =>
      have hlast : i = DC - 1 := by simp at hi; omega
      simp [DefineDeltaArrayFromSizes.loop, zerosNotLast, hlast, maxSlice, hN, h0]
    | cons s1 r =>
      have hne : i ≠ DC - 1 := by simp at hi; omega
      have hi1 : i + 1 + ((s1 :: r).length : Int) = DC := by simp at hi ⊢; omega
      rw [zerosNotLast_cons_cons] at hb ⊢
      by_cases hs : s = 0
      · simp only [hs, if_true] at hb ⊢
        have hw : toInt32 (NSL + 1) = NSL + 1 := toInt32_of_range _ (by omega) (by omega)
        rw [DefineDeltaArrayFromSizes.loop]
        simp only [hne, ne_eq, not_false_eq_true, and_self, if_true]
        rw [maxSlice_cons, hw, ih (i + 1) 0 (NSL + 1) (by simp) hi1 (by omega) (by omega)]
        simp only [hN]; push_cast; omega
      · simp only [hs, if_false] at hb ⊢
        rw [DefineDeltaArrayFromSizes.loop]
        simp only [hs, and_false, if_false]
        rw [maxSlice_cons, ih (i + 1) _ NSL (by simp) hi1 h0 (by omega)]
        simp only [hN]; push_cast; omega

/-! ## The two overloads on a non-empty array -/

theorem le_maxSlice (a : List DeltaEntry) (d : DeltaEntry) (h : d ∈ a) :
    (d.Slice : Int) ≤ maxSlice a := by
  induction a with
  | nil => simp at h
  | cons e a ih =>
    rw [maxSlice_cons]
    rcases List.mem_cons.mp h with h1 | h1
    · subst h1; omega
    · have := ih h1; omega

theorem exists_maxSlice (a : List DeltaEntry) (h : a ≠ []) :
    ∃ d ∈ a, (d.Slice : Int) = maxSlice a := by
  induction a with
  | nil => exact absurd rfl h
  | cons e a ih =>
    rw [maxSlice_cons]
    by_cases ha : a = []
    · subst ha; exact ⟨e, by simp, by simp [maxSlice]⟩
    · obtain ⟨d, hd, hm⟩ := ih ha
      by_cases hc : maxSlice a ≤ (e.Slice : Int)
      · exact ⟨e, by simp, by omega⟩
      · exact ⟨d, by simp [hd], by omega⟩

theorem le_maxPosTableIndex (a : List DeltaEntry) (d : DeltaEntry) (h : d ∈ a) :
    d.PosTableIndex ≤ maxPosTableIndex a := by
  induction a with
  | nil => simp at h
  | cons e a ih =>
    rw [maxPosTableIndex_cons]
    rcases List.mem_cons.mp h with h1 | h1
    · subst h1; omega
    · have := ih h1; omega

theorem exists_maxPosTableIndex (a : List DeltaEntry) :
    maxPosTableIndex a = 0 ∨ ∃ d ∈ a, d.PosTableIndex = maxPosTableIndex a := by
  induction a with
  | nil => left; simp [maxPosTableIndex]
  | cons e a ih =>
    rw [maxPosTableIndex_cons]
    have hp := maxPosTableIndex_nonneg a
    by_cases hc : maxPosTableIndex a ≤ e.PosTableIndex
    · by_cases h0 : e.PosTableIndex ≤ 0
      · left; omega
      · right; exact ⟨e, by simp, by omega⟩
    · rcases ih with h | ⟨d, hd, hm⟩
      · left; omega
      · right; exact ⟨d, by simp [hd], by omega⟩

theorem DefineDeltaArray_eq (t : IndexTable) (entries : List DeltaEntry) (h : entries ≠ []) :
    t.DefineDeltaArray entries.length entries =
      { t with
        BaseDeltaCount := entries.length
        BaseDeltaArray := entries
        NSL := maxSlice entries
        NPE := maxPosTableIndex entries
        IndexEntrySize := toInt32 (11 + 4 * maxSlice entries + 8 * maxPosTableIndex entries) } := by
  have hl : entries.length ≠ 0 := fun h0 => h (List.length_eq_zero.mp h0)
  have hs := maxSlice_nonneg entries
  have hp := maxPosTableIndex_nonneg entries
  unfold IndexTable.DefineDeltaArray
  rw [if_neg hl]
  simp only [List.take_length, DefineDeltaArray.loop_eq entries 0 0 le_rfl le_rfl,
    max_eq_right hs, max_eq_right hp]

theorem DefineDeltaArray_zero (t : IndexTable) (a : List DeltaEntry) :
    t.DefineDeltaArray 0 a = { t with BaseDeltaCount := 0, BaseDeltaArray := [] } := by
  simp [IndexTable.DefineDeltaArray]

theorem DefineDeltaArrayFromSizes_zero (t : IndexTable) (a : List Nat) :
    t.DefineDeltaArrayFromSizes 0 a = { t with BaseDeltaCount := 0, BaseDeltaArray := [] } := by
  simp [IndexTable.DefineDeltaArrayFromSizes]

theorem DefineDeltaArrayFromSizes_eq (t : IndexTable) (sizes : List Nat) (h : sizes ≠ []) :
    t.DefineDeltaArrayFromSizes sizes.length sizes =
      { t with
        BaseDeltaCount := sizes.length
        BaseDeltaArray := (DefineDeltaArrayFromSizes.loop sizes.length 0 sizes 0 0).1
        NSL := (DefineDeltaArrayFromSizes.loop sizes.length 0 sizes 0 0).2
        NPE := 0
        IndexEntrySize :=
          toInt32 (11 + 4 * (DefineDeltaArrayFromSizes.loop sizes.length 0 sizes 0 0).2 + 8 * 0) } := by
  have hl : sizes.length ≠ 0 := fun h0 => h (List.length_eq_zero.mp h0)
  unfold IndexTable.DefineDeltaArrayFromSizes
  rw [if_neg hl]
  simp only [List.take_length]

/-- Entry `i` of the base delta array written from a list of element sizes. -/
theorem DefineDeltaArrayFromSizes_getElem (t : IndexTable) (sizes : List Nat) (i : Nat)
    (hi : i < sizes.length) :
    (t.DefineDeltaArrayFromSizes sizes.length sizes).BaseDeltaArray[i]? =
      some { PosTableIndex := 0
             Slice := zerosBefore sizes i % 256
             ElementDelta := PutU32 (runningDelta sizes i) } := by
  have hne : sizes ≠ [] := by rintro rfl; simp at hi
  rw [DefineDeltaArrayFromSizes_eq t sizes hne]
  simp only []
  rw [DefineDeltaArrayFromSizes.loop_getElem sizes.length sizes [] 0 0 0 i (by simp)
    (by simp [afterLastZero]) hi]
  simp only [zero_add, List.nil_append, toUInt8_natCast, zerosBefore, runningDelta]

/-- The slice number left in `NSL` by the element-size overload. -/
theorem DefineDeltaArrayFromSizes_NSL_eq (t : IndexTable) (sizes : List Nat) (hne : sizes ≠ [])
    (hz : zerosNotLast sizes < 2147483648) :
    (t.DefineDeltaArrayFromSizes sizes.length sizes).NSL = zerosNotLast sizes := by
  rw [DefineDeltaArrayFromSizes_eq t sizes hne]
  simp only []
  rw [DefineDeltaArrayFromSizes.loop_snd sizes.length sizes 0 0 0 (by simp) le_rfl (by omega)]
  simp

/-- Entry size computed by the entry overload: no `int` overflow can occur, the
counters being bounded by the 8-bit fields they come from. -/
theorem DefineDeltaArray_indexEntrySize (t : IndexTable) (entries : List DeltaEntry)
    (hne : entries ≠ []) (hr : ∀ d ∈ entries, d.InRange) :
    (t.DefineDeltaArray entries.length entries).IndexEntrySize =
      11 + 4 * (t.DefineDeltaArray entries.length entries).NSL
         + 8 * (t.DefineDeltaArray entries.length entries).NPE := by
  rw [DefineDeltaArray_eq t entries hne]
  simp only []
  have hs := maxSlice_nonneg entries
  have hp := maxPosTableIndex_nonneg entries
  have hs1 := maxSlice_le entries (fun d hd => (hr d hd).2.2.1)
  have hp1 := maxPosTableIndex_le entries (fun d hd => (hr d hd).2.1)
  exact toInt32_of_range _ (by omega) (by omega)

/-- Entry size computed by the element-size overload, as long as it stays an `int`. -/
theorem DefineDeltaArrayFromSizes_indexEntrySize_eq (t : IndexTable) (sizes : List Nat)
    (hne : sizes ≠ []) (hz : 11 + 4 * zerosNotLast sizes < 2147483648) :
    (t.DefineDeltaArrayFromSizes sizes.length sizes).IndexEntrySize
      = 11 + 4 * (zerosNotLast sizes : Int) := by
  rw [DefineDeltaArrayFromSizes_eq t sizes hne]
  simp only []
  rw [DefineDeltaArrayFromSizes.loop_snd sizes.length sizes 0 0 0 (by simp) le_rfl (by omega)]
  rw [toInt32_of_range _ (by omega) (by omega)]
  omega

/-- No entry written by the element-size overload has a `Slice` above 255 or a
`PosTableIndex` other than 0. -/
theorem DefineDeltaArrayFromSizes_maxima (t : IndexTable) (sizes : List Nat)
    (hne : sizes ≠ []) :
    maxSlice (t.DefineDeltaArrayFromSizes sizes.length sizes).BaseDeltaArray ≤ 255 ∧
    maxPosTableIndex (t.DefineDeltaArrayFromSizes sizes.length sizes).BaseDeltaArray = 0 := by
  rw [DefineDeltaArrayFromSizes_eq t sizes hne]
  exact ⟨maxSlice_le _ (fun d hd => (DefineDeltaArrayFromSizes.loop_mem _ _ _ _ _ d hd).2),
    maxPosTableIndex_eq_zero _ (fun d hd =>
      (DefineDeltaArrayFromSizes.loop_mem _ _ _ _ _ d hd).1)⟩

theorem replicate_zero_ne_nil : List.replicate 257 (0 : Nat) ≠ [] := by
  intro h0
  have hl := congrArg List.length h0
  rw [List.length_replicate, List.length_nil] at hl
  omega

theorem zerosNotLast_replicate_zero : zerosNotLast (List.replicate 257 0) = 256 := by
  unfold zerosNotLast
  rw [List.dropLast_replicate, List.count_replicate_self]

/-- Counters left by the element-size overload when every slice number fits the
8-bit `Slice` field. -/
theorem DefineDeltaArrayFromSizes_derived (t : IndexTable) (sizes : List Nat)
    (hne : sizes ≠ []) (hz : zerosNotLast sizes ≤ 255) :
    (t.DefineDeltaArrayFromSizes sizes.length sizes).NSL
      = maxSlice (t.DefineDeltaArrayFromSizes sizes.length sizes).BaseDeltaArray ∧
    (t.DefineDeltaArrayFromSizes sizes.length sizes).NPE = 0 ∧
    maxPosTableIndex (t.DefineDeltaArrayFromSizes sizes.length sizes).BaseDeltaArray = 0 ∧
    (t.DefineDeltaArrayFromSizes sizes.length sizes).IndexEntrySize
      = 11 + 4 * (t.DefineDeltaArrayFromSizes sizes.length sizes).NSL := by
  have hN := DefineDeltaArrayFromSizes_NSL_eq t sizes hne (by omega)
  rw [hN]
  rw [DefineDeltaArrayFromSizes_eq t sizes hne]
  simp only []
  rw [DefineDeltaArrayFromSizes.loop_maxSlice sizes.length sizes 0 0 0 hne (by simp) le_rfl
      (by omega),
    DefineDeltaArrayFromSizes.loop_snd sizes.length sizes 0 0 0 (by simp) le_rfl (by omega)]
  refine ⟨by simp, trivial, ?_, ?_⟩
  · exact maxPosTableIndex_eq_zero _ (fun d hd =>
      (DefineDeltaArrayFromSizes.loop_mem sizes.length sizes 0 0 0 d hd).1)
  · rw [toInt32_of_range _ (by omega) (by omega)]; omega

/-! ## `DefineDeltaArray`: the derived counters -/

/-- C1: for every non-empty array of `DeltaEntry` values (fields in the range of their
types), `DefineDeltaArray(count, entries)` leaves `NSL` equal to the largest `Slice`
of the array (an upper bound that some entry attains), `NPE` equal to the largest
`PosTableIndex` clamped below at 0 (an upper bound that is never negative and is 0 or
attained, so negative indices never raise it), and `IndexEntrySize` equal to
`11 + 4*NSL + 8*NPE`. -/
theorem DefineDeltaArray_counters (t : IndexTable) (entries : List DeltaEntry)
    (hne : entries ≠ []) (hr : ∀ d ∈ entries, d.InRange) :
    (t.DefineDeltaArray entries.length entries).NSL = maxSlice entries ∧
    (∀ d ∈ entries, (d.Slice : Int) ≤ (t.DefineDeltaArray entries.length entries).NSL) ∧
    (∃ d ∈ entries, (d.Slice : Int) = (t.DefineDeltaArray entries.length entries).NSL) ∧
    (t.DefineDeltaArray entries.length entries).NPE = maxPosTableIndex entries ∧
    0 ≤ (t.DefineDeltaArray entries.length entries).NPE ∧
    (∀ d ∈ entries, d.PosTableIndex ≤ (t.DefineDeltaArray entries.length entries).NPE) ∧
    ((t.DefineDeltaArray entries.length entries).NPE = 0 ∨
      ∃ d ∈ entries, d.PosTableIndex = (t.DefineDeltaArray entries.length entries).NPE) ∧
    (t.DefineDeltaArray entries.length entries).IndexEntrySize =
      11 + 4 * (t.DefineDeltaArray entries.length entries).NSL
         + 8 * (t.DefineDeltaArray entries.length entries).NPE := by
  have hN : (t.DefineDeltaArray entries.length entries).NSL = maxSlice entries := by
    rw [DefineDeltaArray_eq t entries hne]
  have hP : (t.DefineDeltaArray entries.length entries).NPE = maxPosTableIndex entries := by
    rw [DefineDeltaArray_eq t entries hne]
  refine ⟨hN, ?_, ?_, hP, ?_, ?_, ?_, DefineDeltaArray_indexEntrySize t entries hne hr⟩
  · rw [hN]; exact le_maxSlice entries
  · rw [hN]; exact exists_maxSlice entries hne
  · rw [hP]; exact maxPosTableIndex_nonneg entries
  · rw [hP]; exact le_maxPosTableIndex entries
  · rw [hP]; exact exists_maxPosTableIndex entries

/-- C1, on the array `[(-3, 2, 0), (4, 1, 5)]`: `NSL = 2`, `NPE = 4`, and
`IndexEntrySize = 11 + 8 + 32 = 51`. -/
theorem DefineDeltaArray_counters_witness :
    (IndexTable.new.DefineDeltaArray 2
      [{ PosTableIndex := -3, Slice := 2, ElementDelta := [0, 0, 0, 0] },
       { PosTableIndex := 4, Slice := 1, ElementDelta := [0, 0, 0, 5] }]).NSL = 2 ∧
    (IndexTable.new.DefineDeltaArray 2
      [{ PosTableIndex := -3, Slice := 2, ElementDelta := [0, 0, 0, 0] },
       { PosTableIndex := 4, Slice := 1, ElementDelta := [0, 0, 0, 5] }]).NPE = 4 ∧
    (IndexTable.new.DefineDeltaArray 2
      [{ PosTableIndex := -3, Slice := 2, ElementDelta := [0, 0, 0, 0] },
       { PosTableIndex := 4, Slice := 1, ElementDelta := [0, 0, 0, 5] }]).IndexEntrySize = 51 := by
  have h := DefineDeltaArray_counters IndexTable.new
    [{ PosTableIndex := -3, Slice := 2, ElementDelta := [0, 0, 0, 0] },
     { PosTableIndex := 4, Slice := 1, ElementDelta := [0, 0, 0, 5] }] (by decide) (by decide)
  obtain ⟨h1, -, -, h2, -, -, -, h3⟩ := h
  have e1 : maxSlice [{ PosTableIndex := -3, Slice := 2, ElementDelta := [0, 0, 0, 0] },
     { PosTableIndex := 4, Slice := 1, ElementDelta := [0, 0, 0, 5] }] = 2 := by decide
  have e2 : maxPosTableIndex [{ PosTableIndex := -3, Slice := 2, ElementDelta := [0, 0, 0, 0] },
     { PosTableIndex := 4, Slice := 1, ElementDelta := [0, 0, 0, 5] }] = 4 := by decide
  rw [e1] at h1
  rw [e2] at h2
  simp only [List.length_cons, List.length_nil, zero_add, Nat.reduceAdd] at h1 h2 h3
  exact ⟨h1, h2, by rw [h3, h1, h2]; rfl⟩

/-- C2: for every list of element sizes and every index `i` into it,
`DefineDeltaArray(count, sizes)` gives entry `i` an `ElementDelta` holding, big-endian,
the running accumulator: the sum modulo `2^32` of the sizes before `i` that come after
the last zero-sized element before `i`. -/
theorem DefineDeltaArrayFromSizes_elementDelta (t : IndexTable) (sizes : List Nat) (i : Nat)
    (hi : i < sizes.length) :
    ∃ d, (t.DefineDeltaArrayFromSizes sizes.length sizes).BaseDeltaArray[i]? = some d ∧
      d.ElementDelta = PutU32 (runningDelta sizes i) ∧
      GetU32 d.ElementDelta = runningDelta sizes i := by
  refine ⟨_, DefineDeltaArrayFromSizes_getElem t sizes i hi, rfl, ?_⟩
  exact GetU32_PutU32 _ (Nat.mod_lt _ (by norm_num))

/-- C2, on the sizes `[100, 200, 0, 50, 75]`: the deltas are `[0, 100, 300, 0, 50]`
(entry 2 being the instance of the theorem spelled out). -/
theorem DefineDeltaArrayFromSizes_elementDelta_witness :
    ((IndexTable.new.DefineDeltaArrayFromSizes 5 [100, 200, 0, 50, 75]).BaseDeltaArray.map
      fun d => GetU32 d.ElementDelta) = [0, 100, 300, 0, 50] ∧
    ∃ d, (IndexTable.new.DefineDeltaArrayFromSizes 5 [100, 200, 0, 50, 75]).BaseDeltaArray[2]?
        = some d ∧
      d.ElementDelta = PutU32 (runningDelta [100, 200, 0, 50, 75] 2) ∧
      GetU32 d.ElementDelta = runningDelta [100, 200, 0, 50, 75] 2 :=
  ⟨by decide,
   DefineDeltaArrayFromSizes_elementDelta IndexTable.new [100, 200, 0, 50, 75] 2 (by decide)⟩

/-- C3, as the code has it: for every list of element sizes and every index `i` into
it, `DefineDeltaArray(count, sizes)` gives entry `i` a `PosTableIndex` of 0 and a
`Slice` equal to the number of zero-sized elements among `sizes[0..i-1]` reduced
modulo 256 (`Slice` is an 8-bit field), hence equal to that number whenever it is at
most 255. -/
theorem DefineDeltaArrayFromSizes_slice (t : IndexTable) (sizes : List Nat) (i : Nat)
    (hi : i < sizes.length) :
    ∃ d, (t.DefineDeltaArrayFromSizes sizes.length sizes).BaseDeltaArray[i]? = some d ∧
      d.PosTableIndex = 0 ∧
      d.Slice = zerosBefore sizes i % 256 ∧
      (zerosBefore sizes i ≤ 255 → d.Slice = zerosBefore sizes i) := by
  refine ⟨_, DefineDeltaArrayFromSizes_getElem t sizes i hi, rfl, rfl, ?_⟩
  intro h
  exact Nat.mod_eq_of_lt (by omega)

/-- C3, on the sizes `[100, 200, 0, 50, 75]`: the slices are `[0, 0, 0, 1, 1]` and every
`PosTableIndex` is 0 (entry 3 being the instance of the theorem spelled out). -/
theorem DefineDeltaArrayFromSizes_slice_witness :
    ((IndexTable.new.DefineDeltaArrayFromSizes 5 [100, 200, 0, 50, 75]).BaseDeltaArray.map
      fun d => (d.Slice, d.PosTableIndex)) = [(0, 0), (0, 0), (0, 0), (1, 0), (1, 0)] ∧
    ∃ d, (IndexTable.new.DefineDeltaArrayFromSizes 5 [100, 200, 0, 50, 75]).BaseDeltaArray[3]?
        = some d ∧
      d.PosTableIndex = 0 ∧
      d.Slice = zerosBefore [100, 200, 0, 50, 75] 3 % 256 ∧
      (zerosBefore [100, 200, 0, 50, 75] 3 ≤ 255 →
        d.Slice = zerosBefore [100, 200, 0, 50, 75] 3) :=
  ⟨by decide,
   DefineDeltaArrayFromSizes_slice IndexTable.new [100, 200, 0, 50, 75] 3 (by decide)⟩

/-- C3 fails as stated: with 257 zero-sized elements, entry 256 is preceded by 256
zero-sized elements but receives `Slice = 0`. -/
theorem DefineDeltaArrayFromSizes_slice_wraps :
    zerosBefore (List.replicate 257 0) 256 = 256 ∧
    ∃ d, (IndexTable.new.DefineDeltaArrayFromSizes 257 (List.replicate 257 0)).BaseDeltaArray[256]?
        = some d ∧ d.Slice = 0 := by
  have hz : zerosBefore (List.replicate 257 0) 256 = 256 := by
    unfold zerosBefore
    rw [List.take_replicate, List.count_replicate_self]
    rfl
  have h := DefineDeltaArrayFromSizes_getElem IndexTable.new (List.replicate 257 0) 256
    (by rw [List.length_replicate]; omega)
  rw [List.length_replicate, hz] at h
  exact ⟨hz, _, h, rfl⟩

/-- C4, as the code has it: for every non-empty list of element sizes with at most 255
zero-sized elements in non-last positions, after `DefineDeltaArray(count, sizes)`
`NSL` is the largest `Slice` of the entries produced, `NPE` is 0, which is their largest
`PosTableIndex`, and `IndexEntrySize = 11 + 4*NSL`. -/
theorem DefineDeltaArrayFromSizes_counters (t : IndexTable) (sizes : List Nat)
    (hne : sizes ≠ []) (hz : zerosNotLast sizes ≤ 255) :
    (t.DefineDeltaArrayFromSizes sizes.length sizes).NSL
      = maxSlice (t.DefineDeltaArrayFromSizes sizes.length sizes).BaseDeltaArray ∧
    (t.DefineDeltaArrayFromSizes sizes.length sizes).NPE = 0 ∧
    maxPosTableIndex (t.DefineDeltaArrayFromSizes sizes.length sizes).BaseDeltaArray = 0 ∧
    (t.DefineDeltaArrayFromSizes sizes.length sizes).IndexEntrySize
      = 11 + 4 * (t.DefineDeltaArrayFromSizes sizes.length sizes).NSL :=
  DefineDeltaArrayFromSizes_derived t sizes hne hz

/-- C4, on the sizes `[100, 200, 0, 50, 75]`: `NSL = 1`, `NPE = 0` and
`IndexEntrySize = 15`, `NSL` being the largest slice written. -/
theorem DefineDeltaArrayFromSizes_counters_witness :
    (IndexTable.new.DefineDeltaArrayFromSizes 5 [100, 200, 0, 50, 75]).NSL = 1 ∧
    (IndexTable.new.DefineDeltaArrayFromSizes 5 [100, 200, 0, 50, 75]).NPE = 0 ∧
    (IndexTable.new.DefineDeltaArrayFromSizes 5 [100, 200, 0, 50, 75]).IndexEntrySize = 15 ∧
    (IndexTable.new.DefineDeltaArrayFromSizes 5 [100, 200, 0, 50, 75]).NSL
      = maxSlice (IndexTable.new.DefineDeltaArrayFromSizes 5 [100, 200, 0, 50, 75]).BaseDeltaArray :=
  ⟨by decide, by decide, by decide,
   (DefineDeltaArrayFromSizes_counters IndexTable.new [100, 200, 0, 50, 75]
      (by decide) (by decide)).1⟩

/-- C4 fails as stated: with 257 zero-sized elements `NSL` is 256, while no `Slice`
written exceeds 255, so `NSL` is not the largest `Slice` of the produced array. -/
theorem DefineDeltaArrayFromSizes_NSL_exceeds_maxSlice :
    (IndexTable.new.DefineDeltaArrayFromSizes 257 (List.replicate 257 0)).NSL = 256 ∧
    maxSlice (IndexTable.new.DefineDeltaArrayFromSizes 257 (List.replicate 257 0)).BaseDeltaArray
      ≤ 255 := by
  have hne := replicate_zero_ne_nil
  have hz := zerosNotLast_replicate_zero
  have h1 := DefineDeltaArrayFromSizes_NSL_eq IndexTable.new (List.replicate 257 0) hne
    (by rw [hz]; norm_num)
  have h2 := (DefineDeltaArrayFromSizes_maxima IndexTable.new (List.replicate 257 0) hne).1
  rw [List.length_replicate] at h1 h2
  exact ⟨by rw [h1, hz]; rfl, h2⟩

/-- C6: for every non-empty list of element sizes (of a length that fits the `int`
count), after `DefineDeltaArray(count, sizes)` `NSL` is the number of zero-sized
elements in non-last positions. -/
theorem DefineDeltaArrayFromSizes_NSL (t : IndexTable) (sizes : List Nat) (hne : sizes ≠ [])
    (hlen : sizes.length < 2147483648) :
    (t.DefineDeltaArrayFromSizes sizes.length sizes).NSL = zerosNotLast sizes := by
  have h := zerosNotLast_lt_length sizes hne
  exact DefineDeltaArrayFromSizes_NSL_eq t sizes hne (by omega)

/-- C6, on the sizes `[5, 0]` and `[0, 5]`: a zero size in the last position starts no
slice (`NSL = 0`), a zero size in a non-last position starts one (`NSL = 1`). -/
theorem DefineDeltaArrayFromSizes_NSL_witness :
    (IndexTable.new.DefineDeltaArrayFromSizes 2 [5, 0]).NSL = 0 ∧
    (IndexTable.new.DefineDeltaArrayFromSizes 2 [0, 5]).NSL = 1 :=
  ⟨DefineDeltaArrayFromSizes_NSL IndexTable.new [5, 0] (by decide) (by decide),
   DefineDeltaArrayFromSizes_NSL IndexTable.new [0, 5] (by decide) (by decide)⟩

/-- C5, as the code has it: in every state reached from the constructor by calls of
`DefineDeltaArray` (either overload, any count, 0 included; element sizes with at
most 255 zero-sized non-last elements), `IndexEntrySize = 11 + 4*NSL + 8*NPE` for the
`NSL` and `NPE` of the table, and whenever the base delta array is non-empty `NSL` and
`NPE` are the largest `Slice` and the largest `max(PosTableIndex, 0)` of its
entries. -/
theorem Reachable_indexEntrySize (t : IndexTable) (h : Reachable t) :
    t.IndexEntrySize = 11 + 4 * t.NSL + 8 * t.NPE ∧
    (t.BaseDeltaArray ≠ [] →
      t.NSL = maxSlice t.BaseDeltaArray ∧ t.NPE = maxPosTableIndex t.BaseDeltaArray) := by
  refine ⟨?_, ?_⟩
  · induction h with
    | construct => decide
    | fromEntries t entries _ hr ih =>
      by_cases hne : entries = []
      · subst hne
        rw [List.length_nil, DefineDeltaArray_zero]
        exact ih
      · exact DefineDeltaArray_indexEntrySize t entries hne hr
    | fromSizes t sizes _ hz ih =>
      by_cases hne : sizes = []
      · subst hne
        rw [List.length_nil, DefineDeltaArrayFromSizes_zero]
        exact ih
      · obtain ⟨-, h2, -, h4⟩ := DefineDeltaArrayFromSizes_derived t sizes hne hz
        rw [h4, h2]; omega
  · induction h with
    | construct => intro hc; exact absurd rfl hc
    | fromEntries t entries _ hr _ =>
      by_cases hne : entries = []
      · subst hne
        rw [List.length_nil, DefineDeltaArray_zero]
        intro hc; exact absurd rfl hc
      · intro _
        rw [DefineDeltaArray_eq t entries hne]
        exact ⟨rfl, rfl⟩
    | fromSizes t sizes _ hz _ =>
      by_cases hne : sizes = []
      · subst hne
        rw [List.length_nil, DefineDeltaArrayFromSizes_zero]
        intro hc; exact absurd rfl hc
      · intro _
        obtain ⟨h1, h2, h3, -⟩ := DefineDeltaArrayFromSizes_derived t sizes hne hz
        exact ⟨h1, by rw [h2, h3]⟩

/-- C5, on the state reached by `DefineDeltaArray(5, [100, 200, 0, 50, 75])` followed by
`DefineDeltaArray(2, [(-3, 2, 0), (4, 1, 5)])`: the entry size is
`11 + 4*2 + 8*4 = 51`. -/
theorem Reachable_indexEntrySize_witness :
    ((IndexTable.new.DefineDeltaArrayFromSizes 5 [100, 200, 0, 50, 75]).DefineDeltaArray 2
      [{ PosTableIndex := -3, Slice := 2, ElementDelta := [0, 0, 0, 0] },
       { PosTableIndex := 4, Slice := 1, ElementDelta := [0, 0, 0, 5] }]).IndexEntrySize = 51 ∧
    ((IndexTable.new.DefineDeltaArrayFromSizes 5 [100, 200, 0, 50, 75]).DefineDeltaArray 2
      [{ PosTableIndex := -3, Slice := 2, ElementDelta := [0, 0, 0, 0] },
       { PosTableIndex := 4, Slice := 1, ElementDelta := [0, 0, 0, 5] }]).IndexEntrySize
      = 11 + 4 * ((IndexTable.new.DefineDeltaArrayFromSizes 5 [100, 200, 0, 50, 75]).DefineDeltaArray 2
          [{ PosTableIndex := -3, Slice := 2, ElementDelta := [0, 0, 0, 0] },
           { PosTableIndex := 4, Slice := 1, ElementDelta := [0, 0, 0, 5] }]).NSL
        + 8 * ((IndexTable.new.DefineDeltaArrayFromSizes 5 [100, 200, 0, 50, 75]).DefineDeltaArray 2
          [{ PosTableIndex := -3, Slice := 2, ElementDelta := [0, 0, 0, 0] },
           { PosTableIndex := 4, Slice := 1, ElementDelta := [0, 0, 0, 5] }]).NPE :=
  ⟨by decide,
   (Reachable_indexEntrySize _
      (Reachable.fromEntries _
        [{ PosTableIndex := -3, Slice := 2, ElementDelta := [0, 0, 0, 0] },
         { PosTableIndex := 4, Slice := 1, ElementDelta := [0, 0, 0, 5] }]
        (Reachable.fromSizes _ [100, 200, 0, 50, 75] Reachable.construct (by decide))
        (by decide))).1⟩

/-- C5 fails as stated, on two states.  After `DefineDeltaArray(2, [0, 5])` and then a
call with count 0 the base delta array is empty, so both maxima are 0 and the claim
asks for an `IndexEntrySize` of 11, while the table still has `NSL = 1` and
`IndexEntrySize = 15`.  After `DefineDeltaArray(257, sizes)` with 257 zero sizes,
`IndexEntrySize` is `11 + 4*256`, while no `Slice` of the array exceeds 255. -/
theorem Reachable_counters_not_maxima :
    (Reachable ((IndexTable.new.DefineDeltaArrayFromSizes 2 [0, 5]).DefineDeltaArray 0 []) ∧
     ((IndexTable.new.DefineDeltaArrayFromSizes 2 [0, 5]).DefineDeltaArray 0 []).BaseDeltaArray
       = [] ∧
     ((IndexTable.new.DefineDeltaArrayFromSizes 2 [0, 5]).DefineDeltaArray 0 []).NSL = 1 ∧
     ((IndexTable.new.DefineDeltaArrayFromSizes 2 [0, 5]).DefineDeltaArray 0 []).IndexEntrySize
       ≠ 11 + 4 * maxSlice
             ((IndexTable.new.DefineDeltaArrayFromSizes 2 [0, 5]).DefineDeltaArray 0 []).BaseDeltaArray
           + 8 * maxPosTableIndex
             ((IndexTable.new.DefineDeltaArrayFromSizes 2 [0, 5]).DefineDeltaArray 0 []).BaseDeltaArray) ∧
    (IndexTable.new.DefineDeltaArrayFromSizes 257 (List.replicate 257 0)).IndexEntrySize
      ≠ 11 + 4 * maxSlice
            (IndexTable.new.DefineDeltaArrayFromSizes 257 (List.replicate 257 0)).BaseDeltaArray
          + 8 * maxPosTableIndex
            (IndexTable.new.DefineDeltaArrayFromSizes 257 (List.replicate 257 0)).BaseDeltaArray := by
  refine ⟨⟨Reachable.fromEntries _ []
      (Reachable.fromSizes _ [0, 5] Reachable.construct (by decide)) (by decide),
    by decide, by decide, by decide⟩, ?_⟩
  have hne := replicate_zero_ne_nil
  have hz := zerosNotLast_replicate_zero
  have h1 := DefineDeltaArrayFromSizes_indexEntrySize_eq IndexTable.new (List.replicate 257 0)
    hne (by rw [hz]; norm_num)
  have h2 := DefineDeltaArrayFromSizes_maxima IndexTable.new (List.replicate 257 0) hne
  rw [List.length_replicate] at h1 h2
  rw [h1, h2.2, hz]
  have h3 := h2.1
  generalize maxSlice
    (IndexTable.new.DefineDeltaArrayFromSizes 257 (List.replicate 257 0)).BaseDeltaArray = m at h3 ⊢
  omega

/-- C7: `DefineDeltaArray(count, entries)`, called with an array of at least `count`
entries, copies its input: afterwards `BaseDeltaCount = count`, the base delta array
has `count` entries, entry `i` equals `entries[i]` for every `i < count`, and the array
is the same whatever the table held before (nothing of an old array survives). -/
theorem DefineDeltaArray_copies (t : IndexTable) (DeltaCount : Nat)
    (entries : List DeltaEntry) (h : DeltaCount ≤ entries.length) :
    (t.DefineDeltaArray DeltaCount entries).BaseDeltaCount = DeltaCount ∧
    (t.DefineDeltaArray DeltaCount entries).BaseDeltaArray.length = DeltaCount ∧
    (∀ i, i < DeltaCount →
      (t.DefineDeltaArray DeltaCount entries).BaseDeltaArray[i]? = entries[i]?) ∧
    (∀ t2 : IndexTable, (t2.DefineDeltaArray DeltaCount entries).BaseDeltaArray
      = (t.DefineDeltaArray DeltaCount entries).BaseDeltaArray) := by
  unfold IndexTable.DefineDeltaArray
  by_cases h0 : DeltaCount = 0
  · subst h0
    simp
  · simp only [if_neg h0, List.length_take, implies_true, and_true, true_and]
    refine ⟨by omega, ?_⟩
    intro i hi
    rw [List.getElem?_take_of_lt hi]

/-- C7, replacing a 5-entry array by the first 2 entries of another one: the table
then holds exactly these 2 entries. -/
theorem DefineDeltaArray_copies_witness :
    ((IndexTable.new.DefineDeltaArrayFromSizes 5 [100, 200, 0, 50, 75]).DefineDeltaArray 2
      [{ PosTableIndex := -3, Slice := 2, ElementDelta := [0, 0, 0, 0] },
       { PosTableIndex := 4, Slice := 1, ElementDelta := [0, 0, 0, 5] }]).BaseDeltaArray
      = [{ PosTableIndex := -3, Slice := 2, ElementDelta := [0, 0, 0, 0] },
         { PosTableIndex := 4, Slice := 1, ElementDelta := [0, 0, 0, 5] }] ∧
    ((IndexTable.new.DefineDeltaArrayFromSizes 5 [100, 200, 0, 50, 75]).DefineDeltaArray 2
      [{ PosTableIndex := -3, Slice := 2, ElementDelta := [0, 0, 0, 0] },
       { PosTableIndex := 4, Slice := 1, ElementDelta := [0, 0, 0, 5] }]).BaseDeltaCount = 2 :=
  ⟨by decide,
   (DefineDeltaArray_copies (IndexTable.new.DefineDeltaArrayFromSizes 5 [100, 200, 0, 50, 75]) 2
      [{ PosTableIndex := -3, Slice := 2, ElementDelta := [0, 0, 0, 0] },
       { PosTableIndex := 4, Slice := 1, ElementDelta := [0, 0, 0, 5] }] (by decide)).1⟩

/-! ## The segment picked by a look-up -/

theorem greatestSegment_eq_none (p : IndexSegment → Bool) :
    ∀ l : List IndexSegment, (∀ S ∈ l, p S = false) → greatestSegment p l = none := by
  intro l
  induction l with
  | nil => intro _; rfl
  | cons X rest ih =>
    intro h
    rw [greatestSegment, ih (fun S hS => h S (by simp [hS]))]
    simp [h X (by simp)]

theorem greatestSegment_mem (p : IndexSegment → Bool) :
    ∀ (l : List IndexSegment) (B : IndexSegment),
      greatestSegment p l = some B → B ∈ l ∧ p B = true := by
  intro l
  induction l with
  | nil => intro B h; simp [greatestSegment] at h
  | cons X rest ih =>
    intro B h
    rw [greatestSegment] at h
    cases hr : greatestSegment p rest with
    | none =>
      rw [hr] at h
      by_cases hp : p X = true
      · simp [hp] at h; subst h; exact ⟨by simp, hp⟩
      · simp [hp] at h
    | some C =>
      rw [hr] at h
      obtain ⟨hC, hpC⟩ := ih C hr
      by_cases hc : (p X && decide (C.StartPosition < X.StartPosition)) = true
      · simp only [hc, if_true, Option.some.injEq] at h
        subst h
        simp only [Bool.and_eq_true] at hc
        exact ⟨by simp, hc.1⟩
      · simp only [hc, Bool.false_eq_true, if_false, Option.some.injEq] at h
        subst h
        exact ⟨by simp [hC], hpC⟩

/-- The segment picked among those satisfying `p`: the one whose start position is
above the start position of every other such segment. -/
theorem greatestSegment_eq_some (p : IndexSegment → Bool) (S : IndexSegment) :
    ∀ l : List IndexSegment, S ∈ l → p S = true →
      (∀ X ∈ l, p X = true → X.StartPosition < S.StartPosition ∨ X = S) →
      greatestSegment p l = some S := by
  intro l
  induction l with
  | nil => intro h; simp at h
  | cons X rest ih =>
    intro hS hp hmax
    rw [greatestSegment]
    rcases List.mem_cons.mp hS with hX | hrest
    · subst hX
      cases hr : greatestSegment p rest with
      | none => simp [hp]
      | some B =>
        obtain ⟨hB, hpB⟩ := greatestSegment_mem p rest B hr
        rcases hmax B (by simp [hB]) hpB with hlt | heq
        · simp [hp, hlt]
        · subst heq; simp
    · rw [ih hrest hp (fun Y hY => hmax Y (by simp [hY]))]
      by_cases hpX : p X = true
      · rcases hmax X (by simp) hpX with hlt | heq
        · have : ¬ S.StartPosition < X.StartPosition := by omega
          simp [this]
        · subst heq; simp
      · simp [hpX]

theorem GetSegment_eq_none (t : IndexTable) (e : Int)
    (h : ∀ X ∈ t.SegmentMap, ¬ (X.StartPosition ≤ e ∧ e < X.StartPosition + X.EntryCount)) :
    t.GetSegment e = none := by
  unfold IndexTable.GetSegment
  exact greatestSegment_eq_none _ _ (fun X hX => by simpa using h X hX)

theorem GetSegment_eq_some (t : IndexTable) (e : Int) (S : IndexSegment) (hS : S ∈ t.SegmentMap)
    (hin : S.StartPosition ≤ e ∧ e < S.StartPosition + S.EntryCount)
    (huniq : ∀ X ∈ t.SegmentMap,
      X.StartPosition ≤ e → e < X.StartPosition + X.EntryCount → X = S) :
    t.GetSegment e = some S := by
  unfold IndexTable.GetSegment
  refine greatestSegment_eq_some _ S _ hS (by simpa using hin) ?_
  intro X hX hp
  simp only [decide_eq_true_eq] at hp
  exact Or.inr (huniq X hX hp.1 hp.2)

theorem precedingSegment_eq_some (t : IndexTable) (e : Int) (S : IndexSegment)
    (hS : S ∈ t.SegmentMap) (hprec : S.StartPosition + S.EntryCount ≤ e)
    (hgreat : ∀ X ∈ t.SegmentMap,
      X.StartPosition + X.EntryCount ≤ e → X.StartPosition ≤ S.StartPosition)
    (hkeys : t.SegmentMap.Pairwise fun A B => A.StartPosition ≠ B.StartPosition) :
    t.precedingSegment e = some S := by
  unfold IndexTable.precedingSegment
  refine greatestSegment_eq_some _ S _ hS (by simpa using hprec) ?_
  intro X hX hp
  simp only [decide_eq_true_eq] at hp
  by_cases hXS : X = S
  · exact Or.inr hXS
  · have hne := hkeys.forall (fun A B hAB => Ne.symm hAB) hX hS hXS
    have hle := hgreat X hX hp
    exact Or.inl (by omega)

/-! ## `Lookup` -/

theorem toPosition_of_range (x : Int) (h1 : -9223372036854775808 ≤ x)
    (h2 : x ≤ 9223372036854775807) : toPosition x = x := by
  unfold toPosition; omega

theorem toUInt64_of_range (x : Int) (h1 : 0 ≤ x) (h2 : x ≤ 9223372036854775807) :
    (toUInt64 x : Int) = x := by
  unfold toUInt64; omega

/-- In a table whose segments cover pairwise disjoint ranges of edit units, the
segment holding an edit unit is the one `GetSegment` returns. -/
theorem GetSegment_of_disjoint (t : IndexTable) (e : Int) (S : IndexSegment)
    (hS : S ∈ t.SegmentMap)
    (hin : S.StartPosition ≤ e ∧ e < S.StartPosition + S.EntryCount)
    (hdisj : t.SegmentMap.Pairwise fun A B =>
      A.StartPosition + A.EntryCount ≤ B.StartPosition ∨
      B.StartPosition + B.EntryCount ≤ A.StartPosition) :
    t.GetSegment e = some S := by
  refine GetSegment_eq_some t e S hS hin ?_
  intro X hX h1 h2
  by_contra hXS
  have hd := hdisj.forall (fun A B hAB => Or.symm hAB) hX hS hXS
  omega

/-- C8: for every CBR table (`EditUnitByteCount > 0`) and every edit unit `e >= 0` (a
`Position`), `Lookup(e, 0)` returns `Exact = true`, `ThisPos = e`, `OtherPos = false`,
`Flags = 0`, and as `Location` the `Position` value of `e * EditUnitByteCount`, which
is `e * EditUnitByteCount` itself whenever that product is a `Position`. -/
theorem Lookup_CBR (t : IndexTable) (e : Int) (Reorder : Bool)
    (hcbr : 0 < t.EditUnitByteCount) (he : 0 ≤ e) (hpos : e ≤ 9223372036854775807) :
    (t.Lookup e 0 Reorder).Location = toPosition (e * t.EditUnitByteCount) ∧
    (e * t.EditUnitByteCount ≤ 9223372036854775807 →
      (t.Lookup e 0 Reorder).Location = e * t.EditUnitByteCount) ∧
    (t.Lookup e 0 Reorder).Exact = true ∧
    ((t.Lookup e 0 Reorder).ThisPos : Int) = e ∧
    (t.Lookup e 0 Reorder).OtherPos = false ∧
    (t.Lookup e 0 Reorder).Flags = 0 := by
  have h0 : (0 : Int) ≤ e * t.EditUnitByteCount := mul_nonneg he (by omega)
  unfold IndexTable.Lookup
  rw [if_pos hcbr]
  simp only [IndexTable.subItemElementDelta, if_true, add_zero]
  exact ⟨trivial, fun hfit => toPosition_of_range _ (by omega) hfit, trivial,
    toUInt64_of_range e he hpos, trivial, trivial⟩

/-- C8, on the table with `EditUnitByteCount = 16384` and the one delta entry
`(0, 0, 0)`: `Lookup(42, 0)` gives `Location = 688128`. -/
theorem Lookup_CBR_witness :
    (({ IndexTable.new with EditUnitByteCount := 16384 } : IndexTable).DefineDeltaArray 1
      [{ PosTableIndex := 0, Slice := 0, ElementDelta := [0, 0, 0, 0] }]).Lookup 42 0 true
      = { ThisPos := 42, Location := 688128, PosOffset := { Numerator := 0, Denominator := 0 }
          Exact := true, OtherPos := false, Offset := false, KeyFrameOffset := 0
          TemporalOffset := 0, KeyLocation := 688128, Flags := 0 } ∧
    ((({ IndexTable.new with EditUnitByteCount := 16384 } : IndexTable).DefineDeltaArray 1
      [{ PosTableIndex := 0, Slice := 0, ElementDelta := [0, 0, 0, 0] }]).Lookup 42 0 true).Location
      = 42 * ((({ IndexTable.new with EditUnitByteCount := 16384 } : IndexTable).DefineDeltaArray 1
          [{ PosTableIndex := 0, Slice := 0, ElementDelta := [0, 0, 0, 0] }]).EditUnitByteCount : Int) :=
  ⟨by decide,
   (Lookup_CBR
      (({ IndexTable.new with EditUnitByteCount := 16384 } : IndexTable).DefineDeltaArray 1
        [{ PosTableIndex := 0, Slice := 0, ElementDelta := [0, 0, 0, 0] }])
      42 true (by decide) (by decide) (by decide)).2.1 (by decide)⟩

/-- C9: for every VBR table (segment start positions distinct and not negative), every
edit unit `e` (a `Position`) that lies in no segment, and the segment `S` of greatest
start position among those that end at or before `e` (`S` having an entry), a look-up
of any sub-item returns a hint taken from the last entry of `S`:
`ThisPos = S.start + S.entry_count - 1` (an edit unit of `S`), `Exact = false`,
`OtherPos = true`, and as `Location` the `Position` value of the stream offset of
that entry, which is the stream offset itself whenever it is a `Position`. -/
theorem Lookup_hint (t : IndexTable) (e : Int) (SubItem : Nat) (Reorder : Bool)
    (S : IndexSegment)
    (hvbr : t.EditUnitByteCount = 0)
    (hkeys : t.SegmentMap.Pairwise fun A B => A.StartPosition ≠ B.StartPosition)
    (hnone : ∀ X ∈ t.SegmentMap,
      ¬ (X.StartPosition ≤ e ∧ e < X.StartPosition + X.EntryCount))
    (hS : S ∈ t.SegmentMap) (hentry : 0 < S.EntryCount) (hstart : 0 ≤ S.StartPosition)
    (hprec : S.StartPosition + S.EntryCount ≤ e)
    (hgreat : ∀ X ∈ t.SegmentMap,
      X.StartPosition + X.EntryCount ≤ e → X.StartPosition ≤ S.StartPosition)
    (hpos : e ≤ 9223372036854775807) :
    ((t.Lookup e SubItem Reorder).ThisPos : Int) = S.StartPosition + S.EntryCount - 1 ∧
    S.StartPosition ≤ ((t.Lookup e SubItem Reorder).ThisPos : Int) ∧
    (t.Lookup e SubItem Reorder).Location
      = toPosition (entryStreamOffset (S.entry t.IndexEntrySize.toNat (S.EntryCount - 1).toNat)) ∧
    (entryStreamOffset (S.entry t.IndexEntrySize.toNat (S.EntryCount - 1).toNat)
        ≤ 9223372036854775807 →
      (t.Lookup e SubItem Reorder).Location
        = entryStreamOffset (S.entry t.IndexEntrySize.toNat (S.EntryCount - 1).toNat)) ∧
    (t.Lookup e SubItem Reorder).Exact = false ∧
    (t.Lookup e SubItem Reorder).OtherPos = true := by
  have hthis := toUInt64_of_range (S.StartPosition + S.EntryCount - 1) (by omega) (by omega)
  unfold IndexTable.Lookup
  rw [if_neg (by omega), GetSegment_eq_none t e hnone,
    precedingSegment_eq_some t e S hS hprec hgreat hkeys]
  simp only []
  refine ⟨hthis, by omega, trivial, fun hoff => ?_, trivial, trivial⟩
  exact toPosition_of_range _ (by omega) (by omega)

/-- C9, on the table with one segment at 0 holding the stream offsets
`[0, 1000, 2100]` (flags `0x40, 0x00, 0x80`) and a base delta entry 0 of element delta
7: `Lookup(5)` gives `ThisPos = 2`, `Location = 2100`, `Exact = false`,
`OtherPos = true`. -/
theorem Lookup_hint_witness :
    ((({ IndexTable.new with
        SegmentMap := [{ StartPosition := 0, DeltaCount := 0, DeltaArray := [], EntryCount := 3
                         IndexEntryArray :=
                           [0, 0, 64, 0, 0, 0, 0, 0, 0, 0, 0,
                            0, 0, 0, 0, 0, 0, 0, 0, 0, 3, 232,
                            0, 0, 128, 0, 0, 0, 0, 0, 0, 8, 52] }] } : IndexTable).DefineDeltaArray 1
      [{ PosTableIndex := 0, Slice := 0, ElementDelta := [0, 0, 0, 7] }]).Lookup 5 0 true)
      = { ThisPos := 2, Location := 2100, PosOffset := { Numerator := 0, Denominator := 0 }
          Exact := false, OtherPos := true, Offset := false, KeyFrameOffset := 0
          TemporalOffset := 0, KeyLocation := -1, Flags := 0 } ∧
    (((({ IndexTable.new with
        SegmentMap := [{ StartPosition := 0, DeltaCount := 0, DeltaArray := [], EntryCount := 3
                         IndexEntryArray :=
                           [0, 0, 64, 0, 0, 0, 0, 0, 0, 0, 0,
                            0, 0, 0, 0, 0, 0, 0, 0, 0, 3, 232,
                            0, 0, 128, 0, 0, 0, 0, 0, 0, 8, 52] }] } : IndexTable).DefineDeltaArray 1
      [{ PosTableIndex := 0, Slice := 0, ElementDelta := [0, 0, 0, 7] }]).Lookup 5 0
      true).ThisPos : Int) = 0 + 3 - 1 :=
  ⟨by decide,
   (Lookup_hint
      (({ IndexTable.new with
        SegmentMap := [{ StartPosition := 0, DeltaCount := 0, DeltaArray := [], EntryCount := 3
                         IndexEntryArray :=
                           [0, 0, 64, 0, 0, 0, 0, 0, 0, 0, 0,
                            0, 0, 0, 0, 0, 0, 0, 0, 0, 3, 232,
                            0, 0, 128, 0, 0, 0, 0, 0, 0, 8, 52] }] } : IndexTable).DefineDeltaArray 1
        [{ PosTableIndex := 0, Slice := 0, ElementDelta := [0, 0, 0, 7] }])
      5 0 true
      { StartPosition := 0, DeltaCount := 0, DeltaArray := [], EntryCount := 3
        IndexEntryArray :=
          [0, 0, 64, 0, 0, 0, 0, 0, 0, 0, 0,
           0, 0, 0, 0, 0, 0, 0, 0, 0, 3, 232,
           0, 0, 128, 0, 0, 0, 0, 0, 0, 8, 52] }
      (by decide) (by decide) (by decide) (by decide) (by decide) (by decide) (by decide)
      (by decide) (by decide)).1⟩

/-- C10: for every VBR table whose segments cover pairwise disjoint ranges of edit
units, every segment `S` of it and edit unit `e` inside `S` whose entry has a nonzero
temporal offset `t` with `e + t` still inside `S`: `Lookup(e, 0, true)` reports
`TemporalOffset = t` and `Exact = true` and returns as `Location` the `Position`
value of the stream offset of the entry at `e + t`, and `Lookup(e, 0, false)` that of
the entry at `e` itself; these are the stream offsets themselves whenever they are
`Position` values. -/
theorem Lookup_reorder (t : IndexTable) (e : Int) (S : IndexSegment)
    (hvbr : t.EditUnitByteCount = 0)
    (hS : S ∈ t.SegmentMap)
    (hin : S.StartPosition ≤ e ∧ e < S.StartPosition + S.EntryCount)
    (hdisj : t.SegmentMap.Pairwise fun A B =>
      A.StartPosition + A.EntryCount ≤ B.StartPosition ∨
      B.StartPosition + B.EntryCount ≤ A.StartPosition)
    (hoff : entryTemporalOffset
      (S.entry t.IndexEntrySize.toNat (e - S.StartPosition).toNat) ≠ 0)
    (htarget : S.StartPosition ≤ e + entryTemporalOffset
        (S.entry t.IndexEntrySize.toNat (e - S.StartPosition).toNat) ∧
      e + entryTemporalOffset (S.entry t.IndexEntrySize.toNat (e - S.StartPosition).toNat)
        < S.StartPosition + S.EntryCount) :
    (t.Lookup e 0 true).Location
      = toPosition (entryStreamOffset (S.entry t.IndexEntrySize.toNat
          (e + entryTemporalOffset (S.entry t.IndexEntrySize.toNat (e - S.StartPosition).toNat)
            - S.StartPosition).toNat)) ∧
    (entryStreamOffset (S.entry t.IndexEntrySize.toNat
          (e + entryTemporalOffset (S.entry t.IndexEntrySize.toNat (e - S.StartPosition).toNat)
            - S.StartPosition).toNat) ≤ 9223372036854775807 →
      (t.Lookup e 0 true).Location
        = entryStreamOffset (S.entry t.IndexEntrySize.toNat
            (e + entryTemporalOffset (S.entry t.IndexEntrySize.toNat (e - S.StartPosition).toNat)
              - S.StartPosition).toNat)) ∧
    (t.Lookup e 0 true).TemporalOffset
      = entryTemporalOffset (S.entry t.IndexEntrySize.toNat (e - S.StartPosition).toNat) ∧
    (t.Lookup e 0 true).Exact = true ∧
    (t.Lookup e 0 false).Location
      = toPosition (entryStreamOffset
          (S.entry t.IndexEntrySize.toNat (e - S.StartPosition).toNat)) ∧
    (entryStreamOffset (S.entry t.IndexEntrySize.toNat (e - S.StartPosition).toNat)
        ≤ 9223372036854775807 →
      (t.Lookup e 0 false).Location
        = entryStreamOffset (S.entry t.IndexEntrySize.toNat (e - S.StartPosition).toNat)) := by
  have h0 : ¬ 0 < t.EditUnitByteCount := by omega
  have hseg := GetSegment_of_disjoint t e S hS hin hdisj
  have h1 : (t.Lookup e 0 true).Location
      = toPosition (entryStreamOffset (S.entry t.IndexEntrySize.toNat
          (e + entryTemporalOffset (S.entry t.IndexEntrySize.toNat (e - S.StartPosition).toNat)
            - S.StartPosition).toNat)) ∧
      (t.Lookup e 0 true).TemporalOffset
        = entryTemporalOffset (S.entry t.IndexEntrySize.toNat (e - S.StartPosition).toNat) ∧
      (t.Lookup e 0 true).Exact = true ∧
      (t.Lookup e 0 false).Location
        = toPosition (entryStreamOffset
            (S.entry t.IndexEntrySize.toNat (e - S.StartPosition).toNat)) := by
    unfold IndexTable.Lookup
    simp [h0, hseg, IndexTable.subItemOffset, hoff, htarget]
  refine ⟨h1.1, fun hr => ?_, h1.2.1, h1.2.2.1, h1.2.2.2, fun hr => ?_⟩
  · rw [h1.1]; exact toPosition_of_range _ (by omega) (by omega)
  · rw [h1.2.2.2]; exact toPosition_of_range _ (by omega) (by omega)

/-- C10, on the table with one segment at 0 holding the temporal offsets `[+2, -1, -1]`
and the stream offsets `[0, 500, 1500]`, and a base delta entry 0 of element delta 7:
`Lookup(0, 0, true)` gives `Location = 1500` with `TemporalOffset = 2` and
`Exact = true`; `Lookup(0, 0, false)` gives `Location = 0`. -/
theorem Lookup_reorder_witness :
    ((({ IndexTable.new with
        SegmentMap := [{ StartPosition := 0, DeltaCount := 0, DeltaArray := [], EntryCount := 3
                         IndexEntryArray :=
                           [2, 0, 0, 0, 0, 0, 0, 0, 0, 0, 0,
                            255, 0, 0, 0, 0, 0, 0, 0, 0, 1, 244,
                            255, 0, 0, 0, 0, 0, 0, 0, 0, 5, 220] }] } : IndexTable).DefineDeltaArray 1
      [{ PosTableIndex := 0, Slice := 0, ElementDelta := [0, 0, 0, 7] }]).Lookup 0 0 true)
      = { ThisPos := 0, Location := 1500, PosOffset := { Numerator := 0, Denominator := 0 }
          Exact := true, OtherPos := false, Offset := false, KeyFrameOffset := 0
          TemporalOffset := 2, KeyLocation := 0, Flags := 0 } ∧
    ((({ IndexTable.new with
        SegmentMap := [{ StartPosition := 0, DeltaCount := 0, DeltaArray := [], EntryCount := 3
                         IndexEntryArray :=
                           [2, 0, 0, 0, 0, 0, 0, 0, 0, 0, 0,
                            255, 0, 0, 0, 0, 0, 0, 0, 0, 1, 244,
                            255, 0, 0, 0, 0, 0, 0, 0, 0, 5, 220] }] } : IndexTable).DefineDeltaArray 1
      [{ PosTableIndex := 0, Slice := 0, ElementDelta := [0, 0, 0, 7] }]).Lookup 0 0
      false).Location = 0 ∧
    ((({ IndexTable.new with
        SegmentMap := [{ StartPosition := 0, DeltaCount := 0, DeltaArray := [], EntryCount := 3
                         IndexEntryArray :=
                           [2, 0, 0, 0, 0, 0, 0, 0, 0, 0, 0,
                            255, 0, 0, 0, 0, 0, 0, 0, 0, 1, 244,
                            255, 0, 0, 0, 0, 0, 0, 0, 0, 5, 220] }] } : IndexTable).DefineDeltaArray 1
      [{ PosTableIndex := 0, Slice := 0, ElementDelta := [0, 0, 0, 7] }]).Lookup 0 0
      true).Exact = true :=
  ⟨by decide, by decide,
   (Lookup_reorder
      (({ IndexTable.new with
        SegmentMap := [{ StartPosition := 0, DeltaCount := 0, DeltaArray := [], EntryCount := 3
                         IndexEntryArray :=
                           [2, 0, 0, 0, 0, 0, 0, 0, 0, 0, 0,
                            255, 0, 0, 0, 0, 0, 0, 0, 0, 1, 244,
                            255, 0, 0, 0, 0, 0, 0, 0, 0, 5, 220] }] } : IndexTable).DefineDeltaArray 1
        [{ PosTableIndex := 0, Slice := 0, ElementDelta := [0, 0, 0, 7] }])
      0
      { StartPosition := 0, DeltaCount := 0, DeltaArray := [], EntryCount := 3
        IndexEntryArray :=
          [2, 0, 0, 0, 0, 0, 0, 0, 0, 0, 0,
           255, 0, 0, 0, 0, 0, 0, 0, 0, 1, 244,
           255, 0, 0, 0, 0, 0, 0, 0, 0, 5, 220] }
      (by decide) (by decide) (by decide) (by decide) (by decide) (by decide)).2.2.2.1⟩

/-! ## `IndexManager`: temporal offsets and temporal diffs -/

theorem testBit_or_two_one (s : Nat) : (s ||| 2).testBit 1 = true := by
  have h : Nat.testBit 2 1 = true := by decide
  rw [Nat.testBit_or, h]; simp

theorem testBit_or_two_two (s : Nat) : (s ||| 2).testBit 2 = s.testBit 2 := by
  have h : Nat.testBit 2 2 = false := by decide
  rw [Nat.testBit_or, h]; simp

theorem testBit_or_four_one (s : Nat) : (s ||| 4).testBit 1 = s.testBit 1 := by
  have h : Nat.testBit 4 1 = false := by decide
  rw [Nat.testBit_or, h]; simp

theorem testBit_or_four_two (s : Nat) : (s ||| 4).testBit 2 = true := by
  have h : Nat.testBit 4 2 = true := by decide
  rw [Nat.testBit_or, h]; simp

theorem testBit_or_one_one (s : Nat) : (s ||| 1).testBit 1 = s.testBit 1 := by
  have h : Nat.testBit 1 1 = false := by decide
  rw [Nat.testBit_or, h]; simp

theorem testBit_or_one_two (s : Nat) : (s ||| 1).testBit 2 = s.testBit 2 := by
  have h : Nat.testBit 1 2 = false := by decide
  rw [Nat.testBit_or, h]; simp

/-- A new record has a temporal offset only if one was pending for its edit unit. -/
theorem newRecord_temporalOffset (m : IndexManager) (e : Int)
    (h : (m.newRecord e).HasTemporalOffset) :
    m.UnsatisfiedTemporalOffsets e = some (m.newRecord e).TemporalOffset := by
  unfold IndexData.HasTemporalOffset IndexManager.newRecord at *
  cases ho : m.UnsatisfiedTemporalOffsets e <;> cases hd : m.UnsatisfiedTemporalDiffs e <;>
    simp [ho, hd] at h ⊢
  exact absurd h (by decide)

/-- A new record takes the temporal diff pending for its edit unit. -/
theorem newRecord_temporalDiff (m : IndexManager) (e d : Int)
    (h : m.UnsatisfiedTemporalDiffs e = some d) :
    (m.newRecord e).TemporalDiff = d ∧ (m.newRecord e).HasTemporalDiff := by
  unfold IndexData.HasTemporalDiff IndexManager.newRecord
  cases ho : m.UnsatisfiedTemporalOffsets e <;> simp [ho, h] <;> decide

theorem GetArrayEntry_of_some (m : IndexManager) (e : Int) (r : IndexData)
    (h : m.ManagedData e = some r) : m.GetArrayEntry e = (r, m) := by
  unfold IndexManager.GetArrayEntry; rw [h]

theorem GetArrayEntry_of_none (m : IndexManager) (e : Int) (h : m.ManagedData e = none) :
    m.GetArrayEntry e =
      (m.newRecord e,
       { m with
         ManagedData := mapAssign m.ManagedData e (m.newRecord e)
         UnsatisfiedTemporalOffsets := mapErase m.UnsatisfiedTemporalOffsets e
         UnsatisfiedTemporalDiffs := mapErase m.UnsatisfiedTemporalDiffs e }) := by
  unfold IndexManager.GetArrayEntry; rw [h]

/-- The relation to the calls made is kept by an operation that gets the record of an
edit unit (creating it as required) and puts it back with its temporal offset,
temporal diff and their status bits untouched. -/
theorem TemporalInv_of_touch (m m1 : IndexManager) (calls : List (Int × Int)) (e : Int)
    (f : IndexData → IndexData) (hinv : TemporalInv m calls)
    (hM : m1.ManagedData = mapAssign (m.GetArrayEntry e).2.ManagedData e (f (m.GetArrayEntry e).1))
    (hO : m1.UnsatisfiedTemporalOffsets = (m.GetArrayEntry e).2.UnsatisfiedTemporalOffsets)
    (hD : m1.UnsatisfiedTemporalDiffs = (m.GetArrayEntry e).2.UnsatisfiedTemporalDiffs)
    (hf : ∀ r, (f r).TemporalOffset = r.TemporalOffset ∧ (f r).TemporalDiff = r.TemporalDiff ∧
      (f r).Status.testBit 1 = r.Status.testBit 1 ∧
      (f r).Status.testBit 2 = r.Status.testBit 2) :
    TemporalInv m1 calls := by
  obtain ⟨J1, J2, J3, J4⟩ := hinv
  cases hme : m.ManagedData e with
  | some r0 =>
    rw [GetArrayEntry_of_some m e r0 hme] at hM hO hD
    simp only [] at hM hO hD
    have hget : ∀ x, m1.ManagedData x = if x = e then some (f r0) else m.ManagedData x := by
      intro x; rw [hM]; rfl
    refine ⟨?_, ?_, ?_, ?_⟩
    · intro x r hx hr
      rw [hget] at hx
      by_cases hxe : x = e
      · rw [if_pos hxe] at hx
        cases hx
        subst hxe
        have h1 := J1 x r0 hme (by
          unfold IndexData.HasTemporalOffset at hr ⊢
          rw [← (hf r0).2.2.1]; exact hr)
        rw [(hf r0).1]; exact h1
      · rw [if_neg hxe] at hx
        exact J1 x r hx hr
    · intro c hc r hx
      rw [hget] at hx
      by_cases hxe : c.1 + c.2 = e
      · rw [if_pos hxe] at hx
        cases hx
        have h2 := J2 c hc r0 (by rw [hxe]; exact hme)
        unfold IndexData.HasTemporalDiff at h2 ⊢
        rw [(hf r0).2.1, (hf r0).2.2.2]; exact h2
      · rw [if_neg hxe] at hx
        exact J2 c hc r hx
    · intro c hc hx
      rw [hget] at hx
      by_cases hxe : c.1 + c.2 = e
      · rw [if_pos hxe] at hx; cases hx
      · rw [if_neg hxe] at hx
        rw [hD]; exact J3 c hc hx
    · intro x d hx
      rw [hO] at hx; exact J4 x d hx
  | none =>
    rw [GetArrayEntry_of_none m e hme] at hM hO hD
    simp only [] at hM hO hD
    have hget : ∀ x, m1.ManagedData x
        = if x = e then some (f (m.newRecord e)) else m.ManagedData x := by
      intro x; rw [hM]; unfold mapAssign; by_cases hxe : x = e <;> simp [hxe]
    refine ⟨?_, ?_, ?_, ?_⟩
    · intro x r hx hr
      rw [hget] at hx
      by_cases hxe : x = e
      · rw [if_pos hxe] at hx
        cases hx
        subst hxe
        have h1 := newRecord_temporalOffset m x (by
          unfold IndexData.HasTemporalOffset at hr ⊢
          rw [← (hf _).2.2.1]; exact hr)
        rw [(hf _).1]; exact J4 x _ h1
      · rw [if_neg hxe] at hx
        exact J1 x r hx hr
    · intro c hc r hx
      rw [hget] at hx
      by_cases hxe : c.1 + c.2 = e
      · rw [if_pos hxe] at hx
        cases hx
        have h3 := J3 c hc (by rw [hxe]; exact hme)
        rw [hxe] at h3
        have h2 := newRecord_temporalDiff m e _ h3
        unfold IndexData.HasTemporalDiff at h2 ⊢
        rw [(hf _).2.1, (hf _).2.2.2]; exact h2
      · rw [if_neg hxe] at hx
        exact J2 c hc r hx
    · intro c hc hx
      rw [hget] at hx
      by_cases hxe : c.1 + c.2 = e
      · rw [if_pos hxe] at hx; cases hx
      · rw [if_neg hxe] at hx
        rw [hD]
        unfold mapErase
        rw [if_neg hxe]; exact J3 c hc hx
    · intro x d hx
      rw [hO] at hx
      unfold mapErase at hx
      by_cases hxe : x = e
      · rw [if_pos hxe] at hx; cases hx
      · rw [if_neg hxe] at hx; exact J4 x d hx

theorem TemporalInv_AddEditUnit (m : IndexManager) (calls : List (Int × Int))
    (SubStream EditUnit KeyOffset Flags : Int) (hinv : TemporalInv m calls) :
    TemporalInv (m.AddEditUnit SubStream EditUnit KeyOffset Flags) calls := by
  refine TemporalInv_of_touch m _ calls EditUnit (m.recordEditUnit SubStream KeyOffset Flags)
    hinv rfl rfl rfl ?_
  intro r
  unfold IndexManager.recordEditUnit
  by_cases h : SubStream = m.MasterStream <;> simp [h]

theorem TemporalInv_SetOffset (m : IndexManager) (calls : List (Int × Int))
    (SubStream EditUnit : Int) (Offset : Nat) (KeyOffset Flags : Int)
    (hinv : TemporalInv m calls) :
    TemporalInv (m.SetOffset SubStream EditUnit Offset KeyOffset Flags) calls := by
  refine TemporalInv_of_touch m _ calls EditUnit
    (m.recordOffset SubStream Offset KeyOffset Flags) hinv rfl rfl rfl ?_
  intro r
  unfold IndexManager.recordOffset IndexManager.recordEditUnit
  by_cases h : SubStream = m.MasterStream
  · simp only [h, if_true]
    exact ⟨trivial, trivial, testBit_or_one_one _, testBit_or_one_two _⟩
  · simp only [h, if_false]
    exact ⟨trivial, trivial, testBit_or_one_one _, testBit_or_one_two _⟩

theorem writeTemporalOffset_ManagedData (m : IndexManager) (e d x : Int) :
    (m.writeTemporalOffset e d).ManagedData x =
      if x = e then
        (m.ManagedData e).map fun r => { r with TemporalOffset := d, Status := r.Status ||| 2 }
      else m.ManagedData x := by
  unfold IndexManager.writeTemporalOffset
  cases h : m.ManagedData e with
  | none => by_cases hx : x = e <;> simp [hx, h]
  | some r => by_cases hx : x = e <;> simp [hx, mapAssign]

theorem writeTemporalOffset_pending (m : IndexManager) (e d x o : Int)
    (h : (m.writeTemporalOffset e d).UnsatisfiedTemporalOffsets x = some o) :
    (x = e ∧ o = d) ∨ m.UnsatisfiedTemporalOffsets x = some o := by
  unfold IndexManager.writeTemporalOffset at h
  cases hm : m.ManagedData e with
  | none =>
    rw [hm] at h
    simp only [mapAssign] at h
    by_cases hx : x = e
    · rw [if_pos hx] at h; cases h; exact Or.inl ⟨hx, rfl⟩
    · rw [if_neg hx] at h; exact Or.inr h
  | some r => rw [hm] at h; exact Or.inr h

theorem writeTemporalOffset_diffs (m : IndexManager) (e d : Int) :
    (m.writeTemporalOffset e d).UnsatisfiedTemporalDiffs = m.UnsatisfiedTemporalDiffs := by
  unfold IndexManager.writeTemporalOffset
  cases m.ManagedData e <;> rfl

theorem writeTemporalDiff_ManagedData (m : IndexManager) (e d x : Int) :
    (m.writeTemporalDiff e d).ManagedData x =
      if x = e then
        (m.ManagedData e).map fun r => { r with TemporalDiff := d, Status := r.Status ||| 4 }
      else m.ManagedData x := by
  unfold IndexManager.writeTemporalDiff
  cases h : m.ManagedData e with
  | none => by_cases hx : x = e <;> simp [hx, h]
  | some r => by_cases hx : x = e <;> simp [hx, mapAssign]

theorem writeTemporalDiff_pending (m : IndexManager) (e d x : Int) :
    (m.writeTemporalDiff e d).UnsatisfiedTemporalDiffs x =
      if x = e ∧ m.ManagedData e = none then some d else m.UnsatisfiedTemporalDiffs x := by
  unfold IndexManager.writeTemporalDiff
  cases hm : m.ManagedData e with
  | none => by_cases hx : x = e <;> simp [hx, mapAssign]
  | some r => simp

theorem writeTemporalDiff_offsets (m : IndexManager) (e d : Int) :
    (m.writeTemporalDiff e d).UnsatisfiedTemporalOffsets = m.UnsatisfiedTemporalOffsets := by
  unfold IndexManager.writeTemporalDiff
  cases m.ManagedData e <;> rfl

/-- The relation to the calls made is kept by `SetTemporalOffset(e, d)` when no other
call points at `e + d`. -/
theorem TemporalInv_SetTemporalOffset (m : IndexManager) (calls : List (Int × Int)) (e d : Int)
    (hinv : TemporalInv m calls)
    (hfresh : ∀ c ∈ calls, c.1 + c.2 = e + d → c = (e, d)) :
    TemporalInv (m.SetTemporalOffset e d) ((e, d) :: calls) := by
  obtain ⟨J1, J2, J3, J4⟩ := hinv
  have htarget : ∀ c ∈ (e, d) :: calls, c.1 + c.2 = e + d → c = (e, d) := by
    intro c hc hk
    rcases List.mem_cons.mp hc with h | h
    · exact h
    · exact hfresh c h hk
  have hold : ∀ c ∈ (e, d) :: calls, c.1 + c.2 ≠ e + d → c ∈ calls := by
    intro c hc hk
    rcases List.mem_cons.mp hc with h | h
    · subst h; exact absurd rfl hk
    · exact h
  unfold IndexManager.SetTemporalOffset
  refine ⟨?_, ?_, ?_, ?_⟩
  · -- a temporal offset found in a record comes from a call
    have step1 : ∀ x r, (m.writeTemporalOffset e d).ManagedData x = some r →
        r.HasTemporalOffset → (x, r.TemporalOffset) ∈ (e, d) :: calls := by
      intro x r hx hr
      rw [writeTemporalOffset_ManagedData] at hx
      by_cases hxe : x = e
      · rw [if_pos hxe] at hx
        cases hm : m.ManagedData e with
        | none => rw [hm] at hx; cases hx
        | some r0 =>
          rw [hm] at hx; cases hx
          subst hxe; exact List.mem_cons_self _ _
      · rw [if_neg hxe] at hx
        exact List.mem_cons_of_mem _ (J1 x r hx hr)
    intro x r hx hr
    rw [writeTemporalDiff_ManagedData] at hx
    by_cases hxe : x = e + d
    · rw [if_pos hxe] at hx
      cases hm : (m.writeTemporalOffset e d).ManagedData (e + d) with
      | none => rw [hm] at hx; cases hx
      | some r1 =>
        rw [hm] at hx; cases hx
        subst hxe
        exact step1 _ r1 hm (by
          unfold IndexData.HasTemporalOffset at hr ⊢
          rw [← testBit_or_four_one]; exact hr)
    · rw [if_neg hxe] at hx
      exact step1 x r hx hr
  · -- the target of a call holds the opposite temporal diff
    intro c hc r hx
    rw [writeTemporalDiff_ManagedData] at hx
    by_cases hk : c.1 + c.2 = e + d
    · have hce := htarget c hc hk
      rw [if_pos hk] at hx
      cases hm : (m.writeTemporalOffset e d).ManagedData (e + d) with
      | none => rw [hm] at hx; cases hx
      | some r1 =>
        rw [hm] at hx; cases hx
        subst hce
        exact ⟨rfl, testBit_or_four_two _⟩
    · rw [if_neg hk] at hx
      have hc1 := hold c hc hk
      rw [writeTemporalOffset_ManagedData] at hx
      by_cases hke : c.1 + c.2 = e
      · rw [if_pos hke] at hx
        cases hm : m.ManagedData e with
        | none => rw [hm] at hx; cases hx
        | some r0 =>
          rw [hm] at hx; cases hx
          have h2 := J2 c hc1 r0 (by rw [hke]; exact hm)
          unfold IndexData.HasTemporalDiff at h2 ⊢
          exact ⟨h2.1, by rw [testBit_or_two_two]; exact h2.2⟩
      · rw [if_neg hke] at hx
        exact J2 c hc1 r hx
  · -- or has it pending while there is no record
    intro c hc hx
    rw [writeTemporalDiff_ManagedData] at hx
    rw [writeTemporalDiff_pending]
    by_cases hk : c.1 + c.2 = e + d
    · have hce := htarget c hc hk
      rw [if_pos hk] at hx
      have hnone : (m.writeTemporalOffset e d).ManagedData (e + d) = none := by
        cases hm : (m.writeTemporalOffset e d).ManagedData (e + d) with
        | none => rfl
        | some r1 => rw [hm] at hx; cases hx
      rw [if_pos ⟨hk, hnone⟩]
      subst hce; rfl
    · rw [if_neg hk] at hx
      have hc1 := hold c hc hk
      rw [if_neg (fun h => hk h.1), writeTemporalOffset_diffs]
      refine J3 c hc1 ?_
      rw [writeTemporalOffset_ManagedData] at hx
      by_cases hke : c.1 + c.2 = e
      · rw [if_pos hke] at hx
        cases hm : m.ManagedData e with
        | none => rw [hke]; exact hm
        | some r0 => rw [hm] at hx; cases hx
      · rw [if_neg hke] at hx; exact hx
  · -- a pending temporal offset comes from a call
    intro x o hx
    rw [writeTemporalDiff_offsets] at hx
    rcases writeTemporalOffset_pending m e d x o hx with ⟨h1, h2⟩ | h
    · subst h1; subst h2; exact List.mem_cons_self _ _
    · exact List.mem_cons_of_mem _ (J4 x o h)

/-- The operations whose bodies are in the header, `AcceptProvisional` apart, leave the
records and the pending temporal values as they are. -/
theorem step_keeps_records (m m1 : IndexManager) (op : IndexManager.Op)
    (hne : op ≠ IndexManager.Op.AcceptProvisional) (h : m.step op = some m1) :
    m1.ManagedData = m.ManagedData ∧
    m1.UnsatisfiedTemporalOffsets = m.UnsatisfiedTemporalOffsets ∧
    m1.UnsatisfiedTemporalDiffs = m.UnsatisfiedTemporalDiffs := by
  cases op with
  | AcceptProvisional => exact absurd rfl hne
  | Log e =>
    simp only [IndexManager.step, Option.some.injEq] at h
    subst h
    unfold IndexManager.Log
    split_ifs <;> exact ⟨rfl, rfl, rfl⟩
  | ReadLog id =>
    simp only [IndexManager.step, Option.some.injEq] at h
    subst h
    unfold IndexManager.ReadLog
    cases m.EntryLog id <;> exact ⟨rfl, rfl, rfl⟩
  | SetPosTableIndex id v =>
    simp only [IndexManager.step, IndexManager.SetPosTableIndex] at h
    split_ifs at h
    · cases h; exact ⟨rfl, rfl, rfl⟩
    · cases h; exact ⟨rfl, rfl, rfl⟩
  | ForceVBR =>
    simp only [IndexManager.step, Option.some.injEq] at h
    subst h; exact ⟨rfl, rfl, rfl⟩
  | AcceptNext =>
    simp only [IndexManager.step, Option.some.injEq] at h
    subst h; exact ⟨rfl, rfl, rfl⟩
  | SetMasterStream id =>
    simp only [IndexManager.step, Option.some.injEq] at h
    subst h; exact ⟨rfl, rfl, rfl⟩
  | SetBodySID sid =>
    simp only [IndexManager.step, Option.some.injEq] at h
    subst h; exact ⟨rfl, rfl, rfl⟩
  | SetIndexSID sid =>
    simp only [IndexManager.step, Option.some.injEq] at h
    subst h; exact ⟨rfl, rfl, rfl⟩
  | SetEditRate r =>
    simp only [IndexManager.step, Option.some.injEq] at h
    subst h; exact ⟨rfl, rfl, rfl⟩
  | SetEditRateFromInts n d =>
    simp only [IndexManager.step, Option.some.injEq] at h
    subst h; exact ⟨rfl, rfl, rfl⟩
  | SetValueRelativeIndexing v =>
    simp only [IndexManager.step, Option.some.injEq] at h
    subst h; exact ⟨rfl, rfl, rfl⟩
  | SetSubRangeOffset o =>
    simp only [IndexManager.step, Option.some.injEq] at h
    subst h; exact ⟨rfl, rfl, rfl⟩
  | SetIndexDuration v =>
    simp only [IndexManager.step, Option.some.injEq] at h
    subst h; exact ⟨rfl, rfl, rfl⟩

/-- Every state reached from the constructor stands in the relation to the calls
made. -/
theorem TemporalReachable_inv (m : IndexManager) (calls : List (Int × Int))
    (h : TemporalReachable m calls) : TemporalInv m calls := by
  induction h with
  | construct p s =>
    refine ⟨?_, ?_, ?_, ?_⟩
    · intro e r he; cases he
    · intro c hc; cases hc
    · intro c hc; cases hc
    · intro e d he; cases he
  | addEditUnit m calls sub eu ko fl _ ih => exact TemporalInv_AddEditUnit m calls sub eu ko fl ih
  | setOffset m calls sub eu off ko fl _ ih =>
    exact TemporalInv_SetOffset m calls sub eu off ko fl ih
  | setTemporalOffset m calls e d _ hfresh ih =>
    exact TemporalInv_SetTemporalOffset m calls e d ih hfresh
  | other m calls op m1 _ hne hstep ih =>
    obtain ⟨k1, k2, k3⟩ := step_keeps_records m m1 op hne hstep
    unfold TemporalInv at ih ⊢
    rw [k1, k2, k3]
    exact ih

/-- C13, as the code has it: for every manager state in which a provisional entry is
staged for an edit unit `e` that has no record in `ManagedData`, `AcceptProvisional`
promotes it: afterwards `ManagedData` maps `e` to exactly the staged entry, and the
records of the other edit units are as before. -/
theorem AcceptProvisional_promotes (m : IndexManager) (entry : IndexData)
    (hstaged : m.ProvisionalEntry = some entry)
    (hnew : m.ManagedData m.ProvisionalEditUnit = none) :
    m.AcceptProvisional.2.ManagedData m.ProvisionalEditUnit = some entry ∧
    ∀ x, x ≠ m.ProvisionalEditUnit →
      m.AcceptProvisional.2.ManagedData x = m.ManagedData x := by
  unfold IndexManager.AcceptProvisional
  rw [hstaged]
  simp only [mapInsert, hnew, if_true]
  exact ⟨trivial, fun x hx => by rw [if_neg hx]⟩

/-- C13, on a new manager with an entry staged for edit unit 5: afterwards
`ManagedData` maps 5 to it. -/
theorem AcceptProvisional_promotes_witness :
    ({ IndexManager.new 0 0 with
        ProvisionalEntry := some { Status := 1, Flags := 128, KeyOffset := 0, TemporalOffset := 0
                                   TemporalDiff := 0, StreamOffset := [7] }
        ProvisionalEditUnit := 5 } : IndexManager).AcceptProvisional.2.ManagedData 5
      = some { Status := 1, Flags := 128, KeyOffset := 0, TemporalOffset := 0
               TemporalDiff := 0, StreamOffset := [7] } :=
  (AcceptProvisional_promotes
    ({ IndexManager.new 0 0 with
        ProvisionalEntry := some { Status := 1, Flags := 128, KeyOffset := 0, TemporalOffset := 0
                                   TemporalDiff := 0, StreamOffset := [7] }
        ProvisionalEditUnit := 5 } : IndexManager)
    { Status := 1, Flags := 128, KeyOffset := 0, TemporalOffset := 0
      TemporalDiff := 0, StreamOffset := [7] } rfl rfl).1

/-- C13 fails as stated: when `ManagedData` already holds a record for edit unit 5
(stream offset 1000) and an entry is staged for 5 (stream offset 7),
`AcceptProvisional` returns 5, clears the staged entry, and `ManagedData` still maps 5
to the old record: `std::map::insert` does not replace it. -/
theorem AcceptProvisional_keeps_old_record :
    ({ IndexManager.new 0 0 with
        ManagedData := mapAssign (fun _ => none) 5
          { Status := 1, Flags := 0, KeyOffset := 0, TemporalOffset := 0
            TemporalDiff := 0, StreamOffset := [1000] }
        ProvisionalEntry := some { Status := 1, Flags := 128, KeyOffset := 0, TemporalOffset := 0
                                   TemporalDiff := 0, StreamOffset := [7] }
        ProvisionalEditUnit := 5 } : IndexManager).AcceptProvisional.1 = 5 ∧
    ({ IndexManager.new 0 0 with
        ManagedData := mapAssign (fun _ => none) 5
          { Status := 1, Flags := 0, KeyOffset := 0, TemporalOffset := 0
            TemporalDiff := 0, StreamOffset := [1000] }
        ProvisionalEntry := some { Status := 1, Flags := 128, KeyOffset := 0, TemporalOffset := 0
                                   TemporalDiff := 0, StreamOffset := [7] }
        ProvisionalEditUnit := 5 } : IndexManager).AcceptProvisional.2.ProvisionalEntry = none ∧
    ({ IndexManager.new 0 0 with
        ManagedData := mapAssign (fun _ => none) 5
          { Status := 1, Flags := 0, KeyOffset := 0, TemporalOffset := 0
            TemporalDiff := 0, StreamOffset := [1000] }
        ProvisionalEntry := some { Status := 1, Flags := 128, KeyOffset := 0, TemporalOffset := 0
                                   TemporalDiff := 0, StreamOffset := [7] }
        ProvisionalEditUnit := 5 } : IndexManager).AcceptProvisional.2.ManagedData 5
      = some { Status := 1, Flags := 0, KeyOffset := 0, TemporalOffset := 0
               TemporalDiff := 0, StreamOffset := [1000] } := by
  decide

/-- C14: when no provisional entry is staged, `AcceptProvisional` returns
`IndexTable::IndexLowest` and leaves the manager as it is, `ManagedData` and
`LastNewEditUnit` included. -/
theorem AcceptProvisional_none (m : IndexManager) (h : m.ProvisionalEntry = none) :
    m.AcceptProvisional.1 = IndexTable.IndexLowest ∧
    m.AcceptProvisional.2 = m ∧
    m.AcceptProvisional.2.ManagedData = m.ManagedData ∧
    m.AcceptProvisional.2.GetLastNewEditUnit = m.GetLastNewEditUnit := by
  unfold IndexManager.AcceptProvisional
  rw [h]
  exact ⟨rfl, rfl, rfl, rfl⟩

/-- C14, on the manager reached by `SetOffset(0, 13, 9999, 0, 0)`, where nothing is
staged: the call returns `IndexLowest` and the state is the same. -/
theorem AcceptProvisional_none_witness :
    ((IndexManager.new 0 0).SetOffset 0 13 9999 0 0).AcceptProvisional.1
      = IndexTable.IndexLowest ∧
    ((IndexManager.new 0 0).SetOffset 0 13 9999 0 0).AcceptProvisional.2
      = (IndexManager.new 0 0).SetOffset 0 13 9999 0 0 :=
  ⟨(AcceptProvisional_none ((IndexManager.new 0 0).SetOffset 0 13 9999 0 0) rfl).1,
   (AcceptProvisional_none ((IndexManager.new 0 0).SetOffset 0 13 9999 0 0) rfl).2.1⟩

/-- C15: `ReadLog(id)` returns the edit unit stored in `EntryLog` under `id` when there
is one, the sentinel `IndexTable::IndexLowest` when `id` has no log entry, and leaves
the manager, the log included, as it is. -/
theorem ReadLog_result (m : IndexManager) (LogID : Int) :
    (∀ e, m.EntryLog LogID = some e → (m.ReadLog LogID).1 = e) ∧
    (m.EntryLog LogID = none → (m.ReadLog LogID).1 = IndexTable.IndexLowest) ∧
    (m.ReadLog LogID).2 = m ∧
    (m.ReadLog LogID).2.EntryLog = m.EntryLog := by
  unfold IndexManager.ReadLog
  cases h : m.EntryLog LogID with
  | none => exact ⟨fun e he => (by cases he), fun _ => rfl, rfl, rfl⟩
  | some e0 => exact ⟨fun e he => (by cases he; rfl), fun h0 => (by cases h0), rfl, rfl⟩

/-- C15, on the manager that logged edit unit 42 under the slot 3: `ReadLog(3)` returns
42 and `ReadLog(4)` returns `IndexLowest`. -/
theorem ReadLog_result_witness :
    ((({ IndexManager.new 0 0 with LogNextEntry := 3 } : IndexManager).Log 42).ReadLog 3).1 = 42 ∧
    ((({ IndexManager.new 0 0 with LogNextEntry := 3 } : IndexManager).Log 42).ReadLog 4).1
      = IndexTable.IndexLowest :=
  ⟨(ReadLog_result (({ IndexManager.new 0 0 with LogNextEntry := 3 } : IndexManager).Log 42)
      3).1 42 (by decide),
   (ReadLog_result (({ IndexManager.new 0 0 with LogNextEntry := 3 } : IndexManager).Log 42)
      4).2.1 (by decide)⟩

/-- C16: in every manager state with a reserved slot (`LogNextEntry = k >= 0`), `Log(e)`
makes `ReadLog(k)` return `e`, leaves every other log slot as it was and clears the
reservation (`LogNextEntry = -1`); a following `Log(e2)` changes nothing, so only the
next edit unit is recorded under `k`. -/
theorem Log_one_shot (m : IndexManager) (e e2 : Int) (h : 0 ≤ m.LogNextEntry) :
    ((m.Log e).ReadLog m.LogNextEntry).1 = e ∧
    (∀ j, j ≠ m.LogNextEntry → (m.Log e).EntryLog j = m.EntryLog j) ∧
    (m.Log e).LogNextEntry = -1 ∧
    (m.Log e).Log e2 = m.Log e ∧
    (((m.Log e).Log e2).ReadLog m.LogNextEntry).1 = e := by
  have h1 : m.Log e =
      { m with EntryLog := mapAssign m.EntryLog m.LogNextEntry e, LogNextEntry := -1 } := by
    unfold IndexManager.Log; rw [if_pos h]
  have h2 : (m.Log e).Log e2 = m.Log e := by
    rw [h1]; unfold IndexManager.Log; simp
  have h3 : ((m.Log e).ReadLog m.LogNextEntry).1 = e := by
    rw [h1]; simp [IndexManager.ReadLog, mapAssign]
  refine ⟨h3, ?_, ?_, h2, ?_⟩
  · intro j hj; rw [h1]; simp [mapAssign, hj]
  · rw [h1]
  · rw [h2]; exact h3

/-- C16, on a manager with the slot 3 reserved: after `Log(42)` and `Log(43)`,
`ReadLog(3)` returns 42. -/
theorem Log_one_shot_witness :
    (((({ IndexManager.new 0 0 with LogNextEntry := 3 } : IndexManager).Log 42).Log 43).ReadLog
      3).1 = 42 :=
  (Log_one_shot ({ IndexManager.new 0 0 with LogNextEntry := 3 } : IndexManager) 42 43
    (by decide)).2.2.2.2

/-- One operation keeps the stream count and the size of the pos-table array, and does
not set the CBR flag once it is false. -/
theorem step_keeps (m m1 : IndexManager) (op : IndexManager.Op) (h : m.step op = some m1) :
    m1.StreamCount = m.StreamCount ∧ m1.PosTableList.length = m.PosTableList.length ∧
    (m.DataIsCBR = false → m1.DataIsCBR = false) := by
  cases op with
  | AcceptProvisional =>
    simp only [IndexManager.step, Option.some.injEq] at h
    subst h
    unfold IndexManager.AcceptProvisional
    cases m.ProvisionalEntry <;> exact ⟨rfl, rfl, fun hc => hc⟩
  | Log e =>
    simp only [IndexManager.step, Option.some.injEq] at h
    subst h
    unfold IndexManager.Log
    split_ifs <;> exact ⟨rfl, rfl, fun hc => hc⟩
  | ReadLog id =>
    simp only [IndexManager.step, Option.some.injEq] at h
    subst h
    unfold IndexManager.ReadLog
    cases m.EntryLog id <;> exact ⟨rfl, rfl, fun hc => hc⟩
  | SetPosTableIndex id v =>
    simp only [IndexManager.step, IndexManager.SetPosTableIndex] at h
    split_ifs at h
    · cases h; exact ⟨rfl, by simp, fun hc => hc⟩
    · cases h; exact ⟨rfl, rfl, fun hc => hc⟩
  | ForceVBR =>
    simp only [IndexManager.step, Option.some.injEq] at h
    subst h; exact ⟨rfl, rfl, fun _ => rfl⟩
  | AcceptNext =>
    simp only [IndexManager.step, Option.some.injEq] at h
    subst h; exact ⟨rfl, rfl, fun hc => hc⟩
  | SetMasterStream id =>
    simp only [IndexManager.step, Option.some.injEq] at h
    subst h; exact ⟨rfl, rfl, fun hc => hc⟩
  | SetBodySID sid =>
    simp only [IndexManager.step, Option.some.injEq] at h
    subst h; exact ⟨rfl, rfl, fun hc => hc⟩
  | SetIndexSID sid =>
    simp only [IndexManager.step, Option.some.injEq] at h
    subst h; exact ⟨rfl, rfl, fun hc => hc⟩
  | SetEditRate r =>
    simp only [IndexManager.step, Option.some.injEq] at h
    subst h; exact ⟨rfl, rfl, fun hc => hc⟩
  | SetEditRateFromInts n d =>
    simp only [IndexManager.step, Option.some.injEq] at h
    subst h; exact ⟨rfl, rfl, fun hc => hc⟩
  | SetValueRelativeIndexing v =>
    simp only [IndexManager.step, Option.some.injEq] at h
    subst h; exact ⟨rfl, rfl, fun hc => hc⟩
  | SetSubRangeOffset o =>
    simp only [IndexManager.step, Option.some.injEq] at h
    subst h; exact ⟨rfl, rfl, fun hc => hc⟩
  | SetIndexDuration d =>
    simp only [IndexManager.step, Option.some.injEq] at h
    subst h; exact ⟨rfl, rfl, fun hc => hc⟩

/-- An operation that stays inside the arrays yields a state. -/
theorem step_of_valid (m : IndexManager) (op : IndexManager.Op) (h : op.Valid m) :
    ∃ m1, m.step op = some m1 := by
  cases op with
  | SetPosTableIndex id v =>
    obtain ⟨h0, h1, h2⟩ := h
    simp only [IndexManager.step, IndexManager.SetPosTableIndex]
    rw [if_pos h1, if_pos ⟨h0, h2⟩]
    exact ⟨_, rfl⟩
  | _ => exact ⟨_, rfl⟩

theorem Valid_of_same (m m1 : IndexManager) (op : IndexManager.Op)
    (hs : m1.StreamCount = m.StreamCount)
    (hl : m1.PosTableList.length = m.PosTableList.length) (h : op.Valid m) : op.Valid m1 := by
  cases op with
  | SetPosTableIndex id v =>
    unfold IndexManager.Op.Valid at h ⊢
    rw [hs, hl]; exact h
  | _ => trivial

/-- A sequence of operations that stay inside the arrays runs to a state, and leaves a
false CBR flag false. -/
theorem run_keeps_VBR : ∀ (ops : List IndexManager.Op) (m : IndexManager),
    m.DataIsCBR = false → (∀ op ∈ ops, op.Valid m) →
    ∃ m1, m.run ops = some m1 ∧ m1.DataIsCBR = false := by
  intro ops
  induction ops with
  | nil => intro m h _; exact ⟨m, rfl, h⟩
  | cons op rest ih =>
    intro m h hv
    obtain ⟨m1, hm1⟩ := step_of_valid m op (hv op (by simp))
    obtain ⟨hs, hl, hc⟩ := step_keeps m m1 op hm1
    obtain ⟨m2, hm2, hc2⟩ := ih m1 (hc h)
      (fun o ho => Valid_of_same m m1 o hs hl (hv o (by simp [ho])))
    refine ⟨m2, ?_, hc2⟩
    simp only [IndexManager.run, hm1]
    exact hm2

/-- C17: after `ForceVBR()`, `IsCBR()` returns false and stays false: every sequence of
the operations whose bodies are in the header (`ForceVBR`, `AcceptNext`,
`AcceptProvisional`, `Log`, `ReadLog`, `SetPosTableIndex` with a valid stream,
`SetMasterStream`, the SID, edit-rate, value-relative, sub-range and duration setters)
runs to a state in which `IsCBR()` is false. -/
theorem ForceVBR_permanent (m : IndexManager) (ops : List IndexManager.Op)
    (hv : ∀ op ∈ ops, op.Valid m) :
    m.ForceVBR.IsCBR = false ∧
    ∃ m1, m.ForceVBR.run ops = some m1 ∧ m1.IsCBR = false := by
  refine ⟨rfl, ?_⟩
  exact run_keeps_VBR ops m.ForceVBR rfl (fun op hop => Valid_of_same m _ op rfl rfl (hv op hop))

/-- C17, on a new manager (CBR at first) after `ForceVBR()` and then `AcceptNext()`,
`SetPosTableIndex(0, 2)`, `SetValueRelativeIndexing(true)`, `AcceptProvisional()` and
`SetEditRate(25, 1)`: the run yields a state and `IsCBR()` is false in it. -/
theorem ForceVBR_permanent_witness :
    (IndexManager.new 0 0).IsCBR = true ∧
    ∃ m1, (IndexManager.new 0 0).ForceVBR.run
        [IndexManager.Op.AcceptNext, IndexManager.Op.SetPosTableIndex 0 2,
         IndexManager.Op.SetValueRelativeIndexing true, IndexManager.Op.AcceptProvisional,
         IndexManager.Op.SetEditRateFromInts 25 1] = some m1 ∧ m1.IsCBR = false :=
  ⟨rfl,
   (ForceVBR_permanent (IndexManager.new 0 0)
      [IndexManager.Op.AcceptNext, IndexManager.Op.SetPosTableIndex 0 2,
       IndexManager.Op.SetValueRelativeIndexing true, IndexManager.Op.AcceptProvisional,
       IndexManager.Op.SetEditRateFromInts 25 1]
      (by
        intro op hop
        simp only [List.mem_cons, List.mem_singleton, List.not_mem_nil, or_false] at hop
        rcases hop with h | h | h | h | h <;> subst h
        · trivial
        · exact ⟨by decide, by decide, by decide⟩
        · trivial
        · trivial
        · trivial)).2⟩

/-- One operation other than `SetValueRelativeIndexing` keeps the value-relative
flag. -/
theorem step_keeps_flag (m m1 : IndexManager) (op : IndexManager.Op)
    (hop : ¬ op.IsSetValueRelativeIndexing) (h : m.step op = some m1) :
    m1.ValueRelativeIndexing = m.ValueRelativeIndexing := by
  cases op with
  | SetValueRelativeIndexing v => exact absurd trivial hop
  | AcceptProvisional =>
    simp only [IndexManager.step, Option.some.injEq] at h
    subst h
    unfold IndexManager.AcceptProvisional
    cases m.ProvisionalEntry <;> rfl
  | Log e =>
    simp only [IndexManager.step, Option.some.injEq] at h
    subst h
    unfold IndexManager.Log
    split_ifs <;> rfl
  | ReadLog id =>
    simp only [IndexManager.step, Option.some.injEq] at h
    subst h
    unfold IndexManager.ReadLog
    cases m.EntryLog id <;> rfl
  | SetPosTableIndex id v =>
    simp only [IndexManager.step, IndexManager.SetPosTableIndex] at h
    split_ifs at h
    · cases h; rfl
    · cases h; rfl
  | ForceVBR => simp only [IndexManager.step, Option.some.injEq] at h; subst h; rfl
  | AcceptNext => simp only [IndexManager.step, Option.some.injEq] at h; subst h; rfl
  | SetMasterStream id => simp only [IndexManager.step, Option.some.injEq] at h; subst h; rfl
  | SetBodySID sid => simp only [IndexManager.step, Option.some.injEq] at h; subst h; rfl
  | SetIndexSID sid => simp only [IndexManager.step, Option.some.injEq] at h; subst h; rfl
  | SetEditRate r => simp only [IndexManager.step, Option.some.injEq] at h; subst h; rfl
  | SetEditRateFromInts n d =>
    simp only [IndexManager.step, Option.some.injEq] at h; subst h; rfl
  | SetSubRangeOffset o => simp only [IndexManager.step, Option.some.injEq] at h; subst h; rfl
  | SetIndexDuration d => simp only [IndexManager.step, Option.some.injEq] at h; subst h; rfl

/-- A sequence of operations without `SetValueRelativeIndexing` that stay inside the
arrays runs to a state with the same value-relative flag. -/
theorem run_keeps_flag : ∀ (ops : List IndexManager.Op) (m : IndexManager),
    (∀ op ∈ ops, op.Valid m ∧ ¬ op.IsSetValueRelativeIndexing) →
    ∃ m1, m.run ops = some m1 ∧ m1.ValueRelativeIndexing = m.ValueRelativeIndexing := by
  intro ops
  induction ops with
  | nil => intro m _; exact ⟨m, rfl, rfl⟩
  | cons op rest ih =>
    intro m hv
    obtain ⟨m1, hm1⟩ := step_of_valid m op (hv op (by simp)).1
    obtain ⟨hs, hl, -⟩ := step_keeps m m1 op hm1
    have hf := step_keeps_flag m m1 op (hv op (by simp)).2 hm1
    obtain ⟨m2, hm2, hf2⟩ := ih m1
      (fun o ho => ⟨Valid_of_same m m1 o hs hl (hv o (by simp [ho])).1, (hv o (by simp [ho])).2⟩)
    refine ⟨m2, ?_, by rw [hf2, hf]⟩
    simp only [IndexManager.run, hm1]
    exact hm2

/-- C19: the value-relative indexing flag is a pure pass-through:
`GetValueRelativeIndexing()` returns the value given to the most recent
`SetValueRelativeIndexing` call, right after the call and after any sequence of the
other operations whose bodies are in the header, and the call changes no other member
of the manager (the CBR flag, `ManagedData`, the pending temporal maps, the entry log,
the SIDs, the edit rate and all the others are as before). -/
theorem SetValueRelativeIndexing_passthrough (m : IndexManager) (Val : Bool) :
    (m.SetValueRelativeIndexing Val).GetValueRelativeIndexing = Val ∧
    (∀ ops : List IndexManager.Op,
      (∀ op ∈ ops, op.Valid m ∧ ¬ op.IsSetValueRelativeIndexing) →
      ∃ m1, (m.SetValueRelativeIndexing Val).run ops = some m1 ∧
        m1.GetValueRelativeIndexing = Val) ∧
    (m.SetValueRelativeIndexing Val).DataIsCBR = m.DataIsCBR ∧
    (m.SetValueRelativeIndexing Val).ManagedData = m.ManagedData ∧
    (m.SetValueRelativeIndexing Val).UnsatisfiedTemporalOffsets = m.UnsatisfiedTemporalOffsets ∧
    (m.SetValueRelativeIndexing Val).UnsatisfiedTemporalDiffs = m.UnsatisfiedTemporalDiffs ∧
    (m.SetValueRelativeIndexing Val).EntryLog = m.EntryLog ∧
    (m.SetValueRelativeIndexing Val).BodySID = m.BodySID ∧
    (m.SetValueRelativeIndexing Val).IndexSID = m.IndexSID ∧
    (m.SetValueRelativeIndexing Val).EditRate = m.EditRate ∧
    (m.SetValueRelativeIndexing Val).UsesReordering = m.UsesReordering ∧
    (m.SetValueRelativeIndexing Val).FormatFixed = m.FormatFixed ∧
    (m.SetValueRelativeIndexing Val).StreamCount = m.StreamCount ∧
    (m.SetValueRelativeIndexing Val).StreamListSize = m.StreamListSize ∧
    (m.SetValueRelativeIndexing Val).PosTableList = m.PosTableList ∧
    (m.SetValueRelativeIndexing Val).ElementSizeList = m.ElementSizeList ∧
    (m.SetValueRelativeIndexing Val).MasterStream = m.MasterStream ∧
    (m.SetValueRelativeIndexing Val).ManagedDataEntrySize = m.ManagedDataEntrySize ∧
    (m.SetValueRelativeIndexing Val).ProvisionalEntry = m.ProvisionalEntry ∧
    (m.SetValueRelativeIndexing Val).ProvisionalEditUnit = m.ProvisionalEditUnit ∧
    (m.SetValueRelativeIndexing Val).NextLogID = m.NextLogID ∧
    (m.SetValueRelativeIndexing Val).LogWrapped = m.LogWrapped ∧
    (m.SetValueRelativeIndexing Val).LogNextEntry = m.LogNextEntry ∧
    (m.SetValueRelativeIndexing Val).AcceptNextEntry = m.AcceptNextEntry ∧
    (m.SetValueRelativeIndexing Val).LastNewEditUnit = m.LastNewEditUnit ∧
    (m.SetValueRelativeIndexing Val).SubRangeOffset = m.SubRangeOffset ∧
    (m.SetValueRelativeIndexing Val).IndexDuration = m.IndexDuration := by
  refine ⟨rfl, ?_, rfl, rfl, rfl, rfl, rfl, rfl, rfl, rfl, rfl, rfl, rfl, rfl, rfl, rfl, rfl,
    rfl, rfl, rfl, rfl, rfl, rfl, rfl, rfl, rfl, rfl⟩
  intro ops hv
  obtain ⟨m1, h1, h2⟩ := run_keeps_flag ops (m.SetValueRelativeIndexing Val)
    (fun op hop => ⟨Valid_of_same m _ op rfl rfl (hv op hop).1, (hv op hop).2⟩)
  exact ⟨m1, h1, h2⟩

/-- C19, on a new manager: after `SetValueRelativeIndexing(true)`, then `ForceVBR()` and
`SetBodySID(7)`, `GetValueRelativeIndexing()` returns true. -/
theorem SetValueRelativeIndexing_passthrough_witness :
    ((IndexManager.new 0 0).SetValueRelativeIndexing true).GetValueRelativeIndexing = true ∧
    ∃ m1, ((IndexManager.new 0 0).SetValueRelativeIndexing true).run
        [IndexManager.Op.ForceVBR, IndexManager.Op.SetBodySID 7] = some m1 ∧
      m1.GetValueRelativeIndexing = true :=
  ⟨(SetValueRelativeIndexing_passthrough (IndexManager.new 0 0) true).1,
   (SetValueRelativeIndexing_passthrough (IndexManager.new 0 0) true).2.1
      [IndexManager.Op.ForceVBR, IndexManager.Op.SetBodySID 7]
      (by
        intro op hop
        simp only [List.mem_cons, List.mem_singleton, List.not_mem_nil, or_false] at hop
        rcases hop with h | h <;> subst h
        · exact ⟨trivial, fun hc => hc⟩
        · exact ⟨trivial, fun hc => hc⟩)⟩

/-! ## A new `IndexTable` -/

/-- C20: a newly constructed `IndexTable` is an empty VBR table that already satisfies
the entry-size rule: `EditUnitByteCount = 0`, `BaseDeltaCount = 0`, `NSL = 0`, `NPE = 0`,
`IndexEntrySize = 11 = 11 + 4*NSL + 8*NPE`, `IndexDuration = 0`, `IndexSID = BodySID = 0`,
no segments, and `GetReorder()` returns no reorder index. -/
theorem IndexTable_new_empty :
    IndexTable.new.EditUnitByteCount = 0 ∧
    IndexTable.new.BaseDeltaCount = 0 ∧
    IndexTable.new.NSL = 0 ∧
    IndexTable.new.NPE = 0 ∧
    IndexTable.new.IndexEntrySize = 11 ∧
    IndexTable.new.IndexEntrySize = 11 + 4 * IndexTable.new.NSL + 8 * IndexTable.new.NPE ∧
    IndexTable.new.IndexDuration = 0 ∧
    IndexTable.new.IndexSID = 0 ∧
    IndexTable.new.BodySID = 0 ∧
    IndexTable.new.SegmentMap = [] ∧
    IndexTable.new.GetReorder = none := by
  decide

/-! ## `EnableReorder` and the reorder index -/

theorem DefineDeltaArray_Reorder (t : IndexTable) (n : Nat) (a : List DeltaEntry) :
    (t.DefineDeltaArray n a).Reorder = t.Reorder := by
  unfold IndexTable.DefineDeltaArray
  split <;> rfl

theorem DefineDeltaArrayFromSizes_Reorder (t : IndexTable) (n : Nat) (sizes : List Nat) :
    (t.DefineDeltaArrayFromSizes n sizes).Reorder = t.Reorder := by
  unfold IndexTable.DefineDeltaArrayFromSizes
  split <;> rfl

theorem EnableReorder_of_some (t : IndexTable) (r : ReorderIndex) (h : t.Reorder = some r) :
    t.EnableReorder = some (r, t) := by
  unfold IndexTable.EnableReorder
  rw [h]

theorem EnableReorder_of_none (t : IndexTable) (h : t.Reorder = none)
    (hs : t.IndexEntrySize ≠ 0) :
    t.EnableReorder =
      some ({ IndexEntries := [], CompleteEntryCount := 0, EntryCount := 0, FirstPosition := 0
              IndexEntrySize := toUInt32 t.IndexEntrySize },
            { t with Reorder := some { IndexEntries := [], CompleteEntryCount := 0
                                       EntryCount := 0, FirstPosition := 0
                                       IndexEntrySize := toUInt32 t.IndexEntrySize } }) := by
  unfold IndexTable.EnableReorder ReorderIndex.new
  rw [h]
  simp only [ne_eq, hs, not_false_eq_true, if_true]

/-- What a successful `EnableReorder` leaves behind: the table points at the reorder
index returned. -/
theorem EnableReorder_stores (t : IndexTable) (r : ReorderIndex) (t1 : IndexTable)
    (h : t.EnableReorder = some (r, t1)) : t1.Reorder = some r := by
  unfold IndexTable.EnableReorder at h
  cases hr : t.Reorder with
  | some r0 =>
    rw [hr] at h
    simp only [Option.some.injEq, Prod.mk.injEq] at h
    rw [← h.2, ← h.1]; exact hr
  | none =>
    rw [hr] at h
    cases hn : ReorderIndex.new t.IndexEntrySize with
    | none => rw [hn] at h; exact absurd h (by simp)
    | some r1 =>
      rw [hn] at h
      simp only [Option.some.injEq, Prod.mk.injEq] at h
      rw [← h.2, ← h.1]

/-- The reorder index made by the first `EnableReorder` is empty and has the entry
size of the table. -/
theorem EnableReorder_first (t : IndexTable) (r : ReorderIndex) (t1 : IndexTable)
    (h : t.EnableReorder = some (r, t1)) (hnone : t.Reorder = none) :
    r = { IndexEntries := [], CompleteEntryCount := 0, EntryCount := 0, FirstPosition := 0
          IndexEntrySize := toUInt32 t.IndexEntrySize } := by
  by_cases hs : t.IndexEntrySize = 0
  · unfold IndexTable.EnableReorder ReorderIndex.new at h
    rw [hnone] at h
    simp [hs] at h
  · rw [EnableReorder_of_none t hnone hs] at h
    simp only [Option.some.injEq, Prod.mk.injEq] at h
    exact h.1.symm

/-- `EnableReorder` returns a reorder index whenever the table has one already or
has a nonzero entry size. -/
theorem EnableReorder_returns (t : IndexTable)
    (hs : t.IndexEntrySize ≠ 0 ∨ t.GetReorder ≠ none) :
    ∃ r t1, t.EnableReorder = some (r, t1) := by
  cases hr : t.Reorder with
  | some r0 => exact ⟨r0, t, EnableReorder_of_some t r0 hr⟩
  | none =>
    cases hs with
    | inl h0 => exact ⟨_, _, EnableReorder_of_none t hr h0⟩
    | inr h1 => exact absurd hr h1

/-- C21: `GetReorder()` of a newly constructed table returns no object.  On a table
that has a reorder index already or a nonzero entry size (what the constructor of
`ReorderIndex` asserts), `EnableReorder()` returns a reorder index `r` and leaves a
table `t1` such that: if the table had no reorder index, `r` is a new one, empty, with
both counters 0; if it had one, `r` is that one and the table is as before; and
afterwards `GetReorder()` returns `r` and a further `EnableReorder()` returns `r` again
and leaves the table, the reorder index with its counters and entries included, as it
is. -/
theorem EnableReorder_idempotent (t : IndexTable)
    (hs : t.IndexEntrySize ≠ 0 ∨ t.GetReorder ≠ none) :
    IndexTable.new.GetReorder = none ∧
    ∃ r t1, t.EnableReorder = some (r, t1) ∧
      (t.GetReorder = none →
        r = { IndexEntries := [], CompleteEntryCount := 0, EntryCount := 0, FirstPosition := 0
              IndexEntrySize := toUInt32 t.IndexEntrySize }) ∧
      (∀ r0, t.GetReorder = some r0 → r = r0 ∧ t1 = t) ∧
      t1.GetReorder = some r ∧
      t1.EnableReorder = some (r, t1) := by
  obtain ⟨r, t1, h⟩ := EnableReorder_returns t hs
  have hst := EnableReorder_stores t r t1 h
  refine ⟨rfl, r, t1, h, fun hn => EnableReorder_first t r t1 h hn, fun r0 h0 => ?_, hst,
    EnableReorder_of_some t1 r hst⟩
  rw [EnableReorder_of_some t r0 h0] at h
  simp only [Option.some.injEq, Prod.mk.injEq] at h
  exact ⟨h.1.symm, h.2.symm⟩

/-- C21, on a newly constructed table: the first `EnableReorder()` makes an empty
reorder index of entry size 11, and a second `EnableReorder()` on the table it leaves
returns that one. -/
theorem EnableReorder_idempotent_witness :
    IndexTable.new.EnableReorder =
      some ({ IndexEntries := [], CompleteEntryCount := 0, EntryCount := 0, FirstPosition := 0
              IndexEntrySize := 11 },
            { IndexTable.new with
              Reorder := some { IndexEntries := [], CompleteEntryCount := 0, EntryCount := 0
                                FirstPosition := 0, IndexEntrySize := 11 } }) ∧
    ∃ r t1, IndexTable.new.EnableReorder = some (r, t1) ∧ t1.GetReorder = some r ∧
      t1.EnableReorder = some (r, t1) :=
  ⟨by decide,
   match (EnableReorder_idempotent IndexTable.new (Or.inl (by decide))).2 with
   | ⟨r, t1, h, _, _, h3, h4⟩ => ⟨r, t1, h, h3, h4⟩⟩

/-- C22: for every manager state with a provisional entry staged, `AcceptProvisional`
returns the edit unit the entry is staged for, `GetLastNewEditUnit()` then returns
that edit unit, and an `AcceptProvisional` following at once returns `IndexLowest`
and leaves the whole state (`ManagedData` and `LastNewEditUnit` included) as it
is. -/
theorem AcceptProvisional_consumes_once (m : IndexManager) (entry : IndexData)
    (hstaged : m.ProvisionalEntry = some entry) :
    m.AcceptProvisional.1 = m.ProvisionalEditUnit ∧
    m.AcceptProvisional.2.GetLastNewEditUnit = m.ProvisionalEditUnit ∧
    m.AcceptProvisional.2.AcceptProvisional.1 = IndexTable.IndexLowest ∧
    m.AcceptProvisional.2.AcceptProvisional.2 = m.AcceptProvisional.2 ∧
    m.AcceptProvisional.2.AcceptProvisional.2.ManagedData = m.AcceptProvisional.2.ManagedData ∧
    m.AcceptProvisional.2.AcceptProvisional.2.LastNewEditUnit = m.ProvisionalEditUnit := by
  have h2 : m.AcceptProvisional.2.ProvisionalEntry = none := by
    unfold IndexManager.AcceptProvisional
    rw [hstaged]
  have h3 : m.AcceptProvisional.2.AcceptProvisional
      = (IndexTable.IndexLowest, m.AcceptProvisional.2) := by
    generalize m.AcceptProvisional.2 = m1 at h2 ⊢
    unfold IndexManager.AcceptProvisional
    rw [h2]
  have h1 : m.AcceptProvisional.1 = m.ProvisionalEditUnit ∧
      m.AcceptProvisional.2.LastNewEditUnit = m.ProvisionalEditUnit := by
    unfold IndexManager.AcceptProvisional
    rw [hstaged]
    exact ⟨rfl, rfl⟩
  rw [h3]
  exact ⟨h1.1, h1.2, rfl, rfl, rfl, h1.2⟩

/-- C22, on a new manager with an entry staged for edit unit 5: `AcceptProvisional`
returns 5, the last new edit unit is then 5, and the next `AcceptProvisional` returns
`IndexLowest`. -/
theorem AcceptProvisional_consumes_once_witness :
    ({ IndexManager.new 0 0 with
        ProvisionalEntry := some { Status := 1, Flags := 128, KeyOffset := 0, TemporalOffset := 0
                                   TemporalDiff := 0, StreamOffset := [7] }
        ProvisionalEditUnit := 5 } : IndexManager).AcceptProvisional.1 = 5 ∧
    ({ IndexManager.new 0 0 with
        ProvisionalEntry := some { Status := 1, Flags := 128, KeyOffset := 0, TemporalOffset := 0
                                   TemporalDiff := 0, StreamOffset := [7] }
        ProvisionalEditUnit := 5 } : IndexManager).AcceptProvisional.2.GetLastNewEditUnit = 5 ∧
    ({ IndexManager.new 0 0 with
        ProvisionalEntry := some { Status := 1, Flags := 128, KeyOffset := 0, TemporalOffset := 0
                                   TemporalDiff := 0, StreamOffset := [7] }
        ProvisionalEditUnit := 5 } : IndexManager).AcceptProvisional.2.AcceptProvisional.1
      = -9223372036854775808 :=
  have h := AcceptProvisional_consumes_once
    ({ IndexManager.new 0 0 with
        ProvisionalEntry := some { Status := 1, Flags := 128, KeyOffset := 0, TemporalOffset := 0
                                   TemporalDiff := 0, StreamOffset := [7] }
        ProvisionalEditUnit := 5 } : IndexManager)
    { Status := 1, Flags := 128, KeyOffset := 0, TemporalOffset := 0
      TemporalDiff := 0, StreamOffset := [7] } rfl
  ⟨h.1, h.2.1, h.2.2.1⟩

/-- Entry size computed by the element-size overload while `NSL` itself stays an
`int`: the sum `11 + 4*NSL` reduced to 32 bits. -/
theorem DefineDeltaArrayFromSizes_indexEntrySize_wrapped (t : IndexTable) (sizes : List Nat)
    (hne : sizes ≠ []) (hz : zerosNotLast sizes < 2147483648) :
    (t.DefineDeltaArrayFromSizes sizes.length sizes).IndexEntrySize
      = toInt32 (11 + 4 * (zerosNotLast sizes : Int)) := by
  rw [DefineDeltaArrayFromSizes_eq t sizes hne]
  simp only []
  rw [DefineDeltaArrayFromSizes.loop_snd sizes.length sizes 0 0 0 (by simp) le_rfl (by omega)]
  congr 1
  omega

theorem replicate_zero_ne_nil_large : List.replicate 536870911 (0 : Nat) ≠ [] := by
  intro h0
  have hl := congrArg List.length h0
  rw [List.length_replicate, List.length_nil] at hl
  omega

theorem zerosNotLast_replicate_zero_large :
    zerosNotLast (List.replicate 536870911 0) = 536870910 := by
  unfold zerosNotLast
  rw [List.dropLast_replicate, List.count_replicate_self]

/-- The entry size after a call of the entry overload is at least 11. -/
theorem DefineDeltaArray_indexEntrySize_ge (t : IndexTable) (entries : List DeltaEntry)
    (hne : entries ≠ []) (hr : ∀ d ∈ entries, d.InRange) :
    11 ≤ (t.DefineDeltaArray entries.length entries).IndexEntrySize := by
  have e := DefineDeltaArray_indexEntrySize t entries hne hr
  have e1 : (t.DefineDeltaArray entries.length entries).NSL = maxSlice entries := by
    rw [DefineDeltaArray_eq t entries hne]
  have e2 : (t.DefineDeltaArray entries.length entries).NPE = maxPosTableIndex entries := by
    rw [DefineDeltaArray_eq t entries hne]
  have hs := maxSlice_nonneg entries
  have hp := maxPosTableIndex_nonneg entries
  omega

theorem ReachableInRange_Reorder (t : IndexTable) (h : ReachableInRange t) :
    t.Reorder = none := by
  induction h with
  | construct => rfl
  | fromEntries t entries _ _ ih => rw [DefineDeltaArray_Reorder]; exact ih
  | fromSizes t sizes _ _ ih => rw [DefineDeltaArrayFromSizes_Reorder]; exact ih

theorem ReachableInRange_indexEntrySize_ge (t : IndexTable) (h : ReachableInRange t) :
    11 ≤ t.IndexEntrySize := by
  induction h with
  | construct => decide
  | fromEntries t entries _ hr ih =>
    by_cases hne : entries = []
    · subst hne
      rw [List.length_nil, DefineDeltaArray_zero]
      exact ih
    · exact DefineDeltaArray_indexEntrySize_ge t entries hne hr
  | fromSizes t sizes _ hz ih =>
    by_cases hne : sizes = []
    · subst hne
      rw [List.length_nil, DefineDeltaArrayFromSizes_zero]
      exact ih
    · rw [DefineDeltaArrayFromSizes_indexEntrySize_eq t sizes hne (by omega)]
      omega

theorem toInt32_lt (x : Int) : toInt32 x < 2147483648 := by
  unfold toInt32; omega

theorem ReachableInRange_indexEntrySize_lt (t : IndexTable) (h : ReachableInRange t) :
    t.IndexEntrySize < 2147483648 := by
  induction h with
  | construct => decide
  | fromEntries t entries _ _ ih =>
    by_cases hne : entries = []
    · subst hne
      rw [List.length_nil, DefineDeltaArray_zero]
      exact ih
    · rw [DefineDeltaArray_eq t entries hne]
      exact toInt32_lt _
  | fromSizes t sizes _ _ ih =>
    by_cases hne : sizes = []
    · subst hne
      rw [List.length_nil, DefineDeltaArrayFromSizes_zero]
      exact ih
    · rw [DefineDeltaArrayFromSizes_eq t sizes hne]
      exact toInt32_lt _

/-- C23, as the code has it: in every state reached from the constructor by calls of
`DefineDeltaArray` (either overload, any count) in which the sum `11 + 4*NSL` of the
entry-size computation stays an `int`, `IndexEntrySize` is at least 11, so it is not
zero, the `ReorderIndex` constructor's assertion holds for it, and `EnableReorder()`
makes a reorder index of that entry size. -/
theorem ReachableInRange_entrySize_nonzero (t : IndexTable) (h : ReachableInRange t) :
    11 ≤ t.IndexEntrySize ∧
    t.IndexEntrySize ≠ 0 ∧
    (ReorderIndex.new t.IndexEntrySize).isSome = true ∧
    ∃ r t1, t.EnableReorder = some (r, t1) ∧ (r.IndexEntrySize : Int) = t.IndexEntrySize := by
  have hge := ReachableInRange_indexEntrySize_ge t h
  have hs : t.IndexEntrySize ≠ 0 := by omega
  refine ⟨hge, hs, ?_, _, _, EnableReorder_of_none t (ReachableInRange_Reorder t h) hs, ?_⟩
  · unfold ReorderIndex.new
    simp only [ne_eq, hs, not_false_eq_true, if_true, Option.isSome_some]
  · simp only [toUInt32]
    have hlt := ReachableInRange_indexEntrySize_lt t h
    omega

/-- C23, on the state reached by `DefineDeltaArray(5, [100, 200, 0, 50, 75])`: the
entry size is 15, and `EnableReorder()` makes a reorder index of entry size 15. -/
theorem ReachableInRange_entrySize_nonzero_witness :
    11 ≤ (IndexTable.new.DefineDeltaArrayFromSizes 5 [100, 200, 0, 50, 75]).IndexEntrySize ∧
    (IndexTable.new.DefineDeltaArrayFromSizes 5 [100, 200, 0, 50, 75]).IndexEntrySize = 15 ∧
    ((IndexTable.new.DefineDeltaArrayFromSizes 5 [100, 200, 0, 50, 75]).EnableReorder.map
      (fun p => p.1.IndexEntrySize)) = some 15 :=
  ⟨(ReachableInRange_entrySize_nonzero _
      (ReachableInRange.fromSizes _ [100, 200, 0, 50, 75] ReachableInRange.construct
        (by decide))).1,
   by decide, by decide⟩

/-- C23 fails as stated: with 536870911 zero-sized elements `NSL` is 536870910, so
`4*NSL = 2147483640` is an `int`, while `11 + 4*NSL = 2147483651` is not; reduced to 32
bits the entry size is `-2147483645`, below 11. -/
theorem DefineDeltaArrayFromSizes_entrySize_below_11 :
    4 * (IndexTable.new.DefineDeltaArrayFromSizes 536870911
          (List.replicate 536870911 0)).NSL ≤ 2147483647 ∧
    (IndexTable.new.DefineDeltaArrayFromSizes 536870911
      (List.replicate 536870911 0)).IndexEntrySize = -2147483645 ∧
    ¬ 11 ≤ (IndexTable.new.DefineDeltaArrayFromSizes 536870911
      (List.replicate 536870911 0)).IndexEntrySize := by
  have hne := replicate_zero_ne_nil_large
  have hz := zerosNotLast_replicate_zero_large
  have h1 := DefineDeltaArrayFromSizes_NSL_eq IndexTable.new (List.replicate 536870911 0) hne
    (by rw [hz]; norm_num)
  have h2 := DefineDeltaArrayFromSizes_indexEntrySize_wrapped IndexTable.new
    (List.replicate 536870911 0) hne (by rw [hz]; norm_num)
  rw [List.length_replicate] at h1 h2
  rw [hz] at h1 h2
  have h3 : toInt32 (11 + 4 * ((536870910 : Nat) : Int)) = -2147483645 := by decide
  rw [h3] at h2
  rw [h1, h2]
  exact ⟨by decide, rfl, by decide⟩

/-- C24: on a table without a reorder index and with a nonzero entry size, the first
`EnableReorder()` returns a reorder index `r` that has the entry size of the table at
that call, and after a later call of `DefineDeltaArray` (either overload, any
arguments) `GetReorder()` and `EnableReorder()` still return `r`, with that entry
size, whatever `IndexEntrySize` the table has then. -/
theorem EnableReorder_entrySize_snapshot (t : IndexTable)
    (hnone : t.GetReorder = none) (hs : t.IndexEntrySize ≠ 0)
    (n : Nat) (entries : List DeltaEntry) (k : Nat) (sizes : List Nat) :
    ∃ r t1, t.EnableReorder = some (r, t1) ∧
      r.IndexEntrySize = toUInt32 t.IndexEntrySize ∧
      (t1.DefineDeltaArray n entries).GetReorder = some r ∧
      (t1.DefineDeltaArray n entries).EnableReorder = some (r, t1.DefineDeltaArray n entries) ∧
      (t1.DefineDeltaArrayFromSizes k sizes).GetReorder = some r ∧
      (t1.DefineDeltaArrayFromSizes k sizes).EnableReorder
        = some (r, t1.DefineDeltaArrayFromSizes k sizes) := by
  obtain ⟨r, t1, h⟩ := EnableReorder_returns t (Or.inl hs)
  have hst := EnableReorder_stores t r t1 h
  have hr := EnableReorder_first t r t1 h hnone
  have he : (t1.DefineDeltaArray n entries).Reorder = some r := by
    rw [DefineDeltaArray_Reorder]; exact hst
  have hz : (t1.DefineDeltaArrayFromSizes k sizes).Reorder = some r := by
    rw [DefineDeltaArrayFromSizes_Reorder]; exact hst
  refine ⟨r, t1, h, ?_, he, EnableReorder_of_some _ r he, hz, EnableReorder_of_some _ r hz⟩
  rw [hr]

/-- C24, on a newly constructed table: `EnableReorder()` makes a reorder index of
entry size 11; after `DefineDeltaArray(5, [100, 200, 0, 50, 75])` the table has entry
size 15 and `GetReorder()` still returns a reorder index of entry size 11. -/
theorem EnableReorder_entrySize_snapshot_witness :
    (IndexTable.new.EnableReorder.map (fun p => p.1.IndexEntrySize)) = some 11 ∧
    (IndexTable.new.EnableReorder.map
      (fun p => (p.2.DefineDeltaArrayFromSizes 5 [100, 200, 0, 50, 75]).IndexEntrySize))
      = some 15 ∧
    ∃ r t1, IndexTable.new.EnableReorder = some (r, t1) ∧
      r.IndexEntrySize = 11 ∧
      (t1.DefineDeltaArrayFromSizes 5 [100, 200, 0, 50, 75]).GetReorder = some r :=
  ⟨by decide, by decide,
   match EnableReorder_entrySize_snapshot IndexTable.new (by decide) (by decide) 0 []
      5 [100, 200, 0, 50, 75] with
   | ⟨r, t1, h, h1, _, _, h4, _⟩ => ⟨r, t1, h, h1, h4⟩⟩

/-! ## `SetPosTableIndex` -/

/-- For a stream ID that is not negative and a `PosTableList` that has a slot for
every stream, `SetPosTableIndex` stays inside the array: it leaves the state as it is
when the ID is `StreamCount` or more, and otherwise writes the value into the slot of
the ID and leaves every other slot as it is. -/
theorem SetPosTableIndex_nonneg (m : IndexManager) (StreamID v : Int) (h0 : 0 ≤ StreamID)
    (hlen : m.StreamCount ≤ m.PosTableList.length) :
    ∃ m1, m.SetPosTableIndex StreamID v = some m1 ∧
      (m.StreamCount ≤ StreamID → m1 = m) ∧
      (StreamID < m.StreamCount → m1.PosTableList[StreamID.toNat]? = some v) ∧
      ∀ j : Nat, j ≠ StreamID.toNat → m1.PosTableList[j]? = m.PosTableList[j]? := by
  unfold IndexManager.SetPosTableIndex
  by_cases hc : StreamID < m.StreamCount
  · have hin : 0 ≤ StreamID ∧ StreamID < m.PosTableList.length := ⟨h0, by omega⟩
    rw [if_pos hc, if_pos hin]
    refine ⟨_, rfl, fun hge => absurd hc (by omega), fun _ => ?_, fun j hj => ?_⟩
    · have hlt : StreamID.toNat < m.PosTableList.length := by omega
      simp [hlt]
    · simp only []
      rw [List.getElem?_set_ne (Ne.symm hj)]
  · rw [if_neg hc]
    exact ⟨m, rfl, fun _ => rfl, fun h => absurd h hc, fun _ _ => rfl⟩

/-- C25: on a manager with one stream (`StreamCount = StreamListSize = 1`, an array of
one slot), the stream ID `-1` passes the guard `StreamID < StreamCount`, and the
assignment `PosTableList[-1] = 7` falls outside the array. -/
theorem SetPosTableIndex_negative_out_of_bounds :
    (IndexManager.new 0 0).StreamCount ≤ (IndexManager.new 0 0).StreamListSize ∧
    (IndexManager.new 0 0).PosTableList.length = 1 ∧
    (-1 : Int) < (IndexManager.new 0 0).StreamCount ∧
    ((IndexManager.new 0 0).SetPosTableIndex (-1) 7).isNone = true := by
  decide

/-! ## Endian swapping: the `Swap` functions as byte arithmetic -/

theorem and_shifted_mask (x n s : Nat) :
    x &&& ((2 ^ n - 1) <<< s) = (x / 2 ^ s % 2 ^ n) * 2 ^ s := by
  rw [← Nat.shiftRight_eq_div_pow, ← Nat.shiftLeft_eq]
  apply Nat.eq_of_testBit_eq
  intro i
  simp only [Nat.testBit_and, Nat.testBit_shiftLeft, Nat.testBit_two_pow_sub_one,
    Nat.testBit_mod_two_pow, Nat.testBit_shiftRight]
  by_cases h : s ≤ i
  · have e : s + (i - s) = i := by omega
    simp only [ge_iff_le, h, decide_True, Bool.true_and, e]
    cases x.testBit i <;> simp
  · simp [h]

theorem or_mul_two_pow (a b s : Nat) (h : a < 2 ^ s) : a ||| b * 2 ^ s = a + b * 2 ^ s := by
  rw [Nat.or_comm, Nat.mul_comm b, ← Nat.mul_add_lt_is_or h, Nat.add_comm]

theorem and_mask_byte0 (x : Nat) : x &&& 0xff = x % 256 := by
  have h := and_shifted_mask x 8 0
  norm_num at h
  exact h

theorem and_mask_byte1 (x : Nat) : x &&& 0xff00 = (x / 256 % 256) * 256 := by
  have h := and_shifted_mask x 8 8
  norm_num at h
  exact h

theorem and_mask_byte2 (x : Nat) : x &&& 0xff0000 = (x / 65536 % 256) * 65536 := by
  have h := and_shifted_mask x 8 16
  norm_num at h
  exact h

theorem and_mask_byte3 (x : Nat) : x &&& 0xff000000 = (x / 16777216 % 256) * 16777216 := by
  have h := and_shifted_mask x 8 24
  norm_num at h
  exact h

theorem and_mask_low (x : Nat) : x &&& 0xffffffff = x % 4294967296 := by
  have h := and_shifted_mask x 32 0
  norm_num at h
  exact h

theorem and_mask_high (x : Nat) :
    x &&& 0xffffffff00000000 = (x / 4294967296 % 4294967296) * 4294967296 := by
  have h := and_shifted_mask x 32 32
  norm_num at h
  exact h

/-- The swapped 16-bit value, in arithmetic. -/
theorem swap16_eq (x : Nat) :
    (((x &&& 0xff00) >>> 8) ||| ((x &&& 0x00ff) <<< 8)) % 65536
      = x / 256 % 256 + (x % 256) * 256 := by
  rw [and_mask_byte1, and_mask_byte0, Nat.shiftRight_eq_div_pow, Nat.shiftLeft_eq]
  have e1 : (x / 256 % 256) * 256 / 2 ^ 8 = x / 256 % 256 := by norm_num
  rw [e1, or_mul_two_pow _ _ 8 (by norm_num; omega)]
  norm_num
  omega

/-- The swapped 32-bit value, in arithmetic. -/
theorem swap32_eq (x : Nat) :
    ((x &&& 0xff000000) >>> 24)
      ||| ((x &&& 0x00ff0000) >>> 8)
      ||| (((x &&& 0x0000ff00) <<< 8) % 4294967296)
      ||| (((x &&& 0x000000ff) <<< 24) % 4294967296)
      = x / 16777216 % 256 + (x / 65536 % 256) * 256 + (x / 256 % 256) * 65536
        + (x % 256) * 16777216 := by
  rw [and_mask_byte3, and_mask_byte2, and_mask_byte1, and_mask_byte0]
  simp only [Nat.shiftRight_eq_div_pow, Nat.shiftLeft_eq]
  have e1 : (x / 16777216 % 256) * 16777216 / 2 ^ 24 = x / 16777216 % 256 := by norm_num
  have e2 : (x / 65536 % 256) * 65536 / 2 ^ 8 = (x / 65536 % 256) * 2 ^ 8 := by
    norm_num; omega
  have e3 : (x / 256 % 256) * 256 * 2 ^ 8 % 4294967296 = (x / 256 % 256) * 2 ^ 16 := by
    norm_num; omega
  have e4 : x % 256 * 2 ^ 24 % 4294967296 = (x % 256) * 2 ^ 24 := by
    norm_num; omega
  rw [e1, e2, e3, e4, or_mul_two_pow _ _ 8 (by norm_num; omega),
    or_mul_two_pow _ _ 16 (by norm_num; omega), or_mul_two_pow _ _ 24 (by norm_num; omega)]
  norm_num

theorem SwapUInt16_true (x : Nat) :
    SwapUInt16 true x = x / 256 % 256 + (x % 256) * 256 := by
  unfold SwapUInt16
  simp only [Bool.not_true, Bool.false_eq_true, if_false]
  exact swap16_eq x

theorem SwapUInt32_true (x : Nat) :
    SwapUInt32 true x = x / 16777216 % 256 + (x / 65536 % 256) * 256 + (x / 256 % 256) * 65536
        + (x % 256) * 16777216 := by
  unfold SwapUInt32
  simp only [Bool.not_true, Bool.false_eq_true, if_false]
  exact swap32_eq x

theorem SwapUInt16_true_lt (x : Nat) : SwapUInt16 true x < 65536 := by
  rw [SwapUInt16_true]; omega

theorem SwapUInt32_true_lt (x : Nat) : SwapUInt32 true x < 4294967296 := by
  rw [SwapUInt32_true]; omega

theorem SwapUInt64_true (x : Nat) :
    SwapUInt64 true x
      = SwapUInt32 true (x % 4294967296) * 4294967296
        + SwapUInt32 true (x / 4294967296 % 4294967296) := by
  unfold SwapUInt64
  simp only [Bool.not_true, Bool.false_eq_true, if_false]
  rw [and_mask_high, and_mask_low, Nat.shiftRight_eq_div_pow, Nat.shiftLeft_eq]
  have e1 : (x / 4294967296 % 4294967296) * 4294967296 / 2 ^ 32 % 4294967296
      = x / 4294967296 % 4294967296 := by norm_num
  have e2 : x % 4294967296 % 4294967296 = x % 4294967296 := by omega
  have h1 := SwapUInt32_true_lt (x % 4294967296)
  have h2 := SwapUInt32_true_lt (x / 4294967296 % 4294967296)
  rw [e1, e2]
  have e3 : SwapUInt32 true (x % 4294967296) * 2 ^ 32 % 18446744073709551616
      = SwapUInt32 true (x % 4294967296) * 2 ^ 32 := by
    norm_num; omega
  rw [e3, Nat.or_comm, or_mul_two_pow _ _ 32 (by norm_num; omega)]
  norm_num
  omega

theorem SwapUInt64_true_lt (x : Nat) : SwapUInt64 true x < 18446744073709551616 := by
  rw [SwapUInt64_true]
  have h1 := SwapUInt32_true_lt (x % 4294967296)
  have h2 := SwapUInt32_true_lt (x / 4294967296 % 4294967296)
  omega

theorem SwapUInt16MSVC_eq (x : Nat) : SwapUInt16MSVC x = SwapUInt16 true x := rfl

theorem SwapUInt32MSVC_eq (x : Nat) : SwapUInt32MSVC x = SwapUInt32 true x := rfl

theorem SwapUInt64MSVC_eq (x : Nat) : SwapUInt64MSVC x = SwapUInt64 true x := by
  unfold SwapUInt64MSVC SwapUInt64
  simp only [Bool.not_true, Bool.false_eq_true, if_false, SwapUInt32MSVC_eq]

theorem byteOf_zero (x : Nat) : byteOf x 0 = x % 256 := by
  unfold byteOf; norm_num

theorem byteOf_succ (x k : Nat) : byteOf x (k + 1) = byteOf (x / 256) k := by
  unfold byteOf
  rw [pow_succ, Nat.mul_comm, Nat.div_div_eq_div_mul]

theorem byteOf_add_mul (a b : Nat) (ha : a < 256) :
    byteOf (a + b * 256) 0 = a ∧ ∀ k, byteOf (a + b * 256) (k + 1) = byteOf b k := by
  refine ⟨?_, fun k => ?_⟩
  · rw [byteOf_zero]; omega
  · rw [byteOf_succ]
    have e : (a + b * 256) / 256 = b := by omega
    rw [e]

theorem byteOf_lt (x k : Nat) : byteOf x k < 256 := by
  unfold byteOf; omega

theorem SwapUInt16_bytes (x : Nat) :
    SwapUInt16 true x = byteOf x 1 + byteOf x 0 * 256 := by
  rw [SwapUInt16_true, byteOf_succ, byteOf_zero, byteOf_zero]

theorem SwapUInt32_bytes (x : Nat) :
    SwapUInt32 true x
      = byteOf x 3 + (byteOf x 2 + (byteOf x 1 + byteOf x 0 * 256) * 256) * 256 := by
  rw [SwapUInt32_true]
  simp only [byteOf_succ, byteOf_zero]
  have e2 : x / 65536 = x / 256 / 256 := by rw [Nat.div_div_eq_div_mul]
  have e3 : x / 16777216 = x / 256 / 256 / 256 := by
    rw [Nat.div_div_eq_div_mul, Nat.div_div_eq_div_mul]
  rw [e2, e3]
  omega

theorem byteOf_SwapUInt16 (x : Nat) :
    byteOf (SwapUInt16 true x) 0 = byteOf x 1 ∧ byteOf (SwapUInt16 true x) 1 = byteOf x 0 := by
  rw [SwapUInt16_bytes]
  have h := byteOf_add_mul (byteOf x 1) (byteOf x 0) (byteOf_lt _ _)
  refine ⟨h.1, ?_⟩
  rw [h.2 0, byteOf_zero]
  have := byteOf_lt x 0
  omega

theorem byteOf_SwapUInt32 (x k : Nat) (hk : k < 4) :
    byteOf (SwapUInt32 true x) k = byteOf x (3 - k) := by
  rw [SwapUInt32_bytes]
  have h3 := byteOf_add_mul (byteOf x 3) (byteOf x 2 + (byteOf x 1 + byteOf x 0 * 256) * 256)
    (byteOf_lt _ _)
  have h2 := byteOf_add_mul (byteOf x 2) (byteOf x 1 + byteOf x 0 * 256) (byteOf_lt _ _)
  have h1 := byteOf_add_mul (byteOf x 1) (byteOf x 0) (byteOf_lt _ _)
  have h0 : byteOf (byteOf x 0) 0 = byteOf x 0 := by
    rw [byteOf_zero (byteOf x 0)]
    have := byteOf_lt x 0
    omega
  interval_cases k
  · exact h3.1
  · rw [h3.2 0]; exact h2.1
  · rw [h3.2 1, h2.2 0]; exact h1.1
  · rw [h3.2 2, h2.2 1, h1.2 0]; exact h0

theorem byteOf_low (x k : Nat) (hk : k < 4) : byteOf (x % 4294967296) k = byteOf x k := by
  unfold byteOf
  interval_cases k <;> norm_num <;> omega

theorem byteOf_add_four (x k : Nat) : byteOf x (k + 4) = byteOf (x / 4294967296) k := by
  rw [byteOf_succ, byteOf_succ, byteOf_succ, byteOf_succ, Nat.div_div_eq_div_mul,
    Nat.div_div_eq_div_mul, Nat.div_div_eq_div_mul]

theorem byteOf_SwapUInt64 (x k : Nat) (hk : k < 8) :
    byteOf (SwapUInt64 true x) k = byteOf x (7 - k) := by
  rw [SwapUInt64_true]
  have h1 := SwapUInt32_true_lt (x % 4294967296)
  have h2 := SwapUInt32_true_lt (x / 4294967296 % 4294967296)
  by_cases h : k < 4
  · have e : (SwapUInt32 true (x % 4294967296) * 4294967296
        + SwapUInt32 true (x / 4294967296 % 4294967296)) % 4294967296
        = SwapUInt32 true (x / 4294967296 % 4294967296) := by omega
    have e7 : 7 - k = (3 - k) + 4 := by omega
    rw [← byteOf_low _ k h, e, byteOf_SwapUInt32 _ k h, byteOf_low _ _ (by omega), e7,
      byteOf_add_four]
  · obtain ⟨j, rfl⟩ : ∃ j, k = j + 4 := ⟨k - 4, by omega⟩
    have e : (SwapUInt32 true (x % 4294967296) * 4294967296
        + SwapUInt32 true (x / 4294967296 % 4294967296)) / 4294967296
        = SwapUInt32 true (x % 4294967296) := by omega
    have e7 : 7 - (j + 4) = 3 - j := by omega
    rw [byteOf_add_four, e, byteOf_SwapUInt32 _ j (by omega), byteOf_low _ _ (by omega), e7]

theorem SwapUInt16_involution (x : Nat) (hx : x < 65536) :
    SwapUInt16 true (SwapUInt16 true x) = x := by
  rw [SwapUInt16_bytes (SwapUInt16 true x), (byteOf_SwapUInt16 x).1, (byteOf_SwapUInt16 x).2]
  simp only [byteOf_succ, byteOf_zero]
  omega

theorem bytes_sum32 (x : Nat) (hx : x < 4294967296) :
    byteOf x 0 + (byteOf x 1 + (byteOf x 2 + byteOf x 3 * 256) * 256) * 256 = x := by
  simp only [byteOf_succ, byteOf_zero]
  omega

theorem SwapUInt32_involution (x : Nat) (hx : x < 4294967296) :
    SwapUInt32 true (SwapUInt32 true x) = x := by
  rw [SwapUInt32_bytes (SwapUInt32 true x), byteOf_SwapUInt32 _ 3 (by omega),
    byteOf_SwapUInt32 _ 2 (by omega), byteOf_SwapUInt32 _ 1 (by omega),
    byteOf_SwapUInt32 _ 0 (by omega)]
  exact bytes_sum32 x hx

theorem SwapUInt64_involution (x : Nat) (hx : x < 18446744073709551616) :
    SwapUInt64 true (SwapUInt64 true x) = x := by
  rw [SwapUInt64_true (SwapUInt64 true x), SwapUInt64_true]
  have h1 := SwapUInt32_true_lt (x % 4294967296)
  have h2 := SwapUInt32_true_lt (x / 4294967296 % 4294967296)
  have e1 : (SwapUInt32 true (x % 4294967296) * 4294967296
      + SwapUInt32 true (x / 4294967296 % 4294967296)) % 4294967296
      = SwapUInt32 true (x / 4294967296 % 4294967296) := by omega
  have e2 : (SwapUInt32 true (x % 4294967296) * 4294967296
      + SwapUInt32 true (x / 4294967296 % 4294967296)) / 4294967296 % 4294967296
      = SwapUInt32 true (x % 4294967296) := by omega
  rw [e1, e2, SwapUInt32_involution _ (by omega), SwapUInt32_involution _ (by omega)]
  omega

theorem toUInt16_lt (v : Int) : toUInt16 v < 65536 := by unfold toUInt16; omega

theorem toUInt32_lt (v : Int) : toUInt32 v < 4294967296 := by unfold toUInt32; omega

theorem toUInt64_lt (v : Int) : toUInt64 v < 18446744073709551616 := by unfold toUInt64; omega

theorem toUInt16_toInt16 (x : Nat) (hx : x < 65536) : toUInt16 (toInt16 x) = x := by
  unfold toUInt16 toInt16; split <;> omega

theorem toUInt32_toInt32OfNat (x : Nat) (hx : x < 4294967296) :
    toUInt32 (toInt32OfNat x) = x := by
  unfold toUInt32 toInt32OfNat; split <;> omega

theorem toUInt64_toInt64 (x : Nat) (hx : x < 18446744073709551616) :
    toUInt64 (toInt64 x) = x := by
  unfold toUInt64 toInt64; split <;> omega

theorem toInt16_toUInt16 (v : Int) (h1 : -32768 ≤ v) (h2 : v < 32768) :
    toInt16 (toUInt16 v) = v := by
  unfold toUInt16 toInt16; split <;> omega

theorem toInt32OfNat_toUInt32 (v : Int) (h1 : -2147483648 ≤ v) (h2 : v < 2147483648) :
    toInt32OfNat (toUInt32 v) = v := by
  unfold toUInt32 toInt32OfNat; split <;> omega

theorem toInt64_toUInt64 (v : Int) (h1 : -9223372036854775808 ≤ v)
    (h2 : v < 9223372036854775808) : toInt64 (toUInt64 v) = v := by
  unfold toUInt64 toInt64; split <;> omega

theorem SwapUInt16_false (x : Nat) : SwapUInt16 false x = x := rfl

theorem SwapUInt32_false (x : Nat) : SwapUInt32 false x = x := rfl

theorem SwapUInt64_false (x : Nat) : SwapUInt64 false x = x := rfl

theorem SwapUInt16_twice (le : Bool) (x : Nat) (hx : x < 65536) :
    SwapUInt16 le (SwapUInt16 le x) = x := by
  cases le
  · rfl
  · exact SwapUInt16_involution x hx

theorem SwapUInt32_twice (le : Bool) (x : Nat) (hx : x < 4294967296) :
    SwapUInt32 le (SwapUInt32 le x) = x := by
  cases le
  · rfl
  · exact SwapUInt32_involution x hx

theorem SwapUInt64_twice (le : Bool) (x : Nat) (hx : x < 18446744073709551616) :
    SwapUInt64 le (SwapUInt64 le x) = x := by
  cases le
  · rfl
  · exact SwapUInt64_involution x hx

theorem SwapUInt16_lt (le : Bool) (x : Nat) (hx : x < 65536) : SwapUInt16 le x < 65536 := by
  cases le
  · exact hx
  · exact SwapUInt16_true_lt x

theorem SwapUInt32_lt (le : Bool) (x : Nat) (hx : x < 4294967296) :
    SwapUInt32 le x < 4294967296 := by
  cases le
  · exact hx
  · exact SwapUInt32_true_lt x

theorem SwapUInt64_lt (le : Bool) (x : Nat) (hx : x < 18446744073709551616) :
    SwapUInt64 le x < 18446744073709551616 := by
  cases le
  · exact hx
  · exact SwapUInt64_true_lt x

theorem SwapInt16_twice (le : Bool) (v : Int) (h1 : -32768 ≤ v) (h2 : v < 32768) :
    SwapInt16 le (SwapInt16 le v) = v := by
  unfold SwapInt16
  rw [toUInt16_toInt16 _ (SwapUInt16_lt le _ (toUInt16_lt v)),
    SwapUInt16_twice le _ (toUInt16_lt v), toInt16_toUInt16 v h1 h2]

theorem SwapInt32_twice (le : Bool) (v : Int) (h1 : -2147483648 ≤ v) (h2 : v < 2147483648) :
    SwapInt32 le (SwapInt32 le v) = v := by
  unfold SwapInt32
  rw [toUInt32_toInt32OfNat _ (SwapUInt32_lt le _ (toUInt32_lt v)),
    SwapUInt32_twice le _ (toUInt32_lt v), toInt32OfNat_toUInt32 v h1 h2]

theorem SwapInt64_twice (le : Bool) (v : Int) (h1 : -9223372036854775808 ≤ v)
    (h2 : v < 9223372036854775808) : SwapInt64 le (SwapInt64 le v) = v := by
  unfold SwapInt64
  rw [toUInt64_toInt64 _ (SwapUInt64_lt le _ (toUInt64_lt v)),
    SwapUInt64_twice le _ (toUInt64_lt v), toInt64_toUInt64 v h1 h2]

theorem SwapInt16MSVC_eq (v : Int) : SwapInt16MSVC v = SwapInt16 true v := rfl

theorem SwapInt32MSVC_eq (v : Int) : SwapInt32MSVC v = SwapInt32 true v := rfl

theorem SwapInt64MSVC_eq (v : Int) : SwapInt64MSVC v = SwapInt64 true v := by
  unfold SwapInt64MSVC SwapInt64
  rw [SwapUInt64MSVC_eq]

theorem toUInt16_SwapInt16 (le : Bool) (v : Int) :
    toUInt16 (SwapInt16 le v) = SwapUInt16 le (toUInt16 v) := by
  unfold SwapInt16
  exact toUInt16_toInt16 _ (SwapUInt16_lt le _ (toUInt16_lt v))

theorem toUInt32_SwapInt32 (le : Bool) (v : Int) :
    toUInt32 (SwapInt32 le v) = SwapUInt32 le (toUInt32 v) := by
  unfold SwapInt32
  exact toUInt32_toInt32OfNat _ (SwapUInt32_lt le _ (toUInt32_lt v))

theorem toUInt64_SwapInt64 (le : Bool) (v : Int) :
    toUInt64 (SwapInt64 le v) = SwapUInt64 le (toUInt64 v) := by
  unfold SwapInt64
  exact toUInt64_toInt64 _ (SwapUInt64_lt le _ (toUInt64_lt v))

theorem SwapInt16_false (v : Int) (h1 : -32768 ≤ v) (h2 : v < 32768) :
    SwapInt16 false v = v := by
  unfold SwapInt16
  rw [SwapUInt16_false]
  exact toInt16_toUInt16 v h1 h2

theorem SwapInt32_false (v : Int) (h1 : -2147483648 ≤ v) (h2 : v < 2147483648) :
    SwapInt32 false v = v := by
  unfold SwapInt32
  rw [SwapUInt32_false]
  exact toInt32OfNat_toUInt32 v h1 h2

theorem SwapInt64_false (v : Int) (h1 : -9223372036854775808 ≤ v)
    (h2 : v < 9223372036854775808) : SwapInt64 false v = v := by
  unfold SwapInt64
  rw [SwapUInt64_false]
  exact toInt64_toUInt64 v h1 h2

theorem toInt16_range (x : Nat) : -32768 ≤ toInt16 x ∧ toInt16 x < 32768 := by
  unfold toInt16; split <;> omega

theorem toInt32OfNat_range (x : Nat) :
    -2147483648 ≤ toInt32OfNat x ∧ toInt32OfNat x < 2147483648 := by
  unfold toInt32OfNat; split <;> omega

theorem toInt64_range (x : Nat) :
    -9223372036854775808 ≤ toInt64 x ∧ toInt64 x < 9223372036854775808 := by
  unfold toInt64; split <;> omega

theorem IsLittleEndian_iff (p : List Nat) :
    IsLittleEndian p = true ↔
      (p.getD 0 0 = 0x78 ∧ p.getD 1 0 = 0x56 ∧ p.getD 2 0 = 0x34 ∧ p.getD 3 0 = 0x12) := by
  unfold IsLittleEndian
  split_ifs with h1 h2
  · constructor
    · intro h; cases h
    · intro h; omega
  · exact ⟨fun _ => h2, fun _ => rfl⟩
  · exact ⟨fun h => (by cases h), fun h => absurd h h2⟩

/-- C26: with the flag `littleEndian` true (the value `IsLittleEndian()` gives on a
host that stores `0x12345678` as `78 56 34 12`, and on no other), byte `k` of `Swap(x)` is byte `7-k` of
`x` for a `UInt64`, the result being the swapped low half in the high half and the
swapped high half in the low half; byte `k` of `Swap(x)` is byte `3-k` of `x` for a
`UInt32`; the two bytes of a `UInt16` are exchanged; and the results stay within their
width.  With the flag false the `Swap` functions that read it return their argument,
the unsigned ones and, for every value of their type, the signed ones; and the Visual
C++ ones swap as with the flag true.  The signed overloads, for either value of the
flag, give the value of their type whose two's complement bytes are those of the
unsigned overload on the bytes of the argument (so with the flag true byte `k` of
`Swap(v)` is byte `7-k`, `3-k` or `1-k` of `v`). -/
theorem Swap_reverses_bytes (x k j : Nat) (hk : k < 8) (hj : j < 4) :
    IsLittleEndian [0x78, 0x56, 0x34, 0x12] = true ∧
    IsLittleEndian [0x12, 0x34, 0x56, 0x78] = false ∧
    byteOf (SwapUInt64 true x) k = byteOf x (7 - k) ∧
    SwapUInt64 true x = SwapUInt32 true (x % 4294967296) * 4294967296
      + SwapUInt32 true (x / 4294967296 % 4294967296) ∧
    byteOf (SwapUInt32 true x) j = byteOf x (3 - j) ∧
    byteOf (SwapUInt16 true x) 0 = byteOf x 1 ∧
    byteOf (SwapUInt16 true x) 1 = byteOf x 0 ∧
    SwapUInt64 true x < 18446744073709551616 ∧
    SwapUInt32 true x < 4294967296 ∧
    SwapUInt16 true x < 65536 ∧
    SwapUInt16 false x = x ∧ SwapUInt32 false x = x ∧ SwapUInt64 false x = x ∧
    SwapUInt16MSVC x = SwapUInt16 true x ∧
    SwapUInt32MSVC x = SwapUInt32 true x ∧
    SwapUInt64MSVC x = SwapUInt64 true x ∧
    (∀ v : Int, -32768 ≤ v → v < 32768 → SwapInt16 false v = v) ∧
    (∀ v : Int, -2147483648 ≤ v → v < 2147483648 → SwapInt32 false v = v) ∧
    (∀ v : Int, -9223372036854775808 ≤ v → v < 9223372036854775808 →
      SwapInt64 false v = v) ∧
    (∀ (le : Bool) (v : Int),
      toUInt16 (SwapInt16 le v) = SwapUInt16 le (toUInt16 v) ∧
      -32768 ≤ SwapInt16 le v ∧ SwapInt16 le v < 32768) ∧
    (∀ (le : Bool) (v : Int),
      toUInt32 (SwapInt32 le v) = SwapUInt32 le (toUInt32 v) ∧
      -2147483648 ≤ SwapInt32 le v ∧ SwapInt32 le v < 2147483648) ∧
    (∀ (le : Bool) (v : Int),
      toUInt64 (SwapInt64 le v) = SwapUInt64 le (toUInt64 v) ∧
      -9223372036854775808 ≤ SwapInt64 le v ∧ SwapInt64 le v < 9223372036854775808) ∧
    (∀ v : Int, byteOf (toUInt64 (SwapInt64 true v)) k = byteOf (toUInt64 v) (7 - k)) ∧
    (∀ v : Int, byteOf (toUInt32 (SwapInt32 true v)) j = byteOf (toUInt32 v) (3 - j)) ∧
    (∀ v : Int, byteOf (toUInt16 (SwapInt16 true v)) 0 = byteOf (toUInt16 v) 1 ∧
      byteOf (toUInt16 (SwapInt16 true v)) 1 = byteOf (toUInt16 v) 0) ∧
    (∀ v : Int, SwapInt16MSVC v = SwapInt16 true v ∧ SwapInt32MSVC v = SwapInt32 true v ∧
      SwapInt64MSVC v = SwapInt64 true v) ∧
    (∀ p : List Nat, IsLittleEndian p = true ↔
      (p.getD 0 0 = 0x78 ∧ p.getD 1 0 = 0x56 ∧ p.getD 2 0 = 0x34 ∧ p.getD 3 0 = 0x12)) :=
  ⟨by decide, by decide, byteOf_SwapUInt64 x k hk, SwapUInt64_true x, byteOf_SwapUInt32 x j hj,
   (byteOf_SwapUInt16 x).1, (byteOf_SwapUInt16 x).2, SwapUInt64_true_lt x, SwapUInt32_true_lt x,
   SwapUInt16_true_lt x, rfl, rfl, rfl, SwapUInt16MSVC_eq x, SwapUInt32MSVC_eq x,
   SwapUInt64MSVC_eq x, SwapInt16_false, SwapInt32_false, SwapInt64_false,
   fun le v => ⟨toUInt16_SwapInt16 le v, toInt16_range _⟩,
   fun le v => ⟨toUInt32_SwapInt32 le v, toInt32OfNat_range _⟩,
   fun le v => ⟨toUInt64_SwapInt64 le v, toInt64_range _⟩,
   fun v => by rw [toUInt64_SwapInt64]; exact byteOf_SwapUInt64 _ k hk,
   fun v => by rw [toUInt32_SwapInt32]; exact byteOf_SwapUInt32 _ j hj,
   fun v => by rw [toUInt16_SwapInt16]; exact byteOf_SwapUInt16 _,
   fun v => ⟨SwapInt16MSVC_eq v, SwapInt32MSVC_eq v, SwapInt64MSVC_eq v⟩,
   IsLittleEndian_iff⟩

/-- C26, on `0x0102030405060708`: byte 2 of the swapped value is byte 5 of the value,
`0x03`; and on the `Int32` value `-2` (bytes `ff ff ff fe`): with the flag false
`Swap` returns `-2`, with the flag true `-16777217` (bytes `fe ff ff ff`). -/
theorem Swap_reverses_bytes_witness :
    byteOf (SwapUInt64 true 0x0102030405060708) 2 = byteOf 0x0102030405060708 (7 - 2) ∧
    byteOf 0x0102030405060708 (7 - 2) = 0x03 ∧
    SwapUInt64 true 0x0102030405060708 = 0x0807060504030201 ∧
    SwapInt32 false (-2) = -2 ∧
    SwapInt32 true (-2) = -16777217 :=
  ⟨(Swap_reverses_bytes 0x0102030405060708 2 1 (by decide) (by decide)).2.2.1,
   by decide, by decide,
   (Swap_reverses_bytes 0x0102030405060708 2 1 (by decide) (by decide)).2.2.2.2.2.2.2.2.2.2.2.2.2.2.2.2.2.1
     (-2) (by decide) (by decide),
   by decide⟩

/-- C27: for either value of the flag `littleEndian`, `Swap(Swap(x)) = x` for every
`UInt16`, `UInt32` and `UInt64` value `x` and for every `Int16`, `Int32` and `Int64`
value, and the same holds of the Visual C++ `Swap` functions. -/
theorem Swap_involution (littleEndian : Bool) :
    (∀ x : Nat, x < 65536 → SwapUInt16 littleEndian (SwapUInt16 littleEndian x) = x) ∧
    (∀ x : Nat, x < 4294967296 → SwapUInt32 littleEndian (SwapUInt32 littleEndian x) = x) ∧
    (∀ x : Nat, x < 18446744073709551616 →
      SwapUInt64 littleEndian (SwapUInt64 littleEndian x) = x) ∧
    (∀ v : Int, -32768 ≤ v → v < 32768 →
      SwapInt16 littleEndian (SwapInt16 littleEndian v) = v) ∧
    (∀ v : Int, -2147483648 ≤ v → v < 2147483648 →
      SwapInt32 littleEndian (SwapInt32 littleEndian v) = v) ∧
    (∀ v : Int, -9223372036854775808 ≤ v → v < 9223372036854775808 →
      SwapInt64 littleEndian (SwapInt64 littleEndian v) = v) ∧
    (∀ x : Nat, x < 65536 → SwapUInt16MSVC (SwapUInt16MSVC x) = x) ∧
    (∀ x : Nat, x < 4294967296 → SwapUInt32MSVC (SwapUInt32MSVC x) = x) ∧
    (∀ x : Nat, x < 18446744073709551616 → SwapUInt64MSVC (SwapUInt64MSVC x) = x) ∧
    (∀ v : Int, -32768 ≤ v → v < 32768 → SwapInt16MSVC (SwapInt16MSVC v) = v) ∧
    (∀ v : Int, -2147483648 ≤ v → v < 2147483648 → SwapInt32MSVC (SwapInt32MSVC v) = v) ∧
    (∀ v : Int, -9223372036854775808 ≤ v → v < 9223372036854775808 →
      SwapInt64MSVC (SwapInt64MSVC v) = v) := by
  refine ⟨SwapUInt16_twice littleEndian, SwapUInt32_twice littleEndian,
    SwapUInt64_twice littleEndian, SwapInt16_twice littleEndian, SwapInt32_twice littleEndian,
    SwapInt64_twice littleEndian, fun x hx => ?_, fun x hx => ?_, fun x hx => ?_,
    fun v h1 h2 => ?_, fun v h1 h2 => ?_, fun v h1 h2 => ?_⟩
  · rw [SwapUInt16MSVC_eq, SwapUInt16MSVC_eq]; exact SwapUInt16_involution x hx
  · rw [SwapUInt32MSVC_eq, SwapUInt32MSVC_eq]; exact SwapUInt32_involution x hx
  · rw [SwapUInt64MSVC_eq, SwapUInt64MSVC_eq]; exact SwapUInt64_involution x hx
  · rw [SwapInt16MSVC_eq, SwapInt16MSVC_eq]; exact SwapInt16_twice true v h1 h2
  · rw [SwapInt32MSVC_eq, SwapInt32MSVC_eq]; exact SwapInt32_twice true v h1 h2
  · rw [SwapInt64MSVC_eq, SwapInt64MSVC_eq]; exact SwapInt64_twice true v h1 h2

/-- C27, on `0x1234` and on the `Int16` value `-2`, with the flag true: the first swap
gives `0x3412` and `-257`, the second gives the value back. -/
theorem Swap_involution_witness :
    SwapUInt16 true 0x1234 = 0x3412 ∧
    SwapUInt16 true (SwapUInt16 true 0x1234) = 0x1234 ∧
    SwapInt16 true (-2) = -257 ∧
    SwapInt16 true (SwapInt16 true (-2)) = -2 :=
  ⟨by decide, (Swap_involution true).1 0x1234 (by decide), by decide,
   (Swap_involution true).2.2.2.1 (-2) (by decide) (by decide)⟩

end mxflib
